import Mathlib

/-!
# MLFQ scheduler of the xv6-based kernel (`proc.c`)

A shallow embedding of the scheduling core of `proc.c`: the three policy
selectors (`findLottery`, `findHRRN`, `findSRPF`), one iteration of the
`scheduler` loop up to its context switch, the scheduling-control calls and
the decimal conversion helpers.

Conventions of the embedding.

* The process table `ptable.proc[NPROC]` is a `List proc`; `NPROC` is the
  length of the list and a slot is named by its index.
* `int` values are `Int`; every signed operation whose result the source
  stores in an `int` is wrapped by `toInt32` (two's complement, 32 bit).
  `unsigned` values are `Nat` reduced modulo `2^32`.
* `float` and `double` arithmetic is IEEE 754 binary32 and binary64 with
  rounding to nearest, ties to even: every operation is rounded to the format
  of its C type (`fl32`, `fl64`; the evaluation method `FLT_EVAL_METHOD == 0`),
  an operation of a `float` and a `double` being carried out in `double`.
  The value of a `float` expression is a `float`: a rational, an infinity or
  a NaN; the two zeros are not told apart, which no operation of `proc.c`
  can observe. The `float` stored in a slot (`remainedPriority`) is a
  rational, so the slots of the embedding hold finite priorities only.
* Pointers into the table (`winner`, `c->proc`) are slot indices.
-/

namespace Xv6

/-! ## Data model -/

/-- The lifecycle states of a slot, `enum procstate` of `proc.h`. -/
inductive procstate where
  | UNUSED
  | EMBRYO
  | SLEEPING
  | RUNNABLE
  | RUNNING
  | ZOMBIE
  deriving DecidableEq, Repr

/-- The fields of `struct rtcdate` the scheduler reads (all `uint`). -/
structure rtcdate where
  second : Nat := 0
  minute : Nat := 0
  hour : Nat := 0
  deriving DecidableEq, Repr

/-- The scheduling attributes `p->mlfq` of a slot. -/
structure mlfqInfo where
  queueNumber : Int := 0
  arrivalTime : rtcdate := {}
  executedCycleNumber : Int := 0
  lotteryTicket : Int := 0
  remainedPriority : ℚ := 0
  deriving DecidableEq

/-- A slot of the process table: the identity, lifecycle, blocking and
scheduling fields of `struct proc`. `parent` is the index of the parent slot,
`chan` the address slept on (`0` for none). The memory and file resources of
a process (`kstack`, `pgdir`, `tf`, `context`, `sz`, `ofile`, `cwd`, `name`)
are not part of the embedding. -/
structure proc where
  state : procstate := procstate.UNUSED
  pid : Int := 0
  parent : Option Nat := none
  killed : Int := 0
  chan : Nat := 0
  mlfq : mlfqInfo := {}
  deriving DecidableEq

open procstate

/-- Two's-complement reading of an integer as a 32-bit `int`. -/
def toInt32 (x : Int) : Int := (x + 2147483648) % 4294967296 - 2147483648

/-- The generator `rand`: `randstate = randstate * 1664525 + 1013904223` in
32-bit unsigned arithmetic. The value returned is the new state. -/
def rand (randstate : Nat) : Nat := (randstate * 1664525 + 1013904223) % 4294967296

/-! ## Floating point -/

/-- Rounding of a rational to the nearest integer, a tie going to the even
one. -/
def roundHalfEven (x : ℚ) : Int :=
  if x - ⌊x⌋ < 1 / 2 then ⌊x⌋
  else if 1 / 2 < x - ⌊x⌋ then ⌊x⌋ + 1
  else if ⌊x⌋ % 2 = 0 then ⌊x⌋ else ⌊x⌋ + 1

/-- Rounding to nearest, ties to even, in the binary format with `p` fraction
bits and least exponent `emin`: in the binade `[2^e, 2^(e+1))` of `x` the
values of the format are the multiples of `2^(e - p)`, and below `2^emin`
(subnormal range) the multiples of `2^(emin - p)`. The exponent has no upper
limit here; overflow is detected where the result is used (`float.round`). -/
def roundBinary (p : Int) (emin : Int) (x : ℚ) : ℚ :=
  if x = 0 then 0
  else (roundHalfEven (x / 2 ^ (max (Int.log 2 |x|) emin - p)) : ℚ)
    * 2 ^ (max (Int.log 2 |x|) emin - p)

/-- Rounding to `float` (binary32: 24 significant bits, least normal
exponent -126). -/
def fl32 (x : ℚ) : ℚ := roundBinary 23 (-126) x

/-- Rounding to `double` (binary64: 53 significant bits, least normal
exponent -1022). -/
def fl64 (x : ℚ) : ℚ := roundBinary 52 (-1022) x

/-- The value of a `float` expression: a finite value, an infinity with its
sign, or a NaN. -/
inductive float where
  | fin (q : ℚ)
  | inf (negative : Bool)
  | nan
  deriving DecidableEq

/-- The `float` a real result is rounded to: the nearest binary32 value, or
an infinity when that value is `2^128` or more in magnitude. -/
def float.round (x : ℚ) : float :=
  if (2 : ℚ) ^ 128 ≤ |fl32 x| then float.inf (decide (x < 0)) else float.fin (fl32 x)

/-- The conversion `(float) x` of an `int`, which is within the range of
`float`. -/
def float.ofInt (x : Int) : float := float.fin (fl32 (x : ℚ))

/-- Negation of a `float`. -/
def float.neg : float → float
  | float.fin a => float.fin (-a)
  | float.inf s => float.inf (!s)
  | float.nan => float.nan

/-- The sum `a + b` of two `float`s. -/
def float.add : float → float → float
  | float.fin a, float.fin b => float.round (a + b)
  | float.fin _, float.inf s => float.inf s
  | float.inf s, float.fin _ => float.inf s
  | float.inf s, float.inf t => if s = t then float.inf s else float.nan
  | float.nan, _ => float.nan
  | _, float.nan => float.nan

/-- The difference `a - b` of two `float`s. -/
def float.sub (a b : float) : float := float.add a (float.neg b)

/-- The product `a * b` of two `float`s. -/
def float.mul : float → float → float
  | float.fin a, float.fin b => float.round (a * b)
  | float.fin a, float.inf s => if a = 0 then float.nan else float.inf (xor s (decide (a < 0)))
  | float.inf s, float.fin b => if b = 0 then float.nan else float.inf (xor s (decide (b < 0)))
  | float.inf s, float.inf t => float.inf (xor s t)
  | float.nan, _ => float.nan
  | _, float.nan => float.nan

/-- The quotient `a / b` of two `float`s; a zero divisor counts as the
positive zero. -/
def float.div : float → float → float
  | float.fin a, float.fin b =>
    if b = 0 then (if a = 0 then float.nan else float.inf (decide (a < 0)))
    else float.round (a / b)
  | float.fin _, float.inf _ => float.fin 0
  | float.inf s, float.fin b => float.inf (xor s (decide (b < 0)))
  | float.inf _, float.inf _ => float.nan
  | float.nan, _ => float.nan
  | _, float.nan => float.nan

/-- The comparison `a < b` of two `float`s: false when one of them is a
NaN. -/
def float.lt : float → float → Bool
  | float.fin a, float.fin b => decide (a < b)
  | float.fin _, float.inf s => !s
  | float.inf s, float.fin _ => s
  | float.inf s, float.inf t => s && !t
  | float.nan, _ => false
  | _, float.nan => false

/-- The comparison `a <= b` of two `float`s: false when one of them is a
NaN. -/
def float.le : float → float → Bool
  | float.fin a, float.fin b => decide (a ≤ b)
  | float.fin _, float.inf s => !s
  | float.inf s, float.fin _ => s
  | float.inf s, float.inf t => s || !t
  | float.nan, _ => false
  | _, float.nan => false

instance : LT float := ⟨fun a b => float.lt a b = true⟩

instance : LE float := ⟨fun a b => float.le a b = true⟩

instance (a b : float) : Decidable (a < b) :=
  inferInstanceAs (Decidable (float.lt a b = true))

instance (a b : float) : Decidable (a ≤ b) :=
  inferInstanceAs (Decidable (float.le a b = true))

/-- What a selector leaves in its locals `winner` and `foundPid`. -/
structure Selection where
  winner : Option Nat
  foundPid : Int
  deriving DecidableEq

/-! ## Queue 1: lottery -/

/-- First loop of `findLottery`: `ticketSum` over the RUNNABLE slots of
queue 1, starting from the accumulator `ticketSum`. -/
def lotterySum : List proc → Int → Int
  | [], ticketSum => ticketSum
  | p :: ps, ticketSum =>
    if p.state ≠ RUNNABLE then lotterySum ps ticketSum
    else if p.mlfq.queueNumber ≠ 1 then lotterySum ps ticketSum
    else lotterySum ps (toInt32 (ticketSum + p.mlfq.lotteryTicket))

/-- Second loop of `findLottery`, from slot index `i` on, with the current
value of `selectedTicket`. -/
def lotteryWalk : List proc → Nat → Int → Selection
  | [], _, _ => ⟨none, -1⟩
  | p :: ps, i, selectedTicket =>
    if p.state ≠ RUNNABLE then lotteryWalk ps (i + 1) selectedTicket
    else if p.mlfq.queueNumber ≠ 1 then lotteryWalk ps (i + 1) selectedTicket
    else if toInt32 (selectedTicket - p.mlfq.lotteryTicket) ≤ 0 then ⟨some i, p.pid⟩
    else lotteryWalk ps (i + 1) (toInt32 (selectedTicket - p.mlfq.lotteryTicket))

/-- The draw `rand() % ticketSum`: `ticketSum` is converted to `unsigned`,
the remainder is stored in the `int selectedTicket`. -/
def lotteryDraw (r : Nat) (ticketSum : Int) : Int :=
  toInt32 ((r % (ticketSum % 4294967296).toNat : Nat) : Int)

/-- The selector `findLottery` with its locals; the second component is the
generator state it leaves. -/
def findLotterySel (ptable : List proc) (randstate : Nat) : Selection × Nat :=
  let ticketSum := lotterySum ptable 0
  if ticketSum ≠ 0 then
    let r := rand randstate
    (lotteryWalk ptable 0 (lotteryDraw r ticketSum), r)
  else (⟨none, -1⟩, randstate)

/-- The value `findLottery` returns (`foundPid`) and the generator state. -/
def findLottery (ptable : List proc) (randstate : Nat) : Int × Nat :=
  ((findLotterySel ptable randstate).1.foundPid, (findLotterySel ptable randstate).2)

/-! ## Queue 2: highest response ratio next -/

/-- The `int waitingTime` of `findHRRN`: the difference of the two clock
readings in seconds of the day. The fields are `uint`, so the source computes
the sum modulo `2^32` and stores it in an `int`. -/
def waitingTime (currentTime arrivalTime : rtcdate) : Int :=
  toInt32 (((currentTime.second : Int) - arrivalTime.second)
    + ((currentTime.minute : Int) - arrivalTime.minute) * 60
    + ((currentTime.hour : Int) - arrivalTime.hour) * 3600)

/-- The ratio `(float) waitingTime / (float) p->mlfq.executedCycleNumber`:
both `int`s are converted to `float` and the quotient is a `float`, not a
number when both are zero and an infinity when only the divisor is. -/
def HRRN (currentTime : rtcdate) (p : proc) : float :=
  float.div (float.ofInt (waitingTime currentTime p.mlfq.arrivalTime))
    (float.ofInt p.mlfq.executedCycleNumber)

/-- The value of `HRRN` as a rational when `executedCycleNumber` is not zero:
the quotient of the two converted `int`s, rounded to `float`. -/
def hrrnValue (currentTime : rtcdate) (p : proc) : ℚ :=
  fl32 (fl32 (waitingTime currentTime p.mlfq.arrivalTime : ℚ)
    / fl32 (p.mlfq.executedCycleNumber : ℚ))

/-- The loop of `findHRRN` from slot index `i` on. `cmostime j` is the clock
reading taken while slot `j` is examined; `maxHRRN` and `sel` are the locals
carried by the loop. -/
def hrrnLoop (cmostime : Nat → rtcdate) : List proc → Nat → float → Selection → Selection
  | [], _, _, sel => sel
  | p :: ps, i, maxHRRN, sel =>
    if p.state ≠ RUNNABLE then hrrnLoop cmostime ps (i + 1) maxHRRN sel
    else if p.mlfq.queueNumber ≠ 2 then hrrnLoop cmostime ps (i + 1) maxHRRN sel
    else if HRRN (cmostime i) p > maxHRRN then
      hrrnLoop cmostime ps (i + 1) (HRRN (cmostime i) p) ⟨some i, p.pid⟩
    else hrrnLoop cmostime ps (i + 1) maxHRRN sel

/-- The selector `findHRRN` with its locals (`maxHRRN = -1`, `foundPid = -1`
initially). -/
def findHRRNSel (ptable : List proc) (cmostime : Nat → rtcdate) : Selection :=
  hrrnLoop cmostime ptable 0 (float.fin (-1)) ⟨none, -1⟩

/-- The value `findHRRN` returns. -/
def findHRRN (ptable : List proc) (cmostime : Nat → rtcdate) : Int :=
  (findHRRNSel ptable cmostime).foundPid

/-! ## Queue 3: shortest remaining priority first -/

/-- The locals of the first loop of `findSRPF`. -/
structure SRPFScan where
  sel : Selection
  minRemainedPriority : ℚ
  repeatedMinNum : Int
  deriving DecidableEq

/-- First loop of `findSRPF` from slot index `i` on. -/
def srpfScan : List proc → Nat → SRPFScan → SRPFScan
  | [], _, s => s
  | p :: ps, i, s =>
    if p.state ≠ RUNNABLE then srpfScan ps (i + 1) s
    else if p.mlfq.queueNumber ≠ 3 then srpfScan ps (i + 1) s
    else if p.mlfq.remainedPriority < s.minRemainedPriority then
      srpfScan ps (i + 1) ⟨⟨some i, p.pid⟩, p.mlfq.remainedPriority, 1⟩
    else if p.mlfq.remainedPriority = s.minRemainedPriority then
      srpfScan ps (i + 1) { s with repeatedMinNum := toInt32 (s.repeatedMinNum + 1) }
    else srpfScan ps (i + 1) s

/-- Second loop of `findSRPF` from slot index `i` on: the `randNum`-th slot
tied at `minRemainedPriority` is returned from inside the loop; when the loop
runs to its end the selection `sel` of the first loop stands. -/
def srpfPick (minRemainedPriority : ℚ) : List proc → Nat → Int → Selection → Selection
  | [], _, _, sel => sel
  | p :: ps, i, randNum, sel =>
    if p.state = RUNNABLE ∧ p.mlfq.queueNumber = 3
        ∧ p.mlfq.remainedPriority = minRemainedPriority then
      if randNum = 1 then ⟨some i, p.pid⟩
      else srpfPick minRemainedPriority ps (i + 1) (toInt32 (randNum - 1)) sel
    else srpfPick minRemainedPriority ps (i + 1) randNum sel

/-- The draw `(rand() % repeatedMinNum) + 1` stored in `int randNum`. -/
def srpfDraw (r : Nat) (repeatedMinNum : Int) : Int :=
  toInt32 (((r % (repeatedMinNum % 4294967296).toNat : Nat) : Int) + 1)

/-- The selector `findSRPF` with its locals (`minRemainedPriority = 500000`,
`repeatedMinNum = 1`, `foundPid = -1` initially) and the generator state it
leaves. -/
def findSRPFSel (ptable : List proc) (randstate : Nat) : Selection × Nat :=
  let s := srpfScan ptable 0 ⟨⟨none, -1⟩, 500000, 1⟩
  if s.repeatedMinNum ≠ 1 then
    let r := rand randstate
    (srpfPick s.minRemainedPriority ptable 0 (srpfDraw r s.repeatedMinNum) s.sel, r)
  else (s.sel, randstate)

/-- The value `findSRPF` returns and the generator state. -/
def findSRPF (ptable : List proc) (randstate : Nat) : Int × Nat :=
  ((findSRPFSel ptable randstate).1.foundPid, (findSRPFSel ptable randstate).2)

/-! ## The scheduler loop -/

/-- The `double` value of `c->proc->mlfq.remainedPriority - 0.1`: the `float`
is converted to `double` (exactly), `0.1` is the `double` nearest to one
tenth and the difference is rounded to `double`. -/
def decayed (remainedPriority : ℚ) : ℚ := fl64 (remainedPriority - fl64 (1 / 10))

/-- The accounting of the dispatch block on the chosen slot:
`executedCycleNumber += 1` and, for a third-queue dispatch, the decay of
`remainedPriority` by `0.1` clamped at zero: the `double` difference is
compared with zero and, when stored, rounded to `float`. -/
def account (p : proc) (isThirdQueue : Int) : proc :=
  { p with mlfq :=
      { p.mlfq with
        executedCycleNumber := toInt32 (p.mlfq.executedCycleNumber + 1)
        remainedPriority :=
          if isThirdQueue = 1 then
            (if decayed p.mlfq.remainedPriority < 0 then 0
             else fl32 (decayed p.mlfq.remainedPriority))
          else p.mlfq.remainedPriority } }

/-- The search `for(p...) if(p->pid == foundPid)` of the dispatch block: the
index of the first slot holding `foundPid`. -/
def findSlot : List proc → Int → Option Nat
  | [], _ => none
  | p :: ps, foundPid =>
    if p.pid = foundPid then some 0 else (findSlot ps foundPid).map (· + 1)

/-- The table after the dispatch block up to `swtch`: the first slot holding
`foundPid` is accounted and set RUNNING. A `foundPid` held by no slot, which
no selector returns, leaves the table as it is. -/
def dispatch : List proc → Int → Int → List proc
  | [], _, _ => []
  | p :: ps, foundPid, isThirdQueue =>
    if p.pid = foundPid then { account p isThirdQueue with state := RUNNING } :: ps
    else p :: dispatch ps foundPid isThirdQueue

/-- The first RUNNABLE slot, where the round-robin fallback starts. -/
def firstRunnable : List proc → Option Nat
  | [] => none
  | p :: ps => if p.state ≠ RUNNABLE then (firstRunnable ps).map (· + 1) else some 0

/-- The table when the fallback loop reaches its first `swtch`: the first
RUNNABLE slot is set RUNNING; nothing else is written. -/
def fallbackDispatch : List proc → List proc
  | [] => []
  | p :: ps =>
    if p.state ≠ RUNNABLE then p :: fallbackDispatch ps
    else { p with state := RUNNING } :: ps

/-- The branch of the policy cascade taken by an iteration. -/
inductive Branch where
  | lottery
  | hrrn
  | srpf
  | fallback
  deriving DecidableEq, Repr

/-- The machine after one iteration of the `scheduler` loop has run up to its
first context switch: `current` is `c->proc`, the slot switched into
(`none` when the iteration switches into nothing). -/
structure Dispatched where
  ptable : List proc
  randstate : Nat
  isThirdQueue : Int
  foundPid : Int
  branch : Branch
  current : Option Nat

/-- One iteration of the `for(;;)` loop of `scheduler`, up to its first
`swtch`. `isThirdQueue` is the value the local holds from the previous
iteration. -/
def scheduler (ptable : List proc) (randstate : Nat) (cmostime : Nat → rtcdate)
    (isThirdQueue : Int) : Dispatched :=
  let l := findLottery ptable randstate
  if l.1 ≠ -1 then
    ⟨dispatch ptable l.1 0, l.2, 0, l.1, Branch.lottery, findSlot ptable l.1⟩
  else
    let h := findHRRN ptable cmostime
    if h ≠ -1 then
      ⟨dispatch ptable h 0, l.2, 0, h, Branch.hrrn, findSlot ptable h⟩
    else
      let s := findSRPF ptable l.2
      if s.1 ≠ -1 then
        ⟨dispatch ptable s.1 1, s.2, 1, s.1, Branch.srpf, findSlot ptable s.1⟩
      else
        ⟨fallbackDispatch ptable, s.2, isThirdQueue, s.1, Branch.fallback,
          firstRunnable ptable⟩

/-! ## Scheduling-control calls -/

/-- The call `changeQueue(pid, queueNumber)`: return value and table. -/
def changeQueue : List proc → Int → Int → Int × List proc
  | [], _, _ => (-1, [])
  | p :: ps, pid, queueNumber =>
    if p.pid = pid then
      (0, { p with mlfq := { p.mlfq with queueNumber := queueNumber } } :: ps)
    else ((changeQueue ps pid queueNumber).1, p :: (changeQueue ps pid queueNumber).2)

/-- The call `setLotteryTicket(pid, newTicket)`: return value and table. -/
def setLotteryTicket : List proc → Int → Int → Int × List proc
  | [], _, _ => (-1, [])
  | p :: ps, pid, newTicket =>
    if p.mlfq.queueNumber = 1 ∧ p.pid = pid then
      (0, { p with mlfq := { p.mlfq with lotteryTicket := newTicket } } :: ps)
    else ((setLotteryTicket ps pid newTicket).1, p :: (setLotteryTicket ps pid newTicket).2)

/-! ## Decimal conversion helpers -/

/-- The character `(x % 10) + '0'` for an `int` remainder `r = x % 10`. -/
def digitChar (r : Int) : Char := Char.ofNat (r + 48).toNat

/-- The digit loop `while (x) { str[i++] = (x % 10) + '0'; x = x / 10; }` of
`intToStr`: the characters in the order they are written (least significant
first). Division and remainder are those of C (truncation toward zero). The
first argument bounds the number of rounds; `|x|` rounds always suffice, since
each round divides `x` by ten. -/
def intToStrLoop : Nat → Int → List Char
  | 0, _ => []
  | fuel + 1, x =>
    if x = 0 then [] else digitChar (x.tmod 10) :: intToStrLoop fuel (x.tdiv 10)

/-- The string `intToStr(x, str, d)` leaves in `str` (without the terminating
NUL); its length is the value returned. -/
def intToStr (x : Int) (d : Int) : List Char :=
  let s0 : List Char := if x = 0 ∧ d = 0 then ['0'] else []
  let s1 := s0 ++ intToStrLoop x.natAbs x
  let s2 := s1 ++ List.replicate (d - s1.length).toNat '0'
  s2.reverse

/-- The conversion `(int) f` of a `float`: truncation toward zero; a value
outside the range of `int`, an infinity or a NaN yields `INT_MIN`, as the x86
conversion does. -/
def floatToInt : float → Int
  | float.fin f =>
    if -2147483648 ≤ f.num.tdiv f.den ∧ f.num.tdiv f.den ≤ 2147483647 then f.num.tdiv f.den
    else -2147483648
  | float.inf _ => -2147483648
  | float.nan => -2147483648

/-- The loop `for(i = 0; i < afterpoint; i++) fpart = fpart * 10` over an
`int afterpoint`, given as the number of rounds; each product is a `float`. -/
def scaleFpart : Nat → float → float
  | 0, fpart => fpart
  | k + 1, fpart => scaleFpart k (float.mul fpart (float.ofInt 10))

/-- The string `floatToStr(in, afterpoint, res)` leaves in `res`. -/
def floatToStr (f : float) (afterpoint : Int) : List Char :=
  let ipart := floatToInt f
  let fpart := float.sub f (float.ofInt ipart)
  intToStr ipart 0 ++ '.' :: intToStr (floatToInt (scaleFpart afterpoint.toNat fpart)) afterpoint

/-- The loop of `strToFloat` over the characters that remain, with the locals
`point_seen`, `rez` and `fact`; it ends at the terminating NUL, which is the
end of the list or the first NUL character in it. -/
def strToFloatLoop : List Char → Bool → float → float → float
  | [], _, rez, fact => float.mul rez fact
  | c :: cs, point_seen, rez, fact =>
    if c.toNat = 0 then float.mul rez fact
    else if c = '.' then strToFloatLoop cs true rez fact
    else if 0 ≤ (c.toNat : Int) - 48 ∧ (c.toNat : Int) - 48 ≤ 9 then
      strToFloatLoop cs point_seen
        (float.add (float.mul rez (float.fin 10)) (float.ofInt ((c.toNat : Int) - 48)))
        (if point_seen then float.div fact (float.fin 10) else fact)
    else strToFloatLoop cs point_seen rez fact

/-- The parser `strToFloat`. -/
def strToFloat : List Char → float
  | '-' :: cs => strToFloatLoop cs false (float.fin 0) (float.fin (-1))
  | s => strToFloatLoop s false (float.fin 0) (float.fin 1)

/-- The call `setSRPFPriority(pid, newStrPriority)` once the string is
parsed: second loop of the source, return value and table. -/
def setSRPFPriorityLoop : List proc → Int → ℚ → Int × List proc
  | [], _, _ => (-1, [])
  | p :: ps, pid, newPriority =>
    if p.mlfq.queueNumber = 3 ∧ p.pid = pid then
      (0, { p with mlfq := { p.mlfq with remainedPriority := newPriority } } :: ps)
    else ((setSRPFPriorityLoop ps pid newPriority).1,
      p :: (setSRPFPriorityLoop ps pid newPriority).2)

/-- The call `setSRPFPriority(pid, newStrPriority)`: return value and table.
When the string parses to an infinity or a NaN the result is `none`: the
source stores that value, which a slot of the embedding cannot hold. -/
def setSRPFPriority (ptable : List proc) (pid : Int) (newStrPriority : List Char) :
    Option (Int × List proc) :=
  match strToFloat newStrPriority with
  | float.fin newPriority => some (setSRPFPriorityLoop ptable pid newPriority)
  | float.inf _ => none
  | float.nan => none

/-! ## Notions used to state the properties -/

/-- The tickets held by the RUNNABLE slots of queue 1, in table order. -/
def lotteryTickets : List proc → List Int
  | [] => []
  | p :: ps =>
    if p.state = RUNNABLE ∧ p.mlfq.queueNumber = 1 then
      p.mlfq.lotteryTicket :: lotteryTickets ps
    else lotteryTickets ps

/-- The pid of every RUNNABLE slot is a pid (not the `-1` the selectors use
for "none") and no other slot of the table holds it, so that the search by
pid of the dispatch block finds the slot the selector chose. -/
def RunnablePidsUnique (ptable : List proc) : Prop :=
  ∀ (j : Nat) (q : proc), ptable[j]? = some q → q.state = RUNNABLE →
    q.pid ≠ -1 ∧ ∀ (i : Nat) (p : proc), ptable[i]? = some p → p.pid = q.pid → i = j

/-- A queue-1 slot without tickets (pid 1) beside a queue-3 slot (pid 2). -/
def tableNoTickets : List proc :=
  [ { state := RUNNABLE, pid := 1,
      mlfq := { queueNumber := 1, executedCycleNumber := 1, lotteryTicket := 0,
                remainedPriority := 1 } },
    { state := RUNNABLE, pid := 2,
      mlfq := { queueNumber := 3, executedCycleNumber := 1, lotteryTicket := 10,
                remainedPriority := 1 } } ]

/-- A freshly allocated slot made RUNNABLE (queue 1, ten tickets). -/
def freshSlot (pid : Int) : proc :=
  { state := RUNNABLE, pid := pid,
    mlfq := { queueNumber := 1, executedCycleNumber := 1, lotteryTicket := 10,
              remainedPriority := 1 } }

/-- Two fresh RUNNABLE slots with pids 1 and 2. -/
def tableTwoFresh : List proc := [freshSlot 1, freshSlot 2]

/-- Three fresh RUNNABLE queue-1 slots holding 1, 2 and 7 tickets. -/
def tableTickets127 : List proc :=
  [ { freshSlot 1 with mlfq := { (freshSlot 1).mlfq with lotteryTicket := 1 } },
    { freshSlot 2 with mlfq := { (freshSlot 2).mlfq with lotteryTicket := 2 } },
    { freshSlot 3 with mlfq := { (freshSlot 3).mlfq with lotteryTicket := 7 } } ]

/-- Four fresh RUNNABLE queue-1 slots (pids 1 to 4) holding `2^30` tickets
each, as left by `setLotteryTicket(pid, 1073741824)`: the sum of the tickets
is `2^32`. -/
def tableTicketsWrap : List proc :=
  [ { freshSlot 1 with mlfq := { (freshSlot 1).mlfq with lotteryTicket := 1073741824 } },
    { freshSlot 2 with mlfq := { (freshSlot 2).mlfq with lotteryTicket := 1073741824 } },
    { freshSlot 3 with mlfq := { (freshSlot 3).mlfq with lotteryTicket := 1073741824 } },
    { freshSlot 4 with mlfq := { (freshSlot 4).mlfq with lotteryTicket := 1073741824 } } ]

/-- The number of draws `r` in `[0, T)` for which the walk of `findLottery`
makes slot `i` the winner. -/
def lotteryWins (ptable : List proc) (T : Nat) (i : Nat) : Nat :=
  ((List.range T).filter (fun r => (lotteryWalk ptable 0 (r : Int)).winner = some i)).length

/-- The clock reading 10:01:40, a hundred seconds after 10:00:00. -/
def clockLoneHRRN : rtcdate := ⟨40, 1, 10⟩

/-- The number of RUNNABLE queue-3 slots whose `remainedPriority` is `m`. -/
def srpfTies (m : ℚ) : List proc → Nat
  | [] => 0
  | p :: ps =>
    if p.state = RUNNABLE ∧ p.mlfq.queueNumber = 3 ∧ p.mlfq.remainedPriority = m then
      srpfTies m ps + 1
    else srpfTies m ps

/-- A lone RUNNABLE queue-3 slot (pid 4) whose `remainedPriority` is 600000. -/
def tableHighPriority : List proc :=
  [ { state := RUNNABLE, pid := 4,
      mlfq := { queueNumber := 3, executedCycleNumber := 1, lotteryTicket := 10,
                remainedPriority := 600000 } } ]

/-- Two RUNNABLE queue-3 slots (pids 5 and 6) tied at `remainedPriority` 3/10
behind a queue-3 slot (pid 4) of `remainedPriority` 1. -/
def tableTiedSRPF : List proc :=
  [ { state := RUNNABLE, pid := 4,
      mlfq := { queueNumber := 3, executedCycleNumber := 1, lotteryTicket := 10,
                remainedPriority := 1 } },
    { state := RUNNABLE, pid := 5,
      mlfq := { queueNumber := 3, executedCycleNumber := 1, lotteryTicket := 10,
                remainedPriority := 3 / 10 } },
    { state := RUNNABLE, pid := 6,
      mlfq := { queueNumber := 3, executedCycleNumber := 1, lotteryTicket := 10,
                remainedPriority := 3 / 10 } } ]

/-- A RUNNABLE queue-2 slot (pid 1) and a RUNNABLE queue-3 slot (pid 2), both
allocated at 23:59:59. -/
def tableMidnight : List proc :=
  [ { state := RUNNABLE, pid := 1,
      mlfq := { queueNumber := 2, arrivalTime := ⟨59, 59, 23⟩, executedCycleNumber := 1,
                lotteryTicket := 10, remainedPriority := 1 } },
    { state := RUNNABLE, pid := 2,
      mlfq := { queueNumber := 3, arrivalTime := ⟨59, 59, 23⟩, executedCycleNumber := 1,
                lotteryTicket := 10, remainedPriority := 1 } } ]

/-- The clock reading 00:00:00. -/
def clockMidnight : rtcdate := ⟨0, 0, 0⟩

/-- A lone RUNNABLE queue-1 slot (pid 1) holding no ticket, as left by
`setLotteryTicket(1, 0)` on a fresh slot. -/
def tableZeroTicket : List proc :=
  [ { state := RUNNABLE, pid := 1,
      mlfq := { queueNumber := 1, executedCycleNumber := 1, lotteryTicket := 0,
                remainedPriority := 1 } } ]

/-- A RUNNABLE queue-3 slot (pid 9) with `remainedPriority` 1. -/
def slotLoneSRPF : proc :=
  { state := RUNNABLE, pid := 9,
    mlfq := { queueNumber := 3, executedCycleNumber := 1, lotteryTicket := 10,
              remainedPriority := 1 } }

/-- The table holding `slotLoneSRPF` alone. -/
def tableLoneSRPF : List proc := [slotLoneSRPF]

/-- A RUNNABLE queue-3 slot (pid 10) with `remainedPriority` 5. -/
def slotSecondSRPF : proc :=
  { state := RUNNABLE, pid := 10,
    mlfq := { queueNumber := 3, executedCycleNumber := 1, lotteryTicket := 10,
              remainedPriority := 5 } }

/-- The table of `slotLoneSRPF` (pid 9, priority 1) and `slotSecondSRPF`
(pid 10, priority 5). -/
def tableTwoSRPF : List proc := [slotLoneSRPF, slotSecondSRPF]

/-- The table `tableTwoSRPF` after the scheduler has dispatched pid 9 through
the third-queue branch and the process has yielded: slot 0 is RUNNABLE again
with `executedCycleNumber` 2 and `remainedPriority` `7549747/8388608`, the
`float` the dispatch stored. -/
def tableTwoSRPFYielded : List proc :=
  [ { state := RUNNABLE, pid := 9,
      mlfq := { queueNumber := 3, executedCycleNumber := 2, lotteryTicket := 10,
                remainedPriority := 7549747 / 8388608 } },
    slotSecondSRPF ]

/-- The histories `SRPFDispatches k n t t'`: starting from table `t`, slot `k`
has been dispatched `n` times through the third-queue branch of the scheduler
and `t'` is the table at the last context switch. Between the dispatches the
table may change in any way (`other`) that does not write the
`remainedPriority` of slot `k`. -/
inductive SRPFDispatches (k : Nat) : Nat → List proc → List proc → Prop where
  | start (t : List proc) : SRPFDispatches k 0 t t
  | other (n : Nat) (t t1 t2 : List proc) :
      SRPFDispatches k n t t1 →
      t2[k]?.map (fun p => p.mlfq.remainedPriority)
        = t1[k]?.map (fun p => p.mlfq.remainedPriority) →
      SRPFDispatches k n t t2
  | dispatch (n : Nat) (t t1 : List proc) (randstate : Nat) (cmostime : Nat → rtcdate)
      (isThirdQueue : Int) :
      SRPFDispatches k n t t1 →
      (scheduler t1 randstate cmostime isThirdQueue).branch = Branch.srpf →
      (scheduler t1 randstate cmostime isThirdQueue).current = some k →
      SRPFDispatches k (n + 1) t (scheduler t1 randstate cmostime isThirdQueue).ptable

/-- The character is one of `'0'..'9'`. -/
def isDecimalDigit (c : Char) : Bool := decide (48 ≤ c.toNat) && decide (c.toNat ≤ 57)

/-- The character is a decimal digit or the point: the characters
`strToFloat` acts on. -/
def isNumeric (c : Char) : Bool := c == '.' || isDecimalDigit c

/-- The number written by a string of decimal digits, continuing from `v`. -/
def digitsValue : List Char → Nat → Nat
  | [], v => v
  | c :: cs, v => digitsValue cs (v * 10 + (c.toNat - 48))

/-- The number written by a string of decimal digits. -/
def decimalValue (cs : List Char) : Nat := digitsValue cs 0

/-- The optional leading sign of a decimal string. -/
def signChars (neg : Bool) : List Char := if neg then ['-'] else []

/-- The optional fraction `.F` of a decimal string. -/
def fracChars (dot : Bool) (F : List Char) : List Char := if dot then '.' :: F else []

/-! ## Lifecycle operations -/

/-- The address `&ptable.proc[i]` of slot `i`, used as a sleep channel by
`wait` and `exit`: distinct slots have distinct, non-null addresses. -/
def procAddr (i : Nat) : Nat := i + 1

/-- The assignment `p->state = s` on slot `i`. -/
def setState (ptable : List proc) (i : Nat) (s : procstate) : List proc :=
  match ptable[i]? with
  | some p => ptable.set i { p with state := s }
  | none => ptable

/-- The `found:` block of `allocproc` applied to the slot it claims. -/
def allocated (p : proc) (nextpid : Int) (now : rtcdate) : proc :=
  { p with
    state := EMBRYO
    pid := nextpid
    mlfq := { p.mlfq with
      arrivalTime := now
      queueNumber := 1
      executedCycleNumber := 1
      remainedPriority := 1
      lotteryTicket := 10 } }

/-- The scan of `allocproc` for an UNUSED slot followed by the `found:`
block: the index of the slot claimed and the table, or `none` when no slot is
UNUSED. -/
def allocprocScan : List proc → Int → rtcdate → Option (Nat × List proc)
  | [], _, _ => none
  | p :: ps, nextpid, now =>
    if p.state = UNUSED then some (0, allocated p nextpid now :: ps)
    else (allocprocScan ps nextpid now).map (fun r => (r.1 + 1, p :: r.2))

/-- What `allocproc` leaves: the slot returned (`none` for the null pointer),
the table and the counter `nextpid`. -/
structure Allocation where
  slot : Option Nat
  ptable : List proc
  nextpid : Int
  deriving DecidableEq

/-- The function `allocproc`. `now` is the clock reading of `cmostime` and
`kallocOk` tells whether `kalloc` returns a kernel stack; when it does not,
the claimed slot is set back to UNUSED. -/
def allocproc (ptable : List proc) (nextpid : Int) (now : rtcdate) (kallocOk : Bool) :
    Allocation :=
  match allocprocScan ptable nextpid now with
  | none => ⟨none, ptable, nextpid⟩
  | some (i, t) =>
    if kallocOk then ⟨some i, t, toInt32 (nextpid + 1)⟩
    else ⟨none, setState t i UNUSED, toInt32 (nextpid + 1)⟩

/-- What `fork` leaves: the value returned, the table and `nextpid`. -/
structure Forked where
  ret : Int
  ptable : List proc
  nextpid : Int
  deriving DecidableEq

/-- The pid `np->pid` read from slot `np`. -/
def pidOf (ptable : List proc) (np : Nat) : Int :=
  match ptable[np]? with
  | some p => p.pid
  | none => 0

/-- The assignment `np->parent = curproc`. -/
def setParent (ptable : List proc) (np : Nat) (curproc : Nat) : List proc :=
  match ptable[np]? with
  | some p => ptable.set np { p with parent := some curproc }
  | none => ptable

/-- The function `fork` called by the process in slot `curproc`.
`copyuvmOk` tells whether `copyuvm` succeeds; when it does not, the new slot
is set back to UNUSED. -/
def fork (ptable : List proc) (nextpid : Int) (now : rtcdate) (curproc : Nat)
    (kallocOk copyuvmOk : Bool) : Forked :=
  match (allocproc ptable nextpid now kallocOk).slot with
  | none =>
    ⟨-1, (allocproc ptable nextpid now kallocOk).ptable,
      (allocproc ptable nextpid now kallocOk).nextpid⟩
  | some np =>
    if copyuvmOk then
      ⟨pidOf (allocproc ptable nextpid now kallocOk).ptable np,
        setState (setParent (allocproc ptable nextpid now kallocOk).ptable np curproc)
          np RUNNABLE,
        (allocproc ptable nextpid now kallocOk).nextpid⟩
    else
      ⟨-1, setState (allocproc ptable nextpid now kallocOk).ptable np UNUSED,
        (allocproc ptable nextpid now kallocOk).nextpid⟩

/-- The function `wakeup1(chan)`. -/
def wakeup1 : List proc → Nat → List proc
  | [], _ => []
  | p :: ps, chan =>
    (if p.state = SLEEPING ∧ p.chan = chan then { p with state := RUNNABLE } else p)
      :: wakeup1 ps chan

/-- The function `wakeup(chan)`: `wakeup1` under the table lock. -/
def wakeup (ptable : List proc) (chan : Nat) : List proc := wakeup1 ptable chan

/-- The function `kill(pid)`: return value and table. -/
def kill : List proc → Int → Int × List proc
  | [], _ => (-1, [])
  | p :: ps, pid =>
    if p.pid = pid then
      (0, { p with
              killed := 1
              state := if p.state = SLEEPING then RUNNABLE else p.state } :: ps)
    else ((kill ps pid).1, p :: (kill ps pid).2)

/-- The locals of the scan of `wait` when it ends: the pid of the child
reaped (`none` when the scan ran to the end of the table), `havekids`, and the
table. -/
structure WaitScan where
  pid : Option Int
  havekids : Int
  ptable : List proc
  deriving DecidableEq

/-- The inner loop of `wait` for the caller in slot `curproc`, with the
current value of `havekids`: the first ZOMBIE child is reaped. -/
def waitScan (curproc : Nat) : List proc → Int → WaitScan
  | [], havekids => ⟨none, havekids, []⟩
  | p :: ps, havekids =>
    if p.parent ≠ some curproc then
      ⟨(waitScan curproc ps havekids).pid, (waitScan curproc ps havekids).havekids,
        p :: (waitScan curproc ps havekids).ptable⟩
    else if p.state = ZOMBIE then
      ⟨some p.pid, 1, { p with pid := 0, parent := none, killed := 0, state := UNUSED } :: ps⟩
    else
      ⟨(waitScan curproc ps 1).pid, (waitScan curproc ps 1).havekids,
        p :: (waitScan curproc ps 1).ptable⟩

/-- The flag `curproc->killed`. -/
def killedOf (ptable : List proc) (curproc : Nat) : Int :=
  match ptable[curproc]? with
  | some p => p.killed
  | none => 0

/-- The function `sleep(chan, lk)` up to its call of `sched`:
`p->chan = chan; p->state = SLEEPING`. -/
def sleep (ptable : List proc) (curproc : Nat) (chan : Nat) : List proc :=
  match ptable[curproc]? with
  | some p => ptable.set curproc { p with chan := chan, state := SLEEPING }
  | none => ptable

/-- How one round of the `for(;;)` loop of `wait` ends: it returns the pid of
a reaped child, returns -1, or sleeps on the caller's own slot (to run the
loop again when woken). -/
inductive WaitResult where
  | reaped (pid : Int) (ptable : List proc)
  | failed (ptable : List proc)
  | sleeping (ptable : List proc)
  deriving DecidableEq

/-- One round of the `for(;;)` loop of `wait` for the caller in slot
`curproc`. -/
def wait (ptable : List proc) (curproc : Nat) : WaitResult :=
  match (waitScan curproc ptable 0).pid with
  | some pid => WaitResult.reaped pid (waitScan curproc ptable 0).ptable
  | none =>
    if (waitScan curproc ptable 0).havekids = 0 ∨ killedOf ptable curproc ≠ 0 then
      WaitResult.failed ptable
    else WaitResult.sleeping (sleep ptable curproc (procAddr curproc))

/-- The table a `WaitResult` leaves. -/
def WaitResult.table : WaitResult → List proc
  | WaitResult.reaped _ t => t
  | WaitResult.failed t => t
  | WaitResult.sleeping t => t

/-- The value `wait` returns, when it returns. -/
def WaitResult.ret : WaitResult → Option Int
  | WaitResult.reaped pid _ => some pid
  | WaitResult.failed _ => some (-1)
  | WaitResult.sleeping _ => none

/-- The function `yield` up to `sched`: `myproc()->state = RUNNABLE`. -/
def yield (ptable : List proc) (curproc : Nat) : List proc := setState ptable curproc RUNNABLE

/-- The channel `curproc->parent` on which `exit` wakes the parent. -/
def parentChan (ptable : List proc) (curproc : Nat) : Nat :=
  match ptable[curproc]? with
  | some p =>
    (match p.parent with
     | some j => procAddr j
     | none => 0)
  | none => 0

/-- The body of the loop of `exit` at slot `i`: a child of `curproc` is
passed to `initproc`, which is woken when the child is a ZOMBIE. -/
def exitBody (curproc initproc : Nat) (ptable : List proc) (i : Nat) : List proc :=
  match ptable[i]? with
  | some p =>
    if p.parent = some curproc then
      if p.state = ZOMBIE then
        wakeup1 (ptable.set i { p with parent := some initproc }) (procAddr initproc)
      else ptable.set i { p with parent := some initproc }
    else ptable
  | none => ptable

/-- The function `exit` of the process in slot `curproc`, from the acquisition
of the table lock to `sched`; `none` is the panic of `initproc` exiting. -/
def exit (ptable : List proc) (curproc initproc : Nat) : Option (List proc) :=
  if curproc = initproc then none
  else
    some (setState
      ((List.range ptable.length).foldl (exitBody curproc initproc)
        (wakeup1 ptable (parentChan ptable curproc)))
      curproc ZOMBIE)

/-- The system call `setTicket(n)` of `sysproc.c`:
`myproc()->mlfq.lotteryTicket = ticketNum`. -/
def sys_setTicket (ptable : List proc) (curproc : Nat) (ticketNum : Int) : List proc :=
  match ptable[curproc]? with
  | some p => ptable.set curproc { p with mlfq := { p.mlfq with lotteryTicket := ticketNum } }
  | none => ptable

/-- A parent (slot 0, pid 1) sleeping in `wait` on its own slot, with a
RUNNABLE child (pid 2) and a ZOMBIE child (pid 3). -/
def tableFamily : List proc :=
  [ { state := SLEEPING, pid := 1, chan := procAddr 0,
      mlfq := { queueNumber := 1, executedCycleNumber := 3, lotteryTicket := 10,
                remainedPriority := 1 } },
    { state := RUNNABLE, pid := 2, parent := some 0,
      mlfq := { queueNumber := 1, executedCycleNumber := 2, lotteryTicket := 10,
                remainedPriority := 1 } },
    { state := ZOMBIE, pid := 3, parent := some 0,
      mlfq := { queueNumber := 2, executedCycleNumber := 4, lotteryTicket := 10,
                remainedPriority := 1 } } ]

/-- The table `tableFamily` with the parent marked killed and no child a
ZOMBIE. -/
def tableKilledParent : List proc :=
  [ { state := RUNNING, pid := 1, killed := 1,
      mlfq := { queueNumber := 1, executedCycleNumber := 3, lotteryTicket := 10,
                remainedPriority := 1 } },
    { state := RUNNABLE, pid := 2, parent := some 0,
      mlfq := { queueNumber := 1, executedCycleNumber := 2, lotteryTicket := 10,
                remainedPriority := 1 } } ]

/-- The initial process table of `n` slots: static storage, all fields zero,
every slot UNUSED. -/
def initialTable (n : Nat) : List proc := List.replicate n {}

/-- The tidy-up of `sleep` after the process is woken: `p->chan = 0`. -/
def sleepReturn (ptable : List proc) (curproc : Nat) : List proc :=
  match ptable[curproc]? with
  | some p => ptable.set curproc { p with chan := 0 }
  | none => ptable

/-! ## The machine and its atomic actions -/

/-- The shared state of the kernel the lifecycle operations act on: the
process table and the pid counter `nextpid`. -/
structure Machine where
  ptable : List proc
  nextpid : Int

/-- The process in slot `i` is the one running on a CPU (`myproc()`): its
state is RUNNING. -/
def isRunning (ptable : List proc) (i : Nat) : Prop :=
  ∃ p, ptable[i]? = some p ∧ p.state = RUNNING

/-- Slot `i` is held by a creation in progress: its state is EMBRYO. -/
def isEmbryo (ptable : List proc) (i : Nat) : Prop :=
  ∃ p, ptable[i]? = some p ∧ p.state = EMBRYO

/-- Slot `i` is RUNNABLE. -/
def isRunnable (ptable : List proc) (i : Nat) : Prop :=
  ∃ p, ptable[i]? = some p ∧ p.state = RUNNABLE

/-- The atomic actions of the operations of `proc.c` on the machine, each one
the part of an operation that runs under the table lock or a single
assignment to a slot. The label is the pid an action assigns (`none` for the
actions that assign none). `okQ` is the set of queue numbers callers pass to
`changeQueue`.

* `alloc`: the scan and `found:` block of `allocproc`, the counter below
  `INT_MAX`;
* `allocFail`: `p->state = UNUSED` of `allocproc` when `kalloc` fails and of
  `fork` when `copyuvm` fails, on the EMBRYO slot being created;
* `forkParent`, `publish`: `np->parent = curproc` and `np->state = RUNNABLE`
  of `fork` (and `p->state = RUNNABLE` of `userinit`) on the EMBRYO slot;
* `exit`, `wait`, `sleep`, `sleepReturn`, `yield`, `setTicket`: called by the
  process running in slot `curproc`;
* `kill`, `wakeup`, `changeQueue`, `setLotteryTicket`, `setSRPFPriority`:
  with arbitrary arguments (for `setSRPFPriority`, any pid and any string
  that is parsed to a finite `float`, the priorities a slot of the embedding
  holds);
* `schedule`: one iteration of the scheduler loop up to its context switch;
  `fallbackNext`: the round-robin fallback loop going on to a later RUNNABLE
  slot after a process has switched back. -/
inductive Step (okQ : Int → Prop) : Machine → Option Int → Machine → Prop where
  | alloc (m : Machine) (now : rtcdate) (i : Nat) (t : List proc) :
      allocprocScan m.ptable m.nextpid now = some (i, t) →
      m.nextpid < 2147483647 →
      Step okQ m (some m.nextpid) ⟨t, m.nextpid + 1⟩
  | allocFail (m : Machine) (i : Nat) :
      isEmbryo m.ptable i →
      Step okQ m none ⟨setState m.ptable i UNUSED, m.nextpid⟩
  | forkParent (m : Machine) (np curproc : Nat) :
      isEmbryo m.ptable np →
      Step okQ m none ⟨setParent m.ptable np curproc, m.nextpid⟩
  | publish (m : Machine) (np : Nat) :
      isEmbryo m.ptable np →
      Step okQ m none ⟨setState m.ptable np RUNNABLE, m.nextpid⟩
  | exit (m : Machine) (curproc initproc : Nat) (t : List proc) :
      isRunning m.ptable curproc →
      exit m.ptable curproc initproc = some t →
      Step okQ m none ⟨t, m.nextpid⟩
  | wait (m : Machine) (curproc : Nat) :
      isRunning m.ptable curproc →
      Step okQ m none ⟨(wait m.ptable curproc).table, m.nextpid⟩
  | sleep (m : Machine) (curproc chan : Nat) :
      isRunning m.ptable curproc →
      Step okQ m none ⟨sleep m.ptable curproc chan, m.nextpid⟩
  | sleepReturn (m : Machine) (curproc : Nat) :
      isRunning m.ptable curproc →
      Step okQ m none ⟨sleepReturn m.ptable curproc, m.nextpid⟩
  | yield (m : Machine) (curproc : Nat) :
      isRunning m.ptable curproc →
      Step okQ m none ⟨yield m.ptable curproc, m.nextpid⟩
  | setTicket (m : Machine) (curproc : Nat) (ticketNum : Int) :
      isRunning m.ptable curproc →
      Step okQ m none ⟨sys_setTicket m.ptable curproc ticketNum, m.nextpid⟩
  | kill (m : Machine) (pid : Int) :
      Step okQ m none ⟨(kill m.ptable pid).2, m.nextpid⟩
  | wakeup (m : Machine) (chan : Nat) :
      Step okQ m none ⟨wakeup m.ptable chan, m.nextpid⟩
  | changeQueue (m : Machine) (pid queueNumber : Int) :
      okQ queueNumber →
      Step okQ m none ⟨(changeQueue m.ptable pid queueNumber).2, m.nextpid⟩
  | setLotteryTicket (m : Machine) (pid newTicket : Int) :
      Step okQ m none ⟨(setLotteryTicket m.ptable pid newTicket).2, m.nextpid⟩
  | setSRPFPriority (m : Machine) (pid : Int) (newStrPriority : List Char)
      (r : Int × List proc) :
      setSRPFPriority m.ptable pid newStrPriority = some r →
      Step okQ m none ⟨r.2, m.nextpid⟩
  | schedule (m : Machine) (randstate : Nat) (cmostime : Nat → rtcdate)
      (isThirdQueue : Int) :
      Step okQ m none ⟨(scheduler m.ptable randstate cmostime isThirdQueue).ptable, m.nextpid⟩
  | fallbackNext (m : Machine) (i : Nat) :
      isRunnable m.ptable i →
      Step okQ m none ⟨setState m.ptable i RUNNING, m.nextpid⟩

/-- The machines reachable from the initial one (`NPROC = n` slots, all
UNUSED and zero, `nextpid = 1`) by atomic actions, with the pids assigned so
far, the latest first. -/
inductive Reach (okQ : Int → Prop) (n : Nat) : Machine → List Int → Prop where
  | init : Reach okQ n ⟨initialTable n, 1⟩ []
  | step (m m' : Machine) (log : List Int) (a : Option Int) :
      Reach okQ n m log → Step okQ m a m' → Reach okQ n m' (a.toList ++ log)

/-- Every queue number is passed to `changeQueue`. -/
def anyQueue (_ : Int) : Prop := True

/-- The queue numbers 1, 2 and 3. -/
def validQueue (q : Int) : Prop := q = 1 ∨ q = 2 ∨ q = 3

/-- The eight changes of lifecycle state of the state diagram:
UNUSED→EMBRYO, EMBRYO→RUNNABLE, RUNNABLE→RUNNING, RUNNING→RUNNABLE,
RUNNING→SLEEPING, SLEEPING→RUNNABLE, RUNNING→ZOMBIE, ZOMBIE→UNUSED. -/
def admissible : procstate → procstate → Bool
  | UNUSED, EMBRYO => true
  | EMBRYO, RUNNABLE => true
  | RUNNABLE, RUNNING => true
  | RUNNING, RUNNABLE => true
  | RUNNING, SLEEPING => true
  | SLEEPING, RUNNABLE => true
  | RUNNING, ZOMBIE => true
  | ZOMBIE, UNUSED => true
  | _, _ => false

/-- What an action other than `alloc` does to a slot: its state stays, or
changes along the state diagram from a state other than UNUSED, or goes
back from EMBRYO to UNUSED; its pid stays, or is zeroed as the slot becomes
UNUSED; its queue number stays or becomes one of `okQ`. -/
def SlotStep (okQ : Int → Prop) (p p' : proc) : Prop :=
  (p'.state = p.state ∨ (admissible p.state p'.state = true ∧ p.state ≠ UNUSED)
    ∨ (p.state = EMBRYO ∧ p'.state = UNUSED))
  ∧ (p'.pid = p.pid ∨ (p'.pid = 0 ∧ p'.state = UNUSED))
  ∧ (p'.mlfq.queueNumber = p.mlfq.queueNumber ∨ okQ p'.mlfq.queueNumber)

/-- The invariant of the pids: the counter is positive, every pid in the
table is non-negative and below the counter, an allocated slot has a
non-zero pid, and a non-zero pid is held by one slot only. -/
def PidInv (m : Machine) : Prop :=
  1 ≤ m.nextpid
  ∧ (∀ p ∈ m.ptable, 0 ≤ p.pid ∧ p.pid < m.nextpid)
  ∧ (∀ p ∈ m.ptable, p.state ≠ UNUSED → p.pid ≠ 0)
  ∧ (∀ (i j : Nat) (p q : proc), m.ptable[i]? = some p → m.ptable[j]? = some q →
      p.pid = q.pid → p.pid ≠ 0 → i = j)

/-- Two tables of the same length whose slots of equal index are related by
`R`. -/
def Slotwise (R : proc → proc → Prop) (t t' : List proc) : Prop :=
  t'.length = t.length
  ∧ ∀ (i : Nat) (p p' : proc), t[i]? = some p → t'[i]? = some p' → R p p'

/-- What `wakeup1` and the re-parenting of `exit` do to a slot: the pid and
the scheduling fields stay, and the state stays or goes from SLEEPING to
RUNNABLE. -/
def WakeStep (p p' : proc) : Prop :=
  p'.pid = p.pid ∧ p'.mlfq = p.mlfq
  ∧ (p'.state = p.state ∨ (p.state = SLEEPING ∧ p'.state = RUNNABLE))

/-- The table of one slot after the first `allocproc` (pid 1, clock
10:01:40): the slot is EMBRYO. -/
def tableOneEmbryo : List proc := [allocated {} 1 clockLoneHRRN]

/-- The machine of one slot after the first allocation. -/
def machineOneEmbryo : Machine := ⟨tableOneEmbryo, 1 + 1⟩

/-- The machine of three slots after two successive allocations (pids 1 and
2, clock 10:01:40): slots 0 and 1 are EMBRYO, slot 2 is UNUSED. -/
def machineTwoEmbryos : Machine :=
  ⟨[allocated {} 1 clockLoneHRRN, allocated {} (1 + 1) clockLoneHRRN, {}], 1 + 1 + 1⟩

/-- The machine `machineTwoEmbryos` after a third allocation (pid 3). -/
def machineThreeEmbryos : Machine :=
  ⟨[allocated {} 1 clockLoneHRRN, allocated {} (1 + 1) clockLoneHRRN,
    allocated {} (1 + 1 + 1) clockLoneHRRN], 1 + 1 + 1 + 1⟩

/-- The machine `machineOneEmbryo` after `changeQueue(1, 7)`. -/
def machineQueueSeven : Machine := ⟨(changeQueue tableOneEmbryo 1 7).2, 1 + 1⟩

/-- The machine `machineOneEmbryo` after its slot is set back to UNUSED. -/
def machineRolledBack : Machine := ⟨setState tableOneEmbryo 0 UNUSED, 1 + 1⟩

/-- Two RUNNABLE queue-3 slots (pids 5 and 6) tied at `remainedPriority`
500000, as left by `setSRPFPriority(5, "500000")` and
`setSRPFPriority(6, "500000")`. -/
def tableTiedAtBound : List proc :=
  [ { state := RUNNABLE, pid := 5,
      mlfq := { queueNumber := 3, executedCycleNumber := 1, lotteryTicket := 10,
                remainedPriority := 500000 } },
    { state := RUNNABLE, pid := 6,
      mlfq := { queueNumber := 3, executedCycleNumber := 1, lotteryTicket := 10,
                remainedPriority := 500000 } } ]

/-! ## The process listing -/

/-- The size in bytes of the local `char buf[5]` of `printInfo`. -/
def bufSize : Nat := 5

/-- The bytes a call of `intToStr` or `floatToStr` stores through its string
argument when it leaves the string `s` there: the characters of `s` and the
terminating NUL. -/
def bytesWritten (s : List Char) : Nat := s.length + 1

/-- The strings `printInfo` writes into `buf` for the row of slot `p`, in the
order of the calls: `pid`, `remainedPriority` with one decimal,
`lotteryTicket`, `queueNumber`, `executedCycleNumber` and the HRRN at the
clock reading `currentTime` with three decimals. -/
def printInfoBuf (currentTime : rtcdate) (p : proc) : List (List Char) :=
  [ intToStr p.pid 0,
    floatToStr (float.fin p.mlfq.remainedPriority) 1,
    intToStr p.mlfq.lotteryTicket 0,
    intToStr p.mlfq.queueNumber 0,
    intToStr p.mlfq.executedCycleNumber 0,
    floatToStr (HRRN currentTime p) 3 ]

/-- The loop of `printInfo` from slot index `i` on: the slots whose state is
`0` (UNUSED) or `1` (EMBRYO) are skipped, every other slot gives a row.
`cmostime i` is the clock reading taken for the row of slot `i`. -/
def printInfoLoop (cmostime : Nat → rtcdate) : List proc → Nat → List (List (List Char))
  | [], _ => []
  | p :: ps, i =>
    if p.state = UNUSED ∨ p.state = EMBRYO then printInfoLoop cmostime ps (i + 1)
    else printInfoBuf (cmostime i) p :: printInfoLoop cmostime ps (i + 1)

/-- The writes of `printInfo` into `buf`, row by row. -/
def printInfo (ptable : List proc) (cmostime : Nat → rtcdate) : List (List (List Char)) :=
  printInfoLoop cmostime ptable 0

/-- The machine of one slot whose table is `tableZeroTicket`: the first
process (pid 1) after `setLotteryTicket(1, 0)`. -/
def machineZeroTicket : Machine := ⟨tableZeroTicket, 1 + 1⟩

/-- The value of `fact` after `k` digits behind the point, from the value
`fact` at the point: each digit divides it by `10.0f`, rounding to `float`. -/
def tenthPower : Nat → ℚ → ℚ
  | 0, fact => fact
  | k + 1, fact => tenthPower k (fl32 (fact / 10))

/-! ## Arithmetic of `int` -/

theorem toInt32_eq (x : Int) (h1 : -2147483648 ≤ x) (h2 : x < 2147483648) :
    toInt32 x = x := by
  unfold toInt32
  omega

/-! ## Rounding -/

theorem roundHalfEven_sub_le (x : ℚ) : |(roundHalfEven x : ℚ) - x| ≤ 1 / 2 := by
  have h1 := Int.floor_le x
  have h2 := Int.lt_floor_add_one x
  unfold roundHalfEven
  split_ifs with ha hb hc
  · rw [abs_le]; constructor <;> linarith
  · push_cast; rw [abs_le]; constructor <;> linarith
  · rw [abs_le]; constructor <;> linarith
  · push_cast; rw [abs_le]; constructor <;> linarith

theorem roundHalfEven_eq (x : ℚ) (m : Int) (h : |x - m| < 1 / 2) : roundHalfEven x = m := by
  have hx := roundHalfEven_sub_le x
  rw [abs_lt] at h
  rw [abs_le] at hx
  have h1 : ((roundHalfEven x : Int) : ℚ) - m < 1 := by linarith
  have h2 : (-1 : ℚ) < ((roundHalfEven x : Int) : ℚ) - m := by linarith
  have h3 : roundHalfEven x - m < 1 := by exact_mod_cast h1
  have h4 : -1 < roundHalfEven x - m := by exact_mod_cast h2
  omega

theorem roundHalfEven_intCast (m : Int) : roundHalfEven (m : ℚ) = m :=
  roundHalfEven_eq _ m (by simp)

theorem roundHalfEven_tie (m : Int) (x : ℚ) (hx : x = m + 1 / 2) :
    roundHalfEven x = if m % 2 = 0 then m else m + 1 := by
  have hf : ⌊x⌋ = m := by
    rw [Int.floor_eq_iff]
    constructor <;> linarith
  unfold roundHalfEven
  rw [hf]
  have h1 : ¬ (x - (m : ℚ) < 1 / 2) := by rw [hx]; norm_num
  have h2 : ¬ ((1 : ℚ) / 2 < x - (m : ℚ)) := by rw [hx]; norm_num
  simp only [h1, h2, if_false]

theorem roundHalfEven_nonneg (x : ℚ) (h : 0 ≤ x) : 0 ≤ roundHalfEven x := by
  have hf : 0 ≤ ⌊x⌋ := Int.floor_nonneg.mpr h
  unfold roundHalfEven
  split_ifs <;> omega

theorem roundHalfEven_nonpos (x : ℚ) (h : x ≤ 0) : roundHalfEven x ≤ 0 := by
  by_contra hc
  have h1 : (1 : Int) ≤ roundHalfEven x := by omega
  have h2 : (1 : ℚ) ≤ (roundHalfEven x : ℚ) := by exact_mod_cast h1
  have := roundHalfEven_sub_le x
  rw [abs_le] at this
  -- roundHalfEven x ≥ 1, x ≤ 0, so difference ≥ 1 > 1/2
  linarith [this.2]


theorem int_log_two_eq (x : ℚ) (e : Int) (h1 : (2 : ℚ) ^ e ≤ x) (h2 : x < (2 : ℚ) ^ (e + 1)) :
    Int.log 2 x = e := by
  have hpos : 0 < x := lt_of_lt_of_le (zpow_pos (by norm_num) e) h1
  have ha : e ≤ Int.log 2 x := by
    rw [← Int.zpow_le_iff_le_log (by norm_num) hpos]
    simpa using h1
  have hb : Int.log 2 x < e + 1 := by
    rw [← Int.lt_zpow_iff_log_lt (by norm_num) hpos]
    simpa using h2
  omega

theorem roundBinary_zero (p emin : Int) : roundBinary p emin 0 = 0 := by
  simp [roundBinary]

theorem roundBinary_of_exponent (p emin : Int) (x : ℚ) (e : Int) (hx : x ≠ 0)
    (he : max (Int.log 2 |x|) emin = e) :
    roundBinary p emin x = (roundHalfEven (x / 2 ^ (e - p)) : ℚ) * 2 ^ (e - p) := by
  simp only [roundBinary, hx, if_false, he]

theorem exponent_normal (emin : Int) (x : ℚ) (e : Int) (hemin : emin ≤ e)
    (h1 : (2 : ℚ) ^ e ≤ |x|) (h2 : |x| < (2 : ℚ) ^ (e + 1)) :
    max (Int.log 2 |x|) emin = e := by
  rw [int_log_two_eq |x| e h1 h2]
  exact max_eq_left hemin

theorem exponent_subnormal (emin : Int) (x : ℚ) (hx : x ≠ 0) (h2 : |x| < (2 : ℚ) ^ emin) :
    max (Int.log 2 |x|) emin = emin := by
  apply max_eq_right
  have hpos : 0 < |x| := abs_pos.mpr hx
  have : Int.log 2 |x| < emin := by
    rw [← Int.lt_zpow_iff_log_lt (by norm_num) hpos]
    simpa using h2
  omega

/-- certificate for a rounding in the normal range -/
theorem roundBinary_near (p emin : Int) (x : ℚ) (m q : Int) (hemin : emin ≤ q + p)
    (h1 : (2 : ℚ) ^ (q + p) ≤ |x|) (h2 : |x| < (2 : ℚ) ^ (q + p + 1))
    (hm : |x / 2 ^ q - m| < 1 / 2) :
    roundBinary p emin x = (m : ℚ) * 2 ^ q := by
  have hx : x ≠ 0 := by
    intro h0
    rw [h0, abs_zero] at h1
    exact absurd h1 (not_le.mpr (zpow_pos (by norm_num) _))
  rw [roundBinary_of_exponent p emin x (q + p) hx (exponent_normal emin x (q + p) hemin h1 h2)]
  have hq : q + p - p = q := by omega
  rw [hq, roundHalfEven_eq _ m hm]

theorem roundBinary_near_tie (p emin : Int) (x : ℚ) (m q : Int) (hemin : emin ≤ q + p)
    (h1 : (2 : ℚ) ^ (q + p) ≤ |x|) (h2 : |x| < (2 : ℚ) ^ (q + p + 1))
    (hm : x / 2 ^ q = m + 1 / 2) :
    roundBinary p emin x = ((if m % 2 = 0 then m else m + 1 : Int) : ℚ) * 2 ^ q := by
  have hx : x ≠ 0 := by
    intro h0
    rw [h0, abs_zero] at h1
    exact absurd h1 (not_le.mpr (zpow_pos (by norm_num) _))
  rw [roundBinary_of_exponent p emin x (q + p) hx (exponent_normal emin x (q + p) hemin h1 h2)]
  have hq : q + p - p = q := by omega
  rw [hq, roundHalfEven_tie m _ hm]

theorem roundBinary_nonneg (p emin : Int) (x : ℚ) (h : 0 ≤ x) : 0 ≤ roundBinary p emin x := by
  unfold roundBinary
  split_ifs with h0
  · exact le_refl 0
  · apply mul_nonneg
    · exact_mod_cast roundHalfEven_nonneg _ (div_nonneg h (le_of_lt (zpow_pos (by norm_num) _)))
    · exact le_of_lt (zpow_pos (by norm_num) _)

theorem roundBinary_nonpos (p emin : Int) (x : ℚ) (h : x ≤ 0) : roundBinary p emin x ≤ 0 := by
  unfold roundBinary
  split_ifs with h0
  · exact le_refl 0
  · apply mul_nonpos_of_nonpos_of_nonneg
    · exact_mod_cast roundHalfEven_nonpos _
        (div_nonpos_of_nonpos_of_nonneg h (le_of_lt (zpow_pos (by norm_num) _)))
    · exact le_of_lt (zpow_pos (by norm_num) _)

/-- distance of the rounded value: half a unit of the binade -/
theorem roundBinary_sub_le (p emin : Int) (x : ℚ) (e : Int)
    (he : max (Int.log 2 |x|) emin = e) :
    |roundBinary p emin x - x| ≤ 2 ^ (e - p) / 2 := by
  have hQ : (0 : ℚ) < 2 ^ (e - p) := zpow_pos (by norm_num) _
  by_cases hx : x = 0
  · rw [hx, roundBinary_zero]
    simp only [sub_self, abs_zero]
    linarith
  · rw [roundBinary_of_exponent p emin x e hx he]
    have h := roundHalfEven_sub_le (x / 2 ^ (e - p))
    have heq : (roundHalfEven (x / 2 ^ (e - p)) : ℚ) * 2 ^ (e - p) - x
        = ((roundHalfEven (x / 2 ^ (e - p)) : ℚ) - x / 2 ^ (e - p)) * 2 ^ (e - p) := by
      field_simp
    rw [heq, abs_mul, abs_of_pos hQ]
    calc |(roundHalfEven (x / 2 ^ (e - p)) : ℚ) - x / 2 ^ (e - p)| * 2 ^ (e - p)
        ≤ 1 / 2 * 2 ^ (e - p) := mul_le_mul_of_nonneg_right h (le_of_lt hQ)
      _ = 2 ^ (e - p) / 2 := by ring

/-- relative error in the normal range -/
theorem roundBinary_rel (p emin : Int) (x : ℚ) (hn : (2 : ℚ) ^ emin ≤ |x|) :
    |roundBinary p emin x - x| ≤ 2 ^ (-p - 1) * |x| := by
  have hpos : 0 < |x| := lt_of_lt_of_le (zpow_pos (by norm_num) _) hn
  have hlog : emin ≤ Int.log 2 |x| := by
    rw [← Int.zpow_le_iff_le_log (by norm_num) hpos]
    simpa using hn
  have h := roundBinary_sub_le p emin x (Int.log 2 |x|) (max_eq_left hlog)
  have hle : ((2 : ℚ)) ^ (Int.log 2 |x|) ≤ |x| := by
    have := Int.zpow_log_le_self (b := 2) (r := |x|) (by norm_num) hpos
    simpa using this
  have hsplit : (2 : ℚ) ^ (Int.log 2 |x| - p) / 2 = 2 ^ (-p - 1) * 2 ^ (Int.log 2 |x|) := by
    rw [← zpow_add₀ (by norm_num : (2 : ℚ) ≠ 0)]
    have : (2 : ℚ) ^ (Int.log 2 |x| - p) / 2 = 2 ^ (Int.log 2 |x| - p) * 2 ^ (-1 : Int) := by
      rw [zpow_neg_one]; ring
    rw [this, ← zpow_add₀ (by norm_num : (2 : ℚ) ≠ 0)]
    congr 1
    ring
  rw [hsplit] at h
  exact le_trans h (mul_le_mul_of_nonneg_left hle (le_of_lt (zpow_pos (by norm_num) _)))

/-- absolute-plus-relative error, valid everywhere -/
theorem roundBinary_error (p emin : Int) (x : ℚ) :
    |roundBinary p emin x - x| ≤ 2 ^ (-p - 1) * |x| + 2 ^ (emin - p - 1) := by
  by_cases hn : (2 : ℚ) ^ emin ≤ |x|
  · have := roundBinary_rel p emin x hn
    have h2 : (0 : ℚ) < 2 ^ (emin - p - 1) := zpow_pos (by norm_num) _
    linarith
  · by_cases hx : x = 0
    · rw [hx, roundBinary_zero]
      simp only [sub_self, abs_zero, mul_zero, zero_add]
      exact le_of_lt (zpow_pos (by norm_num) _)
    · have h := roundBinary_sub_le p emin x emin (exponent_subnormal emin x hx (not_le.mp hn))
      have hsplit : (2 : ℚ) ^ (emin - p) / 2 = 2 ^ (emin - p - 1) := by
        have : (2 : ℚ) ^ (emin - p) / 2 = 2 ^ (emin - p) * 2 ^ (-1 : Int) := by
          rw [zpow_neg_one]; ring
        rw [this, ← zpow_add₀ (by norm_num : (2 : ℚ) ≠ 0)]
        congr 1
      rw [hsplit] at h
      have h2 : (0 : ℚ) ≤ 2 ^ (-p - 1) * |x| :=
        mul_nonneg (le_of_lt (zpow_pos (by norm_num) _)) (abs_nonneg x)
      linarith


/-- a value `m * 2^q` with `|m| < 2^(p+1)` and `q` not below the least exponent is not changed -/
theorem roundBinary_exact (p emin : Int) (m q : Int) (hm : |(m : ℚ)| < 2 ^ (p + 1))
    (hq : emin - p ≤ q) :
    roundBinary p emin ((m : ℚ) * 2 ^ q) = (m : ℚ) * 2 ^ q := by
  have h2 : (2 : ℚ) ≠ 0 := by norm_num
  by_cases hm0 : m = 0
  · subst hm0
    simp [roundBinary_zero]
  · have hx : (m : ℚ) * 2 ^ q ≠ 0 :=
      mul_ne_zero (by exact_mod_cast hm0) (zpow_ne_zero _ h2)
    have habs : |(m : ℚ) * 2 ^ q| = |(m : ℚ)| * 2 ^ q := by
      rw [abs_mul, abs_of_pos (zpow_pos (by norm_num : (0 : ℚ) < 2) q)]
    have hlt : |(m : ℚ) * 2 ^ q| < 2 ^ (q + p + 1) := by
      rw [habs]
      have : (2 : ℚ) ^ (q + p + 1) = 2 ^ (p + 1) * 2 ^ q := by
        rw [← zpow_add₀ h2]
        congr 1
        ring
      rw [this]
      exact mul_lt_mul_of_pos_right hm (zpow_pos (by norm_num) q)
    have hlog : Int.log 2 |(m : ℚ) * 2 ^ q| < q + p + 1 := by
      rw [← Int.lt_zpow_iff_log_lt (by norm_num) (abs_pos.mpr hx)]
      simpa using hlt
    have he : max (Int.log 2 |(m : ℚ) * 2 ^ q|) emin ≤ q + p := max_le (by omega) (by omega)
    rw [roundBinary_of_exponent p emin _ _ hx rfl]
    obtain ⟨n, hn⟩ : ∃ n : Nat,
        q - (max (Int.log 2 |(m : ℚ) * 2 ^ q|) emin - p) = (n : Int) :=
      ⟨(q - (max (Int.log 2 |(m : ℚ) * 2 ^ q|) emin - p)).toNat, by omega⟩
    have hsplit : (2 : ℚ) ^ q
        = 2 ^ (max (Int.log 2 |(m : ℚ) * 2 ^ q|) emin - p) * 2 ^ (n : Int) := by
      rw [← zpow_add₀ h2]
      congr 1
      omega
    have hdiv : (m : ℚ) * 2 ^ q / 2 ^ (max (Int.log 2 |(m : ℚ) * 2 ^ q|) emin - p)
        = ((m * 2 ^ n : Int) : ℚ) := by
      rw [div_eq_iff (zpow_ne_zero _ h2)]
      conv_lhs => rw [hsplit]
      push_cast
      rw [zpow_natCast]
      ring
    rw [hdiv, roundHalfEven_intCast]
    conv_rhs => rw [hsplit]
    push_cast
    rw [zpow_natCast]
    ring

/-- integers of magnitude below `2^(p+1)` are not changed -/
theorem roundBinary_int (p emin : Int) (n : Int) (hp : emin ≤ p)
    (hn : |(n : ℚ)| < 2 ^ (p + 1)) :
    roundBinary p emin (n : ℚ) = n := by
  have := roundBinary_exact p emin n 0 hn (by omega)
  simpa using this

theorem roundHalfEven_le_of_le (t : ℚ) (K : Int) (h : t ≤ K) : roundHalfEven t ≤ K := by
  have h1 := Int.floor_le t
  have hfl : ⌊t⌋ ≤ K := Int.cast_le.mp (le_trans h1 h)
  unfold roundHalfEven
  split_ifs with ha hb hc
  · exact hfl
  · have h2 : ((⌊t⌋ : Int) : ℚ) < K := by linarith
    have h3 : ⌊t⌋ < K := by exact_mod_cast h2
    omega
  · exact hfl
  · have h4 : t - ⌊t⌋ = 1 / 2 := le_antisymm (not_lt.mp hb) (not_lt.mp ha)
    have h2 : ((⌊t⌋ : Int) : ℚ) < K := by linarith
    have h3 : ⌊t⌋ < K := by exact_mod_cast h2
    omega

/-- rounding does not pass a value of the format: below `m * 2^q` it stays at most `m * 2^q` -/
theorem roundBinary_le_of_le (p emin : Int) (hp : 0 ≤ p) (x : ℚ) (m q : Int) (hx : 0 ≤ x)
    (hm : (m : ℚ) ≤ 2 ^ (p + 1)) (hq : emin - p ≤ q) (hxf : x ≤ (m : ℚ) * 2 ^ q) :
    roundBinary p emin x ≤ (m : ℚ) * 2 ^ q := by
  have h2 : (2 : ℚ) ≠ 0 := by norm_num
  by_cases hx0 : x = 0
  · rw [hx0, roundBinary_zero]
    rw [hx0] at hxf
    exact hxf
  · have hpos : 0 < x := lt_of_le_of_ne hx (Ne.symm hx0)
    have habs : |x| = x := abs_of_pos hpos
    rw [roundBinary_of_exponent p emin x _ hx0 rfl]
    by_cases hqe : max (Int.log 2 |x|) emin - p ≤ q
    · obtain ⟨n, hn⟩ : ∃ n : Nat, q - (max (Int.log 2 |x|) emin - p) = (n : Int) :=
        ⟨(q - (max (Int.log 2 |x|) emin - p)).toNat, by omega⟩
      have hu : (0 : ℚ) < 2 ^ (max (Int.log 2 |x|) emin - p) := zpow_pos (by norm_num) _
      have hsplit : (2 : ℚ) ^ q = 2 ^ (max (Int.log 2 |x|) emin - p) * 2 ^ (n : Int) := by
        rw [← zpow_add₀ h2]
        congr 1
        omega
      have hf : (m : ℚ) * 2 ^ q
          = ((m * 2 ^ n : Int) : ℚ) * 2 ^ (max (Int.log 2 |x|) emin - p) := by
        rw [hsplit]
        push_cast
        rw [zpow_natCast]
        ring
      rw [hf] at hxf ⊢
      have hdiv : x / 2 ^ (max (Int.log 2 |x|) emin - p) ≤ ((m * 2 ^ n : Int) : ℚ) := by
        rw [div_le_iff₀ hu]
        exact hxf
      have := roundHalfEven_le_of_le _ _ hdiv
      have hc : ((roundHalfEven (x / 2 ^ (max (Int.log 2 |x|) emin - p)) : Int) : ℚ)
          ≤ ((m * 2 ^ n : Int) : ℚ) := by exact_mod_cast this
      exact mul_le_mul_of_nonneg_right hc (le_of_lt hu)
    · have hlt : q < max (Int.log 2 |x|) emin - p := not_le.mp hqe
      have hlog : max (Int.log 2 |x|) emin = Int.log 2 |x| := by
        apply max_eq_left
        by_contra hc
        have : max (Int.log 2 |x|) emin = emin := max_eq_right (by omega)
        omega
      rw [hlog] at hlt ⊢
      have hle : (2 : ℚ) ^ (Int.log 2 |x|) ≤ x :=
        le_trans (Int.zpow_log_le_self (by norm_num) (abs_pos.mpr hx0)) (le_of_eq habs)
      have hq0 : (0 : ℚ) < 2 ^ q := zpow_pos (by norm_num) _
      have hfle : (m : ℚ) * 2 ^ q ≤ 2 ^ (Int.log 2 |x|) := by
        have h1 : (m : ℚ) * 2 ^ q ≤ 2 ^ (p + 1) * 2 ^ q :=
          mul_le_mul_of_nonneg_right hm (le_of_lt hq0)
        have h3 : (2 : ℚ) ^ (p + 1) * 2 ^ q = 2 ^ (p + 1 + q) := by
          rw [← zpow_add₀ h2]
        have h4 : (2 : ℚ) ^ (p + 1 + q) ≤ 2 ^ (Int.log 2 |x|) :=
          zpow_le_zpow_right₀ (by norm_num) (by omega)
        linarith
      have hxe : x = 2 ^ (Int.log 2 |x|) := le_antisymm (by linarith) hle
      have hfe : (m : ℚ) * 2 ^ q = 2 ^ (Int.log 2 |x|) := le_antisymm hfle (by linarith)
      obtain ⟨n, hn⟩ : ∃ n : Nat, p = (n : Int) := ⟨p.toNat, by omega⟩
      have hsplit : (2 : ℚ) ^ (Int.log 2 |x|) = 2 ^ (n : Int) * 2 ^ (Int.log 2 |x| - p) := by
        rw [← zpow_add₀ h2]
        congr 1
        omega
      have hdiv : x / 2 ^ (Int.log 2 |x| - p) = ((2 ^ n : Int) : ℚ) := by
        rw [div_eq_iff (zpow_ne_zero _ h2)]
        conv_lhs => rw [hxe, hsplit]
        push_cast
        rw [zpow_natCast]
      rw [hdiv, roundHalfEven_intCast, hfe]
      conv_rhs => rw [hsplit]
      push_cast
      rw [zpow_natCast]

/-- the rounding of a non-negative number is a value `m * 2^q` of the format -/
theorem roundBinary_rep (p emin : Int) (hp : 0 ≤ p) (x : ℚ) (hx : 0 ≤ x) :
    ∃ m q : Int, (m : ℚ) ≤ 2 ^ (p + 1) ∧ emin - p ≤ q
      ∧ roundBinary p emin x = (m : ℚ) * 2 ^ q := by
  have h2 : (2 : ℚ) ≠ 0 := by norm_num
  by_cases hx0 : x = 0
  · refine ⟨0, emin - p, ?_, le_refl _, ?_⟩
    · have : (0 : ℚ) < 2 ^ (p + 1) := zpow_pos (by norm_num) _
      simpa using le_of_lt this
    · rw [hx0, roundBinary_zero]
      simp
  · have hpos : 0 < x := lt_of_le_of_ne hx (Ne.symm hx0)
    have habs : |x| = x := abs_of_pos hpos
    refine ⟨roundHalfEven (x / 2 ^ (max (Int.log 2 |x|) emin - p)),
      max (Int.log 2 |x|) emin - p, ?_, by have := le_max_right (Int.log 2 |x|) emin; omega,
      roundBinary_of_exponent p emin x _ hx0 rfl⟩
    obtain ⟨n, hn⟩ : ∃ n : Nat, p + 1 = (n : Int) := ⟨(p + 1).toNat, by omega⟩
    have hu : (0 : ℚ) < 2 ^ (max (Int.log 2 |x|) emin - p) := zpow_pos (by norm_num) _
    have hlt : x < (2 : ℚ) ^ (Int.log 2 |x| + 1) :=
      lt_of_le_of_lt (le_of_eq habs.symm) (Int.lt_zpow_succ_log_self (by norm_num) _)
    have hle : (2 : ℚ) ^ (Int.log 2 |x| + 1) ≤ 2 ^ (max (Int.log 2 |x|) emin + 1) :=
      zpow_le_zpow_right₀ (by norm_num) (by have := le_max_left (Int.log 2 |x|) emin; omega)
    have hsplit : (2 : ℚ) ^ (max (Int.log 2 |x|) emin + 1)
        = 2 ^ (n : Int) * 2 ^ (max (Int.log 2 |x|) emin - p) := by
      rw [← zpow_add₀ h2]
      congr 1
      omega
    have hdiv : x / 2 ^ (max (Int.log 2 |x|) emin - p) ≤ ((2 ^ n : Int) : ℚ) := by
      rw [div_le_iff₀ hu]
      push_cast
      rw [← zpow_natCast, ← hsplit]
      linarith
    have := roundHalfEven_le_of_le _ _ hdiv
    have hc : ((roundHalfEven (x / 2 ^ (max (Int.log 2 |x|) emin - p)) : Int) : ℚ)
        ≤ ((2 ^ n : Int) : ℚ) := by exact_mod_cast this
    rw [hn]
    push_cast at hc
    rw [zpow_natCast]
    exact hc

theorem fl32_int (n : Int) (hn : |n| < 16777216) : fl32 (n : ℚ) = n := by
  apply roundBinary_int 23 (-126) n (by decide)
  have : |(n : ℚ)| < 16777216 := by exact_mod_cast hn
  norm_num
  exact this

theorem fl32_zero : fl32 0 = 0 := roundBinary_zero _ _

theorem toInt32_range (x : Int) : -2147483648 ≤ toInt32 x ∧ toInt32 x < 2147483648 := by
  unfold toInt32
  omega

theorem fl32_abs_le (x : ℚ) : |fl32 x| ≤ (1 + 2 ^ (-24 : Int)) * |x| + 2 ^ (-150 : Int) := by
  have h := roundBinary_error 23 (-126) x
  have h1 : (-(23 : Int) - 1) = -24 := by norm_num
  have h2 : ((-126 : Int) - 23 - 1) = -150 := by norm_num
  rw [h1, h2] at h
  have h3 : |fl32 x| ≤ |fl32 x - x| + |x| := by
    have := abs_add (fl32 x - x) x
    simpa using this
  unfold fl32 at h3 ⊢
  linarith

theorem fl32_abs_ge (x : ℚ) (hx : 1 ≤ |x|) : (1 - 2 ^ (-24 : Int)) * |x| ≤ |fl32 x| := by
  have hn : (2 : ℚ) ^ (-126 : Int) ≤ |x| := by
    have : (2 : ℚ) ^ (-126 : Int) ≤ 1 := by norm_num
    linarith
  have h := roundBinary_rel 23 (-126) x hn
  have h1 : (-(23 : Int) - 1) = -24 := by norm_num
  rw [h1] at h
  have h3 : |x| ≤ |fl32 x - x| + |fl32 x| := by
    have := abs_sub_abs_le_abs_sub x (fl32 x)
    rw [abs_sub_comm] at this
    linarith
  unfold fl32 at h3 ⊢
  linarith

theorem float.fin_lt_fin (a b : ℚ) : float.fin a < float.fin b ↔ a < b := by
  show float.lt (float.fin a) (float.fin b) = true ↔ a < b
  simp [float.lt]

theorem float.fin_le_fin (a b : ℚ) : float.fin a ≤ float.fin b ↔ a ≤ b := by
  show float.le (float.fin a) (float.fin b) = true ↔ a ≤ b
  simp [float.le]

theorem float.round_fin (x : ℚ) (h : |x| < 2 ^ 127) : float.round x = float.fin (fl32 x) := by
  have hb := fl32_abs_le x
  have hc1 : (2 : ℚ) ^ (-24 : Int) = 1 / 16777216 := by norm_num
  have hc2 : (2 : ℚ) ^ (-150 : Int) ≤ 1 := by norm_num
  have hc3 : (2 : ℚ) ^ 128 = 2 * 2 ^ 127 := by norm_num
  have hc4 : (2 : ℚ) ≤ 2 ^ 127 := by norm_num
  rw [hc1] at hb
  have hlt : ¬ ((2 : ℚ) ^ 128 ≤ |fl32 x|) := by
    rw [not_le, hc3]
    have h4 : (0 : ℚ) ≤ |x| := abs_nonneg x
    linarith
  simp only [float.round, hlt, if_false]

/-! ## The response ratio as a `float` -/

theorem HRRN_fin (now : rtcdate) (p : proc) (h : p.mlfq.executedCycleNumber ≠ 0) :
    HRRN now p = float.fin (hrrnValue now p) := by
  have hw := toInt32_range (((now.second : Int) - p.mlfq.arrivalTime.second)
    + ((now.minute : Int) - p.mlfq.arrivalTime.minute) * 60
    + ((now.hour : Int) - p.mlfq.arrivalTime.hour) * 3600)
  have hwq : |((waitingTime now p.mlfq.arrivalTime : Int) : ℚ)| ≤ 2147483648 := by
    rw [abs_le]
    unfold waitingTime
    constructor
    · exact_mod_cast hw.1
    · exact_mod_cast le_of_lt hw.2
  have he1 : (1 : ℚ) ≤ |(p.mlfq.executedCycleNumber : ℚ)| := by
    have : (1 : Int) ≤ |p.mlfq.executedCycleNumber| := Int.one_le_abs h
    exact_mod_cast this
  have hfe := fl32_abs_ge _ he1
  have hfw := fl32_abs_le ((waitingTime now p.mlfq.arrivalTime : Int) : ℚ)
  have hc1 : (2 : ℚ) ^ (-24 : Int) = 1 / 16777216 := by norm_num
  have hc2 : (2 : ℚ) ^ (-150 : Int) ≤ 1 := by norm_num
  rw [hc1] at hfe hfw
  have hepos : (1 : ℚ) / 2 ≤ |fl32 (p.mlfq.executedCycleNumber : ℚ)| := by linarith
  have hne : fl32 (p.mlfq.executedCycleNumber : ℚ) ≠ 0 := by
    intro h0
    rw [h0, abs_zero] at hepos
    linarith
  have hquot : |fl32 (waitingTime now p.mlfq.arrivalTime : ℚ)
      / fl32 (p.mlfq.executedCycleNumber : ℚ)| < 2 ^ 127 := by
    rw [abs_div, div_lt_iff₀ (by linarith)]
    have : (2 : ℚ) ^ 127 * (1 / 2) ≤ 2 ^ 127 * |fl32 (p.mlfq.executedCycleNumber : ℚ)| :=
      mul_le_mul_of_nonneg_left hepos (by norm_num)
    have h7 : (2147483648 : ℚ) * 2 + 1 < 2 ^ 127 * (1 / 2) := by norm_num
    linarith
  simp only [HRRN, float.ofInt, float.div, hne, if_false, float.round_fin _ hquot, hrrnValue]

theorem HRRN_small (now : rtcdate) (p : proc) (w e : Int)
    (hw : waitingTime now p.mlfq.arrivalTime = w) (he : p.mlfq.executedCycleNumber = e)
    (hw1 : |w| < 16777216) (he1 : |e| < 16777216) (he0 : e ≠ 0) :
    HRRN now p = float.fin (fl32 ((w : ℚ) / (e : ℚ))) := by
  rw [HRRN_fin now p (by rw [he]; exact he0)]
  simp only [hrrnValue, hw, he, fl32_int w hw1, fl32_int e he1]

theorem float.lt_trans (a b c : float) (h1 : a < b) (h2 : b < c) : a < c := by
  change float.lt a b = true at h1
  change float.lt b c = true at h2
  show float.lt a c = true
  cases a <;> cases b <;> cases c <;> simp_all [float.lt]
  exact LT.lt.trans h1 h2

theorem float.lt_of_lt_of_le (a b c : float) (h1 : a < b) (h2 : b ≤ c) : a < c := by
  change float.lt a b = true at h1
  change float.le b c = true at h2
  show float.lt a c = true
  cases a <;> cases b <;> cases c <;> simp_all [float.lt, float.le]
  exact LT.lt.trans_le h1 h2

theorem lotteryTickets_cons_in (p : proc) (ps : List proc)
    (h1 : p.state = RUNNABLE) (h2 : p.mlfq.queueNumber = 1) :
    lotteryTickets (p :: ps) = p.mlfq.lotteryTicket :: lotteryTickets ps := by
  simp [lotteryTickets, h1, h2]

theorem lotteryTickets_cons_out (p : proc) (ps : List proc)
    (h : ¬ (p.state = RUNNABLE ∧ p.mlfq.queueNumber = 1)) :
    lotteryTickets (p :: ps) = lotteryTickets ps := by
  simp only [lotteryTickets, h, if_false]

theorem sum_nonneg_of_forall (l : List Int) (h : ∀ x ∈ l, 0 ≤ x) : 0 ≤ l.sum := by
  induction l with
  | nil => simp
  | cons a as ih =>
    have ha : 0 ≤ a := h a (List.mem_cons_self a as)
    have hs : 0 ≤ as.sum := ih (fun x hx => h x (List.mem_cons_of_mem a hx))
    simp only [List.sum_cons]
    omega

theorem lotterySum_eq (t : List proc) :
    ∀ acc : Int, (∀ x ∈ lotteryTickets t, 0 ≤ x) → 0 ≤ acc →
      acc + (lotteryTickets t).sum < 2147483648 →
      lotterySum t acc = acc + (lotteryTickets t).sum := by
  induction t with
  | nil => intro acc _ _ _; simp [lotterySum, lotteryTickets]
  | cons p ps ih =>
    intro acc hnn hacc hlt
    by_cases h1 : p.state = RUNNABLE
    · by_cases h2 : p.mlfq.queueNumber = 1
      · rw [lotteryTickets_cons_in p ps h1 h2] at hnn hlt ⊢
        have ht : 0 ≤ p.mlfq.lotteryTicket := hnn _ (List.mem_cons_self _ _)
        have hrest : ∀ x ∈ lotteryTickets ps, 0 ≤ x :=
          fun x hx => hnn x (List.mem_cons_of_mem _ hx)
        have hs := sum_nonneg_of_forall _ hrest
        simp only [List.sum_cons] at hlt ⊢
        have hw : toInt32 (acc + p.mlfq.lotteryTicket) = acc + p.mlfq.lotteryTicket :=
          toInt32_eq _ (by omega) (by omega)
        simp only [lotterySum, h1, h2, ne_eq, not_true_eq_false, if_false, hw]
        rw [ih _ hrest (by omega) (by omega)]
        omega
      · rw [lotteryTickets_cons_out p ps (fun h => h2 h.2)] at hnn hlt ⊢
        simp only [lotterySum, h1, h2, ne_eq, not_true_eq_false, not_false_eq_true, if_false,
          if_true]
        exact ih acc hnn hacc hlt
    · rw [lotteryTickets_cons_out p ps (fun h => h1 h.1)] at hnn hlt ⊢
      simp only [lotterySum, h1, ne_eq, not_false_eq_true, if_true]
      exact ih acc hnn hacc hlt

theorem lotteryWalk_wins (t : List proc) :
    ∀ (i : Nat) (sel : Int), (∀ x ∈ lotteryTickets t, 0 ≤ x) →
      (lotteryTickets t).sum < 2147483648 → 0 ≤ sel → sel < (lotteryTickets t).sum →
      ∃ k p, lotteryWalk t i sel = ⟨some (i + k), p.pid⟩ ∧ t[k]? = some p
        ∧ p.state = RUNNABLE ∧ p.mlfq.queueNumber = 1 := by
  induction t with
  | nil =>
    intro i sel _ _ h0 h1
    simp [lotteryTickets] at h1
    omega
  | cons p ps ih =>
    intro i sel hnn hlt h0 h1
    by_cases hs : p.state = RUNNABLE
    · by_cases hq : p.mlfq.queueNumber = 1
      · rw [lotteryTickets_cons_in p ps hs hq] at hnn hlt h1
        have ht : 0 ≤ p.mlfq.lotteryTicket := hnn _ (List.mem_cons_self _ _)
        have hrest : ∀ x ∈ lotteryTickets ps, 0 ≤ x :=
          fun x hx => hnn x (List.mem_cons_of_mem _ hx)
        have hsum := sum_nonneg_of_forall _ hrest
        simp only [List.sum_cons] at hlt h1
        have hw : toInt32 (sel - p.mlfq.lotteryTicket) = sel - p.mlfq.lotteryTicket :=
          toInt32_eq _ (by omega) (by omega)
        by_cases hwin : sel - p.mlfq.lotteryTicket ≤ 0
        · refine ⟨0, p, ?_, by simp, hs, hq⟩
          simp [lotteryWalk, hs, hq, hw, hwin]
        · obtain ⟨k, q, hk1, hk2, hk3, hk4⟩ :=
            ih (i + 1) (sel - p.mlfq.lotteryTicket) hrest (by omega) (by omega) (by omega)
          refine ⟨k + 1, q, ?_, by simpa using hk2, hk3, hk4⟩
          simp only [lotteryWalk, hs, hq, hw, hwin, ne_eq, not_true_eq_false, if_false]
          rw [hk1]
          congr 2
          omega
      · rw [lotteryTickets_cons_out p ps (fun h => hq h.2)] at hnn hlt h1
        obtain ⟨k, q, hk1, hk2, hk3, hk4⟩ := ih (i + 1) sel hnn hlt h0 h1
        refine ⟨k + 1, q, ?_, by simpa using hk2, hk3, hk4⟩
        simp only [lotteryWalk, hs, hq, ne_eq, not_true_eq_false, not_false_eq_true, if_false,
          if_true]
        rw [hk1]
        congr 2
        omega
    · rw [lotteryTickets_cons_out p ps (fun h => hs h.1)] at hnn hlt h1
      obtain ⟨k, q, hk1, hk2, hk3, hk4⟩ := ih (i + 1) sel hnn hlt h0 h1
      refine ⟨k + 1, q, ?_, by simpa using hk2, hk3, hk4⟩
      simp only [lotteryWalk, hs, ne_eq, not_false_eq_true, if_true]
      rw [hk1]
      congr 2
      omega

theorem lotteryDraw_range (r : Nat) (T : Int) (h0 : 0 < T) (h1 : T < 2147483648) :
    0 ≤ lotteryDraw r T ∧ lotteryDraw r T < T := by
  unfold lotteryDraw
  have hT : T % 4294967296 = T := Int.emod_eq_of_lt (by omega) (by omega)
  rw [hT]
  have hpos : 0 < T.toNat := by omega
  have hlt : r % T.toNat < T.toNat := Nat.mod_lt _ hpos
  have hcast : ((r % T.toNat : Nat) : Int) < T := by omega
  rw [toInt32_eq _ (by omega) (by omega)]
  omega

/-- With non-negative tickets of positive sum (within `int`), the lottery
returns the pid of a RUNNABLE slot of queue 1. -/
theorem findLotterySel_wins (t : List proc) (randstate : Nat)
    (hnn : ∀ x ∈ lotteryTickets t, 0 ≤ x) (hpos : 0 < (lotteryTickets t).sum)
    (hlt : (lotteryTickets t).sum < 2147483648) :
    ∃ k p, (findLotterySel t randstate).1 = ⟨some k, p.pid⟩ ∧ t[k]? = some p
      ∧ p.state = RUNNABLE ∧ p.mlfq.queueNumber = 1 := by
  have hsum : lotterySum t 0 = (lotteryTickets t).sum := by
    rw [lotterySum_eq t 0 hnn (le_refl 0) (by omega)]
    omega
  have hd := lotteryDraw_range (rand randstate) _ hpos hlt
  obtain ⟨k, p, h1, h2, h3, h4⟩ :=
    lotteryWalk_wins t 0 (lotteryDraw (rand randstate) (lotteryTickets t).sum) hnn hlt hd.1 hd.2
  refine ⟨k, p, ?_, h2, h3, h4⟩
  have hne : (lotteryTickets t).sum ≠ 0 := by omega
  simp only [findLotterySel, hsum, hne, ne_eq, not_false_eq_true, if_true]
  rw [h1]
  simp

/-! ## The dispatch block -/

theorem findSlot_unique (t : List proc) :
    ∀ (k : Nat) (p : proc), t[k]? = some p →
      (∀ (i : Nat) (q : proc), t[i]? = some q → q.pid = p.pid → i = k) →
      findSlot t p.pid = some k := by
  induction t with
  | nil => intro k p h; simp at h
  | cons a as ih =>
    intro k p hk hu
    by_cases ha : a.pid = p.pid
    · have h0 : 0 = k := hu 0 a (by simp) ha
      simp [findSlot, ha, h0]
    · cases k with
      | zero =>
        simp at hk
        exact absurd (by rw [hk]) ha
      | succ k =>
        have hk2 : as[k]? = some p := by simpa using hk
        have hu2 : ∀ (i : Nat) (q : proc), as[i]? = some q → q.pid = p.pid → i = k := by
          intro i q hi hq
          have := hu (i + 1) q (by simpa using hi) hq
          omega
        simp [findSlot, ha, ih k p hk2 hu2]

theorem dispatch_at (pid : Int) (third : Int) (t : List proc) :
    ∀ (k : Nat) (p : proc), findSlot t pid = some k → t[k]? = some p →
      (dispatch t pid third)[k]? = some { account p third with state := RUNNING } := by
  induction t with
  | nil => intro k p h; simp [findSlot] at h
  | cons a as ih =>
    intro k p hf hk
    by_cases ha : a.pid = pid
    · simp only [findSlot, ha, if_true, Option.some.injEq] at hf
      subst hf
      simp only [List.getElem?_cons_zero, Option.some.injEq] at hk
      subst hk
      simp [dispatch, ha]
    · simp only [findSlot, ha, if_false, Option.map_eq_some'] at hf
      obtain ⟨k', hk', rfl⟩ := hf
      simp only [List.getElem?_cons_succ] at hk
      simp only [dispatch, ha, if_false, List.getElem?_cons_succ]
      exact ih k' p hk' hk

theorem dispatch_other (pid : Int) (third : Int) (t : List proc) :
    ∀ (k j : Nat), findSlot t pid = some k → j ≠ k →
      (dispatch t pid third)[j]? = t[j]? := by
  induction t with
  | nil => intro k j h; simp [findSlot] at h
  | cons a as ih =>
    intro k j hf hj
    by_cases ha : a.pid = pid
    · simp only [findSlot, ha, if_true, Option.some.injEq] at hf
      subst hf
      cases j with
      | zero => exact absurd rfl hj
      | succ j => simp [dispatch, ha]
    · simp only [findSlot, ha, if_false, Option.map_eq_some'] at hf
      obtain ⟨k', hk', rfl⟩ := hf
      cases j with
      | zero => simp [dispatch, ha]
      | succ j =>
        simp only [dispatch, ha, if_false, List.getElem?_cons_succ]
        exact ih k' j hk' (by omega)

theorem dispatch_length (pid : Int) (third : Int) (t : List proc) :
    (dispatch t pid third).length = t.length := by
  induction t with
  | nil => simp [dispatch]
  | cons a as ih =>
    by_cases ha : a.pid = pid
    · simp [dispatch, ha]
    · simp [dispatch, ha, ih]

theorem runnablePidsUnique_of_nodup (t : List proc)
    (hnd : (t.map (fun p => p.pid)).Nodup) (hne : ∀ p ∈ t, p.pid ≠ -1) :
    RunnablePidsUnique t := by
  intro j q hj _
  refine ⟨hne q (List.getElem?_mem hj), ?_⟩
  intro i p hi hp
  have hi' : (t.map (fun p => p.pid))[i]? = some q.pid := by simp [hi, hp]
  have hj' : (t.map (fun p => p.pid))[j]? = some q.pid := by simp [hj]
  have hjl : j < (t.map (fun p => p.pid)).length := by
    rcases Nat.lt_or_ge j (t.map (fun p => p.pid)).length with h | h
    · exact h
    · rw [List.getElem?_eq_none h] at hj'
      exact absurd hj' (by simp)
  have hil : i < (t.map (fun p => p.pid)).length := by
    rcases Nat.lt_or_ge i (t.map (fun p => p.pid)).length with h | h
    · exact h
    · rw [List.getElem?_eq_none h] at hi'
      exact absurd hi' (by simp)
  rcases Nat.lt_trichotomy i j with h | h | h
  · exact absurd (hi'.trans hj'.symm) (List.nodup_iff_getElem?_ne_getElem?.mp hnd i j h hjl)
  · exact h
  · exact absurd (hj'.trans hi'.symm) (List.nodup_iff_getElem?_ne_getElem?.mp hnd j i h hil)

/-! ## Policy priority of queue 1 -/

/-- C1, as amended. For every process table in which the pid of each RUNNABLE
slot is held by no other slot, every generator state and every clock: if the
tickets of the RUNNABLE queue-1 slots are non-negative and their sum is
positive (and within `int`), the iteration of the scheduler takes the lottery
branch and switches into a slot that was RUNNABLE with `queueNumber == 1`; that
slot is accounted as a non-third-queue dispatch and set RUNNING. -/
theorem scheduler_dispatches_queue1 (t : List proc) (randstate : Nat)
    (cmostime : Nat → rtcdate) (isThirdQueue : Int)
    (hpid : RunnablePidsUnique t)
    (hnn : ∀ x ∈ lotteryTickets t, 0 ≤ x) (hpos : 0 < (lotteryTickets t).sum)
    (hlt : (lotteryTickets t).sum < 2147483648) :
    ∃ k p, (scheduler t randstate cmostime isThirdQueue).current = some k
      ∧ (scheduler t randstate cmostime isThirdQueue).branch = Branch.lottery
      ∧ t[k]? = some p ∧ p.state = RUNNABLE ∧ p.mlfq.queueNumber = 1
      ∧ (scheduler t randstate cmostime isThirdQueue).ptable[k]?
          = some { account p 0 with state := RUNNING } := by
  obtain ⟨k, p, h1, h2, h3, h4⟩ := findLotterySel_wins t randstate hnn hpos hlt
  obtain ⟨hne, hu⟩ := hpid k p h2 h3
  have hf : findSlot t p.pid = some k := findSlot_unique t k p h2 hu
  have hl : (findLottery t randstate).1 = p.pid := by simp [findLottery, h1]
  refine ⟨k, p, ?_, ?_, h2, h3, h4, ?_⟩
  · simp [scheduler, hl, hne, hf]
  · simp [scheduler, hl, hne]
  · simp only [scheduler, hl, hne, ne_eq, not_false_eq_true, if_true]
    exact dispatch_at p.pid 0 t k p hf h2

/-- C1, witness: two fresh slots (ten tickets each, pids 1 and 2). -/
theorem scheduler_dispatches_queue1_witness :
    ∃ k p, (scheduler tableTwoFresh 1 (fun _ => {}) 0).current = some k
      ∧ (scheduler tableTwoFresh 1 (fun _ => {}) 0).branch = Branch.lottery
      ∧ tableTwoFresh[k]? = some p ∧ p.state = RUNNABLE ∧ p.mlfq.queueNumber = 1
      ∧ (scheduler tableTwoFresh 1 (fun _ => {}) 0).ptable[k]?
          = some { account p 0 with state := RUNNING } :=
  scheduler_dispatches_queue1 tableTwoFresh 1 (fun _ => {}) 0
    (runnablePidsUnique_of_nodup _ (by decide) (by decide)) (by decide) (by decide)
    (by decide)

/-- C1, counterexample. In `tableNoTickets` a RUNNABLE slot has
`queueNumber == 1` (pids are distinct), yet the lottery finds no winner because
the ticket sum is zero, and the scheduler switches into slot 1, whose
`queueNumber` is 3. -/
theorem scheduler_queue1_counterexample :
    RunnablePidsUnique tableNoTickets
    ∧ (∃ p ∈ tableNoTickets, p.state = RUNNABLE ∧ p.mlfq.queueNumber = 1)
    ∧ (scheduler tableNoTickets 1 (fun _ => {}) 0).current = some 1
    ∧ (tableNoTickets[1]?.map (fun p => p.mlfq.queueNumber)) = some 3 :=
  ⟨runnablePidsUnique_of_nodup _ (by decide) (by decide),
    ⟨_, List.mem_cons_self _ _, by decide⟩, by decide, by decide⟩

/-! ## Lottery distribution -/

/-- C2, the code at the failing input. With tickets 1, 2 and 7 (sum 10) the
ten draws `0..9` make the three slots win 2, 2 and 6 times: the test
`selectedTicket - ticket <= 0` also gives the draw equal to the running ticket
total to the earlier slot. -/
theorem lotteryWins_tickets127 :
    lotteryTickets tableTickets127 = [1, 2, 7]
    ∧ lotterySum tableTickets127 0 = 10
    ∧ lotteryWins tableTickets127 10 0 = 2
    ∧ lotteryWins tableTickets127 10 1 = 2
    ∧ lotteryWins tableTickets127 10 2 = 6 := by decide

/-! ## HRRN maximality -/

theorem hrrnLoop_cons_keep (cmostime : Nat → rtcdate) (a : proc) (as : List proc) (i : Nat)
    (mx v : ℚ) (sel : Selection) (hs : a.state = RUNNABLE) (hq : a.mlfq.queueNumber = 2)
    (hv : HRRN (cmostime i) a = float.fin v) (hle : ¬ mx < v) :
    hrrnLoop cmostime (a :: as) i (float.fin mx) sel
      = hrrnLoop cmostime as (i + 1) (float.fin mx) sel := by
  simp [hrrnLoop, hs, hq, hv, float.fin_lt_fin, hle]

theorem hrrnLoop_cons_other (cmostime : Nat → rtcdate) (a : proc) (as : List proc) (i : Nat)
    (mx : float) (sel : Selection) (h : ¬ (a.state = RUNNABLE ∧ a.mlfq.queueNumber = 2)) :
    hrrnLoop cmostime (a :: as) i mx sel = hrrnLoop cmostime as (i + 1) mx sel := by
  by_cases hs : a.state = RUNNABLE
  · have hq : a.mlfq.queueNumber ≠ 2 := fun hq => h ⟨hs, hq⟩
    simp [hrrnLoop, hs, hq]
  · simp [hrrnLoop, hs]

theorem srpfTies_cons_in (m : ℚ) (a : proc) (as : List proc)
    (h : a.state = RUNNABLE ∧ a.mlfq.queueNumber = 3 ∧ a.mlfq.remainedPriority = m) :
    srpfTies m (a :: as) = srpfTies m as + 1 := by
  simp only [srpfTies, h, and_self, if_true]

theorem srpfTies_cons_out (m : ℚ) (a : proc) (as : List proc)
    (h : ¬ (a.state = RUNNABLE ∧ a.mlfq.queueNumber = 3 ∧ a.mlfq.remainedPriority = m)) :
    srpfTies m (a :: as) = srpfTies m as := by
  simp only [srpfTies, h, if_false]

theorem srpfTies_le_length (m : ℚ) (t : List proc) : srpfTies m t ≤ t.length := by
  induction t with
  | nil => simp [srpfTies]
  | cons a as ih =>
    by_cases h : a.state = RUNNABLE ∧ a.mlfq.queueNumber = 3 ∧ a.mlfq.remainedPriority = m
    · rw [srpfTies_cons_in m a as h]
      simp only [List.length_cons]
      omega
    · rw [srpfTies_cons_out m a as h]
      simp only [List.length_cons]
      omega

theorem srpfTies_pos (t : List proc) :
    ∀ (k : Nat) (p : proc), t[k]? = some p → p.state = RUNNABLE → p.mlfq.queueNumber = 3 →
      1 ≤ srpfTies p.mlfq.remainedPriority t := by
  induction t with
  | nil => intro k p h; simp at h
  | cons a as ih =>
    intro k p hk hs hq
    by_cases h : a.state = RUNNABLE ∧ a.mlfq.queueNumber = 3
        ∧ a.mlfq.remainedPriority = p.mlfq.remainedPriority
    · rw [srpfTies_cons_in _ a as h]
      omega
    · rw [srpfTies_cons_out _ a as h]
      cases k with
      | zero =>
        simp only [List.getElem?_cons_zero, Option.some.injEq] at hk
        subst hk
        exact absurd ⟨hs, hq, rfl⟩ h
      | succ k => exact ih k p (by simpa using hk) hs hq

theorem srpfScan_skip (a : proc) (as : List proc) (i : Nat) (s : SRPFScan)
    (h : ¬ (a.state = RUNNABLE ∧ a.mlfq.queueNumber = 3)) :
    srpfScan (a :: as) i s = srpfScan as (i + 1) s := by
  by_cases hs : a.state = RUNNABLE
  · have hq : a.mlfq.queueNumber ≠ 3 := fun hq => h ⟨hs, hq⟩
    simp [srpfScan, hs, hq]
  · simp [srpfScan, hs]

theorem srpfScan_spec (t : List proc) :
    ∀ (i : Nat) (s : SRPFScan), 0 ≤ s.repeatedMinNum →
      s.repeatedMinNum + t.length < 2147483648 →
      ((∀ (j : Nat) (q : proc), t[j]? = some q → q.state = RUNNABLE →
          q.mlfq.queueNumber = 3 → s.minRemainedPriority ≤ q.mlfq.remainedPriority)
        ∧ srpfScan t i s
            = { s with repeatedMinNum :=
                  s.repeatedMinNum + (srpfTies s.minRemainedPriority t : Int) })
      ∨ ∃ k p, t[k]? = some p ∧ p.state = RUNNABLE ∧ p.mlfq.queueNumber = 3
          ∧ p.mlfq.remainedPriority < s.minRemainedPriority
          ∧ srpfScan t i s = ⟨⟨some (i + k), p.pid⟩, p.mlfq.remainedPriority,
              (srpfTies p.mlfq.remainedPriority t : Int)⟩
          ∧ (∀ (j : Nat) (q : proc), t[j]? = some q → q.state = RUNNABLE →
              q.mlfq.queueNumber = 3 → p.mlfq.remainedPriority ≤ q.mlfq.remainedPriority)
          ∧ (∀ (j : Nat) (q : proc), j < k → t[j]? = some q → q.state = RUNNABLE →
              q.mlfq.queueNumber = 3 → p.mlfq.remainedPriority < q.mlfq.remainedPriority) := by
  induction t with
  | nil =>
    intro i s _ _
    left
    exact ⟨fun j q h => by simp at h, by simp [srpfScan, srpfTies]⟩
  | cons a as ih =>
    intro i s h0 hlen
    simp only [List.length_cons, Nat.cast_add, Nat.cast_one] at hlen
    by_cases hc : a.state = RUNNABLE ∧ a.mlfq.queueNumber = 3
    · obtain ⟨hs, hq⟩ := hc
      rcases lt_trichotomy a.mlfq.remainedPriority s.minRemainedPriority with hlt | heq | hgt
      · -- a new minimum
        have hstep : srpfScan (a :: as) i s
            = srpfScan as (i + 1) ⟨⟨some i, a.pid⟩, a.mlfq.remainedPriority, 1⟩ := by
          simp [srpfScan, hs, hq, hlt]
        rw [hstep]
        right
        rcases ih (i + 1) ⟨⟨some i, a.pid⟩, a.mlfq.remainedPriority, 1⟩ (by simp)
            (by simp only; omega) with ⟨h1, h2⟩ | ⟨k, p, h1, h2, h3, h4, h5, h6, h7⟩
        · refine ⟨0, a, by simp, hs, hq, hlt, ?_, ?_, ?_⟩
          · rw [h2, srpfTies_cons_in a.mlfq.remainedPriority a as ⟨hs, hq, rfl⟩]
            simp only [Nat.add_zero, Nat.cast_add, Nat.cast_one]
            congr 1
            omega
          · intro j q hj hqs hqq
            cases j with
            | zero =>
              simp only [List.getElem?_cons_zero, Option.some.injEq] at hj
              subst hj
              exact le_refl _
            | succ j => exact h1 j q (by simpa using hj) hqs hqq
          · intro j q hj
            omega
        · simp only at h4
          refine ⟨k + 1, p, by simpa using h1, h2, h3, lt_trans h4 hlt, ?_, ?_, ?_⟩
          · rw [h5, srpfTies_cons_out p.mlfq.remainedPriority a as
              (fun h => absurd h.2.2 (ne_of_gt h4))]
            congr 3
            omega
          · intro j q hj hqs hqq
            cases j with
            | zero =>
              simp only [List.getElem?_cons_zero, Option.some.injEq] at hj
              subst hj
              exact le_of_lt h4
            | succ j => exact h6 j q (by simpa using hj) hqs hqq
          · intro j q hjk hj hqs hqq
            cases j with
            | zero =>
              simp only [List.getElem?_cons_zero, Option.some.injEq] at hj
              subst hj
              exact h4
            | succ j => exact h7 j q (by omega) (by simpa using hj) hqs hqq
      · -- a tie with the running minimum
        have hw : toInt32 (s.repeatedMinNum + 1) = s.repeatedMinNum + 1 :=
          toInt32_eq _ (by omega) (by omega)
        have hstep : srpfScan (a :: as) i s
            = srpfScan as (i + 1) { s with repeatedMinNum := s.repeatedMinNum + 1 } := by
          simp [srpfScan, hs, hq, heq, hw]
        rw [hstep]
        rcases ih (i + 1) { s with repeatedMinNum := s.repeatedMinNum + 1 }
            (by simp only; omega) (by simp only; omega)
          with ⟨h1, h2⟩ | ⟨k, p, h1, h2, h3, h4, h5, h6, h7⟩
        · left
          refine ⟨?_, ?_⟩
          · intro j q hj hqs hqq
            cases j with
            | zero =>
              simp only [List.getElem?_cons_zero, Option.some.injEq] at hj
              subst hj
              exact le_of_eq heq.symm
            | succ j => exact h1 j q (by simpa using hj) hqs hqq
          · rw [h2, srpfTies_cons_in s.minRemainedPriority a as ⟨hs, hq, heq⟩]
            simp only [Nat.cast_add, Nat.cast_one]
            congr 1
            omega
        · right
          simp only at h4
          refine ⟨k + 1, p, by simpa using h1, h2, h3, h4, ?_, ?_, ?_⟩
          · rw [h5, srpfTies_cons_out p.mlfq.remainedPriority a as
              (fun h => absurd (h.2.2.symm.trans heq) (ne_of_lt h4))]
            congr 3
            omega
          · intro j q hj hqs hqq
            cases j with
            | zero =>
              simp only [List.getElem?_cons_zero, Option.some.injEq] at hj
              subst hj
              exact le_of_lt (heq ▸ h4)
            | succ j => exact h6 j q (by simpa using hj) hqs hqq
          · intro j q hjk hj hqs hqq
            cases j with
            | zero =>
              simp only [List.getElem?_cons_zero, Option.some.injEq] at hj
              subst hj
              exact heq ▸ h4
            | succ j => exact h7 j q (by omega) (by simpa using hj) hqs hqq
      · -- above the running minimum
        have hstep : srpfScan (a :: as) i s = srpfScan as (i + 1) s := by
          simp [srpfScan, hs, hq, not_lt.mpr (le_of_lt hgt), ne_of_gt hgt]
        rw [hstep]
        rcases ih (i + 1) s h0 (by omega) with ⟨h1, h2⟩ | ⟨k, p, h1, h2, h3, h4, h5, h6, h7⟩
        · left
          refine ⟨?_, ?_⟩
          · intro j q hj hqs hqq
            cases j with
            | zero =>
              simp only [List.getElem?_cons_zero, Option.some.injEq] at hj
              subst hj
              exact le_of_lt hgt
            | succ j => exact h1 j q (by simpa using hj) hqs hqq
          · rw [h2, srpfTies_cons_out s.minRemainedPriority a as
            (fun h => absurd h.2.2 (ne_of_gt hgt))]
        · right
          refine ⟨k + 1, p, by simpa using h1, h2, h3, h4, ?_, ?_, ?_⟩
          · rw [h5, srpfTies_cons_out p.mlfq.remainedPriority a as
              (fun h => absurd h.2.2 (ne_of_gt (lt_trans h4 hgt)))]
            congr 3
            omega
          · intro j q hj hqs hqq
            cases j with
            | zero =>
              simp only [List.getElem?_cons_zero, Option.some.injEq] at hj
              subst hj
              exact le_of_lt (lt_trans h4 hgt)
            | succ j => exact h6 j q (by simpa using hj) hqs hqq
          · intro j q hjk hj hqs hqq
            cases j with
            | zero =>
              simp only [List.getElem?_cons_zero, Option.some.injEq] at hj
              subst hj
              exact lt_trans h4 hgt
            | succ j => exact h7 j q (by omega) (by simpa using hj) hqs hqq
    · rw [srpfScan_skip a as i s hc]
      rcases ih (i + 1) s h0 (by omega) with ⟨h1, h2⟩ | ⟨k, p, h1, h2, h3, h4, h5, h6, h7⟩
      · left
        refine ⟨?_, ?_⟩
        · intro j q hj hqs hqq
          cases j with
          | zero =>
            simp only [List.getElem?_cons_zero, Option.some.injEq] at hj
            subst hj
            exact absurd ⟨hqs, hqq⟩ hc
          | succ j => exact h1 j q (by simpa using hj) hqs hqq
        · rw [h2, srpfTies_cons_out s.minRemainedPriority a as (fun h => hc ⟨h.1, h.2.1⟩)]
      · right
        refine ⟨k + 1, p, by simpa using h1, h2, h3, h4, ?_, ?_, ?_⟩
        · rw [h5, srpfTies_cons_out p.mlfq.remainedPriority a as (fun h => hc ⟨h.1, h.2.1⟩)]
          congr 3
          omega
        · intro j q hj hqs hqq
          cases j with
          | zero =>
            simp only [List.getElem?_cons_zero, Option.some.injEq] at hj
            subst hj
            exact absurd ⟨hqs, hqq⟩ hc
          | succ j => exact h6 j q (by simpa using hj) hqs hqq
        · intro j q hjk hj hqs hqq
          cases j with
          | zero =>
            simp only [List.getElem?_cons_zero, Option.some.injEq] at hj
            subst hj
            exact absurd ⟨hqs, hqq⟩ hc
          | succ j => exact h7 j q (by omega) (by simpa using hj) hqs hqq

theorem srpfPick_spec (m : ℚ) (t : List proc) :
    ∀ (i : Nat) (n : Int) (sel : Selection), 1 ≤ n → n ≤ (srpfTies m t : Int) →
      n < 2147483648 →
      ∃ k p, srpfPick m t i n sel = ⟨some (i + k), p.pid⟩ ∧ t[k]? = some p
        ∧ p.state = RUNNABLE ∧ p.mlfq.queueNumber = 3 ∧ p.mlfq.remainedPriority = m
        ∧ (srpfTies m (t.take k) : Int) = n - 1 := by
  induction t with
  | nil =>
    intro i n sel h1 h2 _
    simp only [srpfTies, Nat.cast_zero] at h2
    omega
  | cons a as ih =>
    intro i n sel h1 h2 h3
    by_cases hc : a.state = RUNNABLE ∧ a.mlfq.queueNumber = 3 ∧ a.mlfq.remainedPriority = m
    · rw [srpfTies_cons_in m a as hc] at h2
      simp only [Nat.cast_add, Nat.cast_one] at h2
      by_cases hn : n = 1
      · refine ⟨0, a, ?_, by simp, hc.1, hc.2.1, hc.2.2, ?_⟩
        · simp [srpfPick, hc, hn]
        · simp [srpfTies, hn]
      · have hw : toInt32 (n - 1) = n - 1 := toInt32_eq _ (by omega) (by omega)
        obtain ⟨k, p, hk1, hk2, hk3, hk4, hk5, hk6⟩ :=
          ih (i + 1) (n - 1) sel (by omega) (by omega) (by omega)
        refine ⟨k + 1, p, ?_, by simpa using hk2, hk3, hk4, hk5, ?_⟩
        · simp only [srpfPick, hc, and_self, if_true, hn, if_false, hw]
          rw [hk1]
          congr 2
          omega
        · rw [List.take_succ_cons, srpfTies_cons_in m a _ hc]
          simp only [Nat.cast_add, Nat.cast_one]
          omega
    · rw [srpfTies_cons_out m a as hc] at h2
      obtain ⟨k, p, hk1, hk2, hk3, hk4, hk5, hk6⟩ := ih (i + 1) n sel h1 h2 h3
      refine ⟨k + 1, p, ?_, by simpa using hk2, hk3, hk4, hk5, ?_⟩
      · simp only [srpfPick, hc, if_false]
        rw [hk1]
        congr 2
        omega
      · rw [List.take_succ_cons, srpfTies_cons_out m a _ hc]
        exact hk6

theorem srpfDraw_range (r : Nat) (N : Nat) (h1 : 1 ≤ N) (h2 : N < 2147483648) :
    1 ≤ srpfDraw r (N : Int) ∧ srpfDraw r (N : Int) ≤ (N : Int)
      ∧ srpfDraw r (N : Int) = ((r % N : Nat) : Int) + 1 := by
  unfold srpfDraw
  have hN : ((N : Int) % 4294967296).toNat = N := by omega
  rw [hN]
  have hlt : r % N < N := Nat.mod_lt _ (by omega)
  rw [toInt32_eq _ (by omega) (by omega)]
  omega

/-- C4, as amended. For every table (of fewer than `2^31 - 1` slots) in which
some RUNNABLE queue-3 slot has a `remainedPriority` below 500000, the initial
value of `minRemainedPriority`, and for every generator state, `findSRPF`
returns the pid of a RUNNABLE queue-3 slot whose `remainedPriority` is the
minimum over all RUNNABLE queue-3 slots. -/
theorem findSRPF_minimal (t : List proc) (randstate : Nat)
    (hlen : t.length < 2147483647)
    (hex : ∃ p ∈ t, p.state = RUNNABLE ∧ p.mlfq.queueNumber = 3
      ∧ p.mlfq.remainedPriority < 500000) :
    ∃ k p, (findSRPFSel t randstate).1 = ⟨some k, p.pid⟩
      ∧ (findSRPF t randstate).1 = p.pid ∧ t[k]? = some p
      ∧ p.state = RUNNABLE ∧ p.mlfq.queueNumber = 3
      ∧ ∀ q ∈ t, q.state = RUNNABLE → q.mlfq.queueNumber = 3 →
          p.mlfq.remainedPriority ≤ q.mlfq.remainedPriority := by
  have hsel : ∃ k p, (findSRPFSel t randstate).1 = ⟨some k, p.pid⟩ ∧ t[k]? = some p
      ∧ p.state = RUNNABLE ∧ p.mlfq.queueNumber = 3
      ∧ ∀ q ∈ t, q.state = RUNNABLE → q.mlfq.queueNumber = 3 →
          p.mlfq.remainedPriority ≤ q.mlfq.remainedPriority := by
    rcases srpfScan_spec t 0 ⟨⟨none, -1⟩, 500000, 1⟩ (by simp) (by simp only; omega)
      with ⟨h1, _⟩ | ⟨k, p, h1, h2, h3, _, h5, h6, _⟩
    · obtain ⟨q, hq, hq1, hq2, hq3⟩ := hex
      obtain ⟨j, hj⟩ := List.mem_iff_getElem?.mp hq
      exact absurd hq3 (not_lt.mpr (h1 j q hj hq1 hq2))
    · have hmin : ∀ q ∈ t, q.state = RUNNABLE → q.mlfq.queueNumber = 3 →
          p.mlfq.remainedPriority ≤ q.mlfq.remainedPriority := by
        intro q hq hq1 hq2
        obtain ⟨j, hj⟩ := List.mem_iff_getElem?.mp hq
        exact h6 j q hj hq1 hq2
      have hpos := srpfTies_pos t k p h1 h2 h3
      have hle := srpfTies_le_length p.mlfq.remainedPriority t
      rw [Nat.zero_add] at h5
      by_cases hone : srpfTies p.mlfq.remainedPriority t = 1
      · refine ⟨k, p, ?_, h1, h2, h3, hmin⟩
        simp [findSRPFSel, h5, hone]
      · have hd := srpfDraw_range (rand randstate) (srpfTies p.mlfq.remainedPriority t) hpos
          (by omega)
        obtain ⟨k', p', hk1, hk2, hk3, hk4, hk5, _⟩ :=
          srpfPick_spec p.mlfq.remainedPriority t 0
            (srpfDraw (rand randstate) (srpfTies p.mlfq.remainedPriority t : Int))
            ⟨some k, p.pid⟩ hd.1 hd.2.1 (by omega)
        rw [Nat.zero_add] at hk1
        refine ⟨k', p', ?_, hk2, hk3, hk4, by rw [hk5]; exact hmin⟩
        have hne : ((srpfTies p.mlfq.remainedPriority t : Nat) : Int) ≠ 1 := by omega
        simp only [findSRPFSel, h5, hne, ne_eq, not_false_eq_true, if_true]
        rw [hk1]
  obtain ⟨k, p, h1, h2, h3, h4, h5⟩ := hsel
  exact ⟨k, p, h1, by simp [findSRPF, h1], h2, h3, h4, h5⟩

/-- C4, witness: in `tableTiedSRPF` the minimum 3/10 is held by two slots. -/
theorem findSRPF_minimal_witness :
    ∃ k p, (findSRPFSel tableTiedSRPF 1).1 = ⟨some k, p.pid⟩
      ∧ (findSRPF tableTiedSRPF 1).1 = p.pid ∧ tableTiedSRPF[k]? = some p
      ∧ p.state = RUNNABLE ∧ p.mlfq.queueNumber = 3
      ∧ ∀ q ∈ tableTiedSRPF, q.state = RUNNABLE → q.mlfq.queueNumber = 3 →
          p.mlfq.remainedPriority ≤ q.mlfq.remainedPriority :=
  findSRPF_minimal tableTiedSRPF 1 (by decide)
    ⟨_, List.mem_cons_self _ _, by decide, by decide, by decide⟩

/-- C4, counterexample. The lone RUNNABLE queue-3 slot of `tableHighPriority`
has `remainedPriority` 600000, not below the initial `minRemainedPriority`
500000: `findSRPF` returns -1, which is the pid of no slot, whatever the
generator state. -/
theorem findSRPF_counterexample :
    (∃ p ∈ tableHighPriority, p.state = RUNNABLE ∧ p.mlfq.queueNumber = 3)
    ∧ (∀ randstate, (findSRPF tableHighPriority randstate).1 = -1)
    ∧ ∀ p ∈ tableHighPriority, p.pid ≠ -1 :=
  ⟨⟨_, List.mem_cons_self _ _, by decide⟩, fun _ => rfl, by decide⟩

/-! ## Policy priority of queue 2 -/

/-- C5, the code at the failing input. In `tableMidnight` read at 00:00:00 no
RUNNABLE slot is in queue 1 and a RUNNABLE slot is in queue 2; its waiting time
is -86399 s, so its HRRN is not above the initial `maxHRRN = -1` and `findHRRN`
returns -1. The scheduler takes the third-queue branch and switches into
slot 1, whose `queueNumber` is 3. -/
theorem scheduler_midnight_dispatch :
    (∀ p ∈ tableMidnight, ¬ (p.state = RUNNABLE ∧ p.mlfq.queueNumber = 1))
    ∧ (∃ p ∈ tableMidnight, p.state = RUNNABLE ∧ p.mlfq.queueNumber = 2)
    ∧ waitingTime clockMidnight ⟨59, 59, 23⟩ = -86399
    ∧ findHRRN tableMidnight (fun _ => clockMidnight) = -1
    ∧ (scheduler tableMidnight 1 (fun _ => clockMidnight) 0).branch = Branch.srpf
    ∧ (scheduler tableMidnight 1 (fun _ => clockMidnight) 0).current = some 1
    ∧ tableMidnight[1]?.map (fun p => p.mlfq.queueNumber) = some 3 := by
  have hv : HRRN clockMidnight
      { state := RUNNABLE, pid := 1,
        mlfq := { queueNumber := 2, arrivalTime := ⟨59, 59, 23⟩, executedCycleNumber := 1,
                  lotteryTicket := 10, remainedPriority := 1 } } = float.fin (-86399) := by
    rw [HRRN_small clockMidnight _ (-86399) 1 (by decide) rfl (by decide) (by decide)
      (by decide)]
    have h := fl32_int (-86399) (by decide)
    simp only [Int.cast_one, div_one]
    rw [h]
    norm_num
  have hH : findHRRN tableMidnight (fun _ => clockMidnight) = -1 := by
    rw [findHRRN, findHRRNSel, tableMidnight,
      hrrnLoop_cons_keep (fun _ => clockMidnight) _ _ 0 (-1) (-86399) _ rfl rfl hv
        (by norm_num),
      hrrnLoop_cons_other (fun _ => clockMidnight) _ _ _ _ _ (by decide)]
    rfl
  have hL : findLottery tableMidnight 1 = (-1, 1) := by decide
  have hS : findSRPF tableMidnight 1 = (2, 1) := by decide
  refine ⟨by decide, ⟨_, List.mem_cons_self _ _, by decide⟩, by decide, hH, ?_, ?_, by decide⟩
  · simp [scheduler, hL, hH, hS]
  · simp only [scheduler, hL, hH, hS]
    decide

/-! ## Accounting of dispatches -/

/-- C6, the code at the failing input. The lone RUNNABLE slot of
`tableZeroTicket` is found by none of the three selectors; the round-robin
fallback switches into it (slot 0 becomes RUNNING) and its
`executedCycleNumber` is 1 after the dispatch as before: the fallback loop has
no `executedCycleNumber += 1`. -/
theorem scheduler_fallback_no_accounting :
    (scheduler tableZeroTicket 1 (fun _ => {}) 0).branch = Branch.fallback
    ∧ (scheduler tableZeroTicket 1 (fun _ => {}) 0).current = some 0
    ∧ tableZeroTicket[0]?.map (fun p => (p.state, p.mlfq.executedCycleNumber))
        = some (RUNNABLE, 1)
    ∧ (scheduler tableZeroTicket 1 (fun _ => {}) 0).ptable[0]?.map
        (fun p => (p.state, p.mlfq.executedCycleNumber)) = some (RUNNING, 1) := by
  decide

/-- The shape of an iteration that does not fall back: the table is the
dispatch of the pid found, with `isThirdQueue == 1` exactly on the third-queue
branch. -/
theorem scheduler_policy_shape (t : List proc) (randstate : Nat)
    (cmostime : Nat → rtcdate) (isThirdQueue : Int)
    (hb : (scheduler t randstate cmostime isThirdQueue).branch ≠ Branch.fallback) :
    ∃ (foundPid : Int) (third : Int),
      (scheduler t randstate cmostime isThirdQueue).ptable = dispatch t foundPid third
      ∧ (scheduler t randstate cmostime isThirdQueue).current = findSlot t foundPid
      ∧ ((scheduler t randstate cmostime isThirdQueue).branch = Branch.srpf → third = 1) := by
  by_cases h1 : (findLottery t randstate).1 ≠ -1
  · exact ⟨(findLottery t randstate).1, 0, by simp [scheduler, h1], by simp [scheduler, h1],
      by simp [scheduler, h1]⟩
  · by_cases h2 : findHRRN t cmostime ≠ -1
    · exact ⟨findHRRN t cmostime, 0, by simp [scheduler, h1, h2], by simp [scheduler, h1, h2],
        by simp [scheduler, h1, h2]⟩
    · by_cases h3 : (findSRPF t (findLottery t randstate).2).1 ≠ -1
      · exact ⟨(findSRPF t (findLottery t randstate).2).1, 1, by simp [scheduler, h1, h2, h3],
          by simp [scheduler, h1, h2, h3], by simp⟩
      · exact absurd (by simp [scheduler, h1, h2, h3]) hb

/-- A dispatch through one of the three selectors adds one to the
`executedCycleNumber` of the slot switched into (below `INT_MAX`) and leaves
every other slot as it was. -/
theorem scheduler_policy_accounting (t : List proc) (randstate : Nat)
    (cmostime : Nat → rtcdate) (isThirdQueue : Int) (k : Nat) (p : proc)
    (hb : (scheduler t randstate cmostime isThirdQueue).branch ≠ Branch.fallback)
    (hc : (scheduler t randstate cmostime isThirdQueue).current = some k)
    (hk : t[k]? = some p) (he : p.mlfq.executedCycleNumber < 2147483647)
    (he0 : -2147483648 ≤ p.mlfq.executedCycleNumber) :
    (∃ p', (scheduler t randstate cmostime isThirdQueue).ptable[k]? = some p'
      ∧ p'.state = RUNNING
      ∧ p'.mlfq.executedCycleNumber = p.mlfq.executedCycleNumber + 1)
    ∧ ∀ j, j ≠ k → (scheduler t randstate cmostime isThirdQueue).ptable[j]? = t[j]? := by
  have hw : toInt32 (p.mlfq.executedCycleNumber + 1) = p.mlfq.executedCycleNumber + 1 :=
    toInt32_eq _ (by omega) (by omega)
  obtain ⟨foundPid, third, h1, h2, _⟩ :=
    scheduler_policy_shape t randstate cmostime isThirdQueue hb
  rw [h2] at hc
  rw [h1]
  exact ⟨⟨_, dispatch_at foundPid third t k p hc hk, rfl, by simp [account, hw]⟩,
    fun j hj => dispatch_other foundPid third t k j hc hj⟩

/-! ## SRPF decay -/

theorem account_third_remainedPriority (p : proc) :
    (account p 1).mlfq.remainedPriority
      = if decayed p.mlfq.remainedPriority < 0 then 0
        else fl32 (decayed p.mlfq.remainedPriority) := by
  simp [account]

theorem decay_step (x : ℚ) (n : Nat) :
    max 0 (max 0 (x - (n : ℚ) / 10) - 1 / 10) = max 0 (x - ((n + 1 : Nat) : ℚ) / 10) := by
  have hcast : ((n + 1 : Nat) : ℚ) / 10 = (n : ℚ) / 10 + 1 / 10 := by
    push_cast
    ring
  rw [hcast]
  rcases le_total (x - (n : ℚ) / 10) 0 with h | h
  · rw [max_eq_left h, max_eq_left (by linarith), max_eq_left (by linarith)]
  · rw [max_eq_right h]
    congr 1
    ring

theorem fl64_error (x : ℚ) : |fl64 x - x| ≤ |x| / 2 ^ 53 + 1 / 2 ^ 60 := by
  have h := roundBinary_error 52 (-1022) x
  have h1 : (2 : ℚ) ^ (-(52 : Int) - 1) = 1 / 2 ^ 53 := by norm_num
  have h2 : (2 : ℚ) ^ ((-1022 : Int) - 52 - 1) ≤ 1 / 2 ^ 60 := by norm_num
  rw [h1] at h
  unfold fl64
  have h3 : 1 / 2 ^ 53 * |x| = |x| / 2 ^ 53 := by ring
  linarith

theorem fl32_error (x : ℚ) : |fl32 x - x| ≤ |x| / 2 ^ 24 + 1 / 2 ^ 60 := by
  have h := roundBinary_error 23 (-126) x
  have h1 : (2 : ℚ) ^ (-(23 : Int) - 1) = 1 / 2 ^ 24 := by norm_num
  have h2 : (2 : ℚ) ^ ((-126 : Int) - 23 - 1) ≤ 1 / 2 ^ 60 := by norm_num
  rw [h1] at h
  unfold fl32
  have h3 : 1 / 2 ^ 24 * |x| = |x| / 2 ^ 24 := by ring
  linarith

theorem fl64_tenth : fl64 (1 / 10) = 3602879701896397 / 36028797018963968 := by
  have := roundBinary_near 52 (-1022) ((1 : ℚ) / 10) 7205759403792794 (-56) (by decide)
    (by norm_num [abs_of_pos]) (by norm_num [abs_of_pos]) (by norm_num [abs_lt])
  unfold fl64
  rw [this]
  norm_num

theorem decay_local (r B : ℚ) (hrB : r ≤ B) (hB1 : 1 ≤ B) :
    0 ≤ (if decayed r < 0 then 0 else fl32 (decayed r))
    ∧ |(if decayed r < 0 then 0 else fl32 (decayed r)) - max 0 (r - 1 / 10)|
        ≤ B * (1 / 2 ^ 24 + 1 / 2 ^ 50) := by
  have hd : decayed r = fl64 (r - 3602879701896397 / 36028797018963968) := by
    rw [decayed, fl64_tenth]
  have e64 := fl64_error (r - 3602879701896397 / 36028797018963968)
  have e32 := fl32_error (decayed r)
  rw [← hd] at e64
  rw [abs_le] at e64 e32
  have hc1 : (1 : ℚ) / 2 ^ 60 = 1 / 1152921504606846976 := by norm_num
  have hc2 : (2 : ℚ) ^ 53 = 9007199254740992 := by norm_num
  have hc3 : (2 : ℚ) ^ 24 = 16777216 := by norm_num
  have hc4 : (2 : ℚ) ^ 50 = 1125899906842624 := by norm_num
  rw [hc1, hc2] at e64
  rw [hc1, hc3] at e32
  rw [hc3, hc4]
  rcases le_or_lt 0 (r - 3602879701896397 / 36028797018963968) with hz | hz
  · have hy : 0 ≤ decayed r := by
      rw [hd]
      exact roundBinary_nonneg 52 (-1022) _ hz
    have hf : 0 ≤ fl32 (decayed r) := roundBinary_nonneg 23 (-126) _ hy
    rw [abs_of_nonneg hz] at e64
    rw [abs_of_nonneg hy] at e32
    rw [if_neg (not_lt.mpr hy)]
    refine ⟨hf, ?_⟩
    rcases le_total 0 (r - 1 / 10) with hm | hm
    · rw [max_eq_right hm, abs_le]
      constructor <;> linarith
    · rw [max_eq_left hm, abs_le]
      constructor <;> linarith
  · have hy : decayed r ≤ 0 := by
      rw [hd]
      exact roundBinary_nonpos 52 (-1022) _ (le_of_lt hz)
    have hval : (if decayed r < 0 then 0 else fl32 (decayed r)) = 0 := by
      by_cases hlt : decayed r < 0
      · rw [if_pos hlt]
      · have h0 : decayed r = 0 := le_antisymm hy (not_lt.mp hlt)
        rw [if_neg hlt, h0, fl32_zero]
    rw [hval]
    refine ⟨le_refl 0, ?_⟩
    rcases le_total 0 (r - 1 / 10) with hm | hm
    · rw [max_eq_right hm, abs_le]
      constructor <;> linarith
    · rw [max_eq_left hm]
      simp only [sub_self, abs_zero]
      positivity

theorem decay_le (r : ℚ) (hr0 : 0 ≤ r) (m q : Int) (hm : (m : ℚ) ≤ 16777216)
    (hq : -149 ≤ q) (hr : r = (m : ℚ) * 2 ^ q) :
    (if decayed r < 0 then 0 else fl32 (decayed r)) ≤ r := by
  by_cases hlt : decayed r < 0
  · rw [if_pos hlt]
    exact hr0
  · rw [if_neg hlt]
    have hd0 : 0 ≤ decayed r := not_lt.mp hlt
    have hd : decayed r = fl64 (r - 3602879701896397 / 36028797018963968) := by
      rw [decayed, fl64_tenth]
    rcases le_or_lt 0 (r - 3602879701896397 / 36028797018963968) with hz | hz
    · have h64 : decayed r ≤ (m : ℚ) * 2 ^ q := by
        rw [hd]
        apply roundBinary_le_of_le 52 (-1022) (by norm_num) _ m q hz
        · have : (16777216 : ℚ) ≤ 2 ^ ((52 : Int) + 1) := by norm_num
          linarith
        · omega
        · rw [← hr]
          linarith
      have h32 : fl32 (decayed r) ≤ (m : ℚ) * 2 ^ q := by
        apply roundBinary_le_of_le 23 (-126) (by norm_num) _ m q hd0
        · have : (16777216 : ℚ) ≤ 2 ^ ((23 : Int) + 1) := by norm_num
          linarith
        · omega
        · exact h64
      exact le_trans h32 (le_of_eq hr.symm)
    · have hy : decayed r ≤ 0 := by
        rw [hd]
        exact roundBinary_nonpos 52 (-1022) _ (le_of_lt hz)
      have h0 : decayed r = 0 := le_antisymm hy hd0
      rw [h0, fl32_zero]
      exact hr0

theorem decay_rep (r : ℚ) :
    ∃ m q : Int, (m : ℚ) ≤ 16777216 ∧ -149 ≤ q
      ∧ (if decayed r < 0 then 0 else fl32 (decayed r)) = (m : ℚ) * 2 ^ q := by
  by_cases hlt : decayed r < 0
  · rw [if_pos hlt]
    exact ⟨0, 0, by norm_num, by omega, by simp⟩
  · rw [if_neg hlt]
    obtain ⟨m, q, h1, h2, h3⟩ :=
      roundBinary_rep 23 (-126) (by norm_num) (decayed r) (not_lt.mp hlt)
    refine ⟨m, q, ?_, by omega, h3⟩
    have : (2 : ℚ) ^ ((23 : Int) + 1) = 16777216 := by norm_num
    rw [this] at h1
    exact h1

/-- C7, as amended. For a slot `k` whose `remainedPriority` is `initial ≥ 0`:
after any history in which the scheduler dispatched it `n` times through the
third-queue (SRPF) branch and nothing else wrote its `remainedPriority`, the
slot's `remainedPriority` is non-negative and differs from
`max(0, initial - n/10)` by at most `n * max(1, initial) / 2^23`. The source
subtracts the `double` `0.1` and stores a `float`, so each dispatch adds a
rounding error and the value is not the exact decimal. -/
theorem srpf_decay (k n : Nat) (t t' : List proc) (h : SRPFDispatches k n t t')
    (p : proc) (hk : t[k]? = some p) (h0 : 0 ≤ p.mlfq.remainedPriority) :
    ∃ p', t'[k]? = some p'
      ∧ 0 ≤ p'.mlfq.remainedPriority
      ∧ |p'.mlfq.remainedPriority - max 0 (p.mlfq.remainedPriority - (n : ℚ) / 10)|
          ≤ (n : ℚ) * max 1 p.mlfq.remainedPriority / 2 ^ 23 := by
  have hB1 : (1 : ℚ) ≤ max 1 p.mlfq.remainedPriority := le_max_left _ _
  have hB0 : (0 : ℚ) ≤ max 1 p.mlfq.remainedPriority := by linarith
  have hBB : max 1 p.mlfq.remainedPriority
      ≤ max 1 p.mlfq.remainedPriority * (1 + 1 / 2 ^ 22) := by
    have : (0 : ℚ) ≤ max 1 p.mlfq.remainedPriority * (1 / 2 ^ 22) :=
      mul_nonneg hB0 (by norm_num)
    linarith
  have hstep : max 1 p.mlfq.remainedPriority * (1 + 1 / 2 ^ 22) * (1 / 2 ^ 24 + 1 / 2 ^ 50)
      ≤ max 1 p.mlfq.remainedPriority / 2 ^ 23 := by
    have hc : ((1 : ℚ) + 1 / 2 ^ 22) * (1 / 2 ^ 24 + 1 / 2 ^ 50) ≤ 1 / 2 ^ 23 := by norm_num
    have := mul_le_mul_of_nonneg_left hc hB0
    calc max 1 p.mlfq.remainedPriority * (1 + 1 / 2 ^ 22) * (1 / 2 ^ 24 + 1 / 2 ^ 50)
        = max 1 p.mlfq.remainedPriority * ((1 + 1 / 2 ^ 22) * (1 / 2 ^ 24 + 1 / 2 ^ 50)) := by
          ring
      _ ≤ max 1 p.mlfq.remainedPriority * (1 / 2 ^ 23) := this
      _ = max 1 p.mlfq.remainedPriority / 2 ^ 23 := by ring
  have key : ∃ p', t'[k]? = some p'
      ∧ 0 ≤ p'.mlfq.remainedPriority
      ∧ p'.mlfq.remainedPriority ≤ max 1 p.mlfq.remainedPriority * (1 + 1 / 2 ^ 22)
      ∧ (p'.mlfq.remainedPriority ≤ max 1 p.mlfq.remainedPriority
          ∨ ∃ m q : Int, (m : ℚ) ≤ 16777216 ∧ -149 ≤ q
              ∧ p'.mlfq.remainedPriority = (m : ℚ) * 2 ^ q)
      ∧ |p'.mlfq.remainedPriority - max 0 (p.mlfq.remainedPriority - (n : ℚ) / 10)|
          ≤ (n : ℚ) * max 1 p.mlfq.remainedPriority / 2 ^ 23 := by
    induction h with
    | start t =>
      exact ⟨p, hk, h0, le_trans (le_max_right _ _) hBB, Or.inl (le_max_right _ _),
        by simp [h0]⟩
    | other n t t1 t2 _ hsame ih =>
      obtain ⟨p1, hp1, hr0, hrB, hrep, hr⟩ := ih hk
      rw [hp1] at hsame
      simp only [Option.map_some', Option.map_eq_some'] at hsame
      obtain ⟨p2, hp2, hr2⟩ := hsame
      exact ⟨p2, hp2, by rw [hr2]; exact hr0, by rw [hr2]; exact hrB,
        by rw [hr2]; exact hrep, by rw [hr2]; exact hr⟩
    | dispatch n t t1 randstate cmostime isThirdQueue _ hb hc ih =>
      obtain ⟨p1, hp1, hr0, hrB, hrep, hr⟩ := ih hk
      obtain ⟨foundPid, third, hs1, hs2, hs3⟩ :=
        scheduler_policy_shape t1 randstate cmostime isThirdQueue (by rw [hb]; decide)
      have hthird : third = 1 := hs3 hb
      subst hthird
      rw [hs2] at hc
      obtain ⟨l0, lerr⟩ := decay_local p1.mlfq.remainedPriority
        (max 1 p.mlfq.remainedPriority * (1 + 1 / 2 ^ 22)) hrB (le_trans hB1 hBB)
      have lerr2 := le_trans lerr hstep
      refine ⟨_, by rw [hs1]; exact dispatch_at foundPid 1 t1 k p1 hc hp1, ?_, ?_, ?_, ?_⟩
      · show 0 ≤ (account p1 1).mlfq.remainedPriority
        rw [account_third_remainedPriority]
        exact l0
      · show (account p1 1).mlfq.remainedPriority ≤ _
        rw [account_third_remainedPriority]
        rcases hrep with hle | ⟨m, q, hm, hq, hmq⟩
        · obtain ⟨_, lerr1⟩ := decay_local p1.mlfq.remainedPriority
            (max 1 p.mlfq.remainedPriority) hle hB1
          have hmax : max 0 (p1.mlfq.remainedPriority - 1 / 10)
              ≤ max 1 p.mlfq.remainedPriority := max_le hB0 (by linarith)
          rw [abs_le] at lerr1
          have hc : (1 : ℚ) / 2 ^ 24 + 1 / 2 ^ 50 ≤ 1 / 2 ^ 22 := by norm_num
          have := mul_le_mul_of_nonneg_left hc hB0
          linarith
        · exact le_trans (decay_le _ hr0 m q hm hq hmq) hrB
      · show _ ∨ ∃ m q : Int, _ ∧ _ ∧ (account p1 1).mlfq.remainedPriority = _
        rw [account_third_remainedPriority]
        exact Or.inr (decay_rep _)
      · show |(account p1 1).mlfq.remainedPriority - _| ≤ _
        rw [account_third_remainedPriority, ← decay_step]
        have hlip : |max 0 (p1.mlfq.remainedPriority - 1 / 10)
            - max 0 (max 0 (p.mlfq.remainedPriority - (n : ℚ) / 10) - 1 / 10)|
            ≤ |p1.mlfq.remainedPriority - max 0 (p.mlfq.remainedPriority - (n : ℚ) / 10)| := by
          rw [max_comm 0 (p1.mlfq.remainedPriority - 1 / 10),
            max_comm 0 (max 0 (p.mlfq.remainedPriority - (n : ℚ) / 10) - 1 / 10)]
          have := abs_max_sub_max_le_abs (p1.mlfq.remainedPriority - 1 / 10)
            (max 0 (p.mlfq.remainedPriority - (n : ℚ) / 10) - 1 / 10) 0
          simpa using this
        have htri := abs_sub_le
          (if decayed p1.mlfq.remainedPriority < 0 then 0
            else fl32 (decayed p1.mlfq.remainedPriority))
          (max 0 (p1.mlfq.remainedPriority - 1 / 10))
          (max 0 (max 0 (p.mlfq.remainedPriority - (n : ℚ) / 10) - 1 / 10))
        have hsum : ((n + 1 : Nat) : ℚ) * max 1 p.mlfq.remainedPriority / 2 ^ 23
            = (n : ℚ) * max 1 p.mlfq.remainedPriority / 2 ^ 23
              + max 1 p.mlfq.remainedPriority / 2 ^ 23 := by
          push_cast
          ring
        rw [hsum]
        linarith
  obtain ⟨p', h1', h2', _, _, h5'⟩ := key
  exact ⟨p', h1', h2', h5'⟩

theorem decayed_one : decayed 1 = 8106479329266893 / 9007199254740992 := by
  have := roundBinary_near 52 (-1022) ((1 : ℚ) - 3602879701896397 / 36028797018963968)
    8106479329266893 (-53) (by decide)
    (by norm_num [abs_of_pos]) (by norm_num [abs_of_pos]) (by norm_num [abs_lt])
  rw [decayed, fl64_tenth]
  unfold fl64
  rw [this]
  norm_num

theorem fl32_decayed_one :
    fl32 (8106479329266893 / 9007199254740992) = 7549747 / 8388608 := by
  have := roundBinary_near 23 (-126) ((8106479329266893 : ℚ) / 9007199254740992)
    15099494 (-24) (by decide)
    (by norm_num [abs_of_pos]) (by norm_num [abs_of_pos]) (by norm_num [abs_lt])
  unfold fl32
  rw [this]
  norm_num

theorem scheduler_tableLoneSRPF (randstate : Nat) (cmostime : Nat → rtcdate)
    (isThirdQueue : Int) :
    (scheduler tableLoneSRPF randstate cmostime isThirdQueue).ptable
      = [{ account slotLoneSRPF 1 with state := RUNNING }] := by
  have hL : findLottery tableLoneSRPF randstate = (-1, randstate) := rfl
  have hH : findHRRN tableLoneSRPF cmostime = -1 := rfl
  have hS : findSRPF tableLoneSRPF randstate = (9, randstate) := rfl
  have hp : slotLoneSRPF.pid = 9 := rfl
  simp only [scheduler, hL, hH, hS]
  simp [tableLoneSRPF, dispatch, hp]

/-- C7, counterexample. The lone slot of `tableLoneSRPF` has `remainedPriority`
1. One dispatch through the third-queue branch stores the `float` nearest to
the `double` `1 - 0.1`, which is `7549747/8388608` (`0x3f666666`,
0.89999998), not `max(0, 1 - 0.1) = 9/10`. -/
theorem srpf_decay_counterexample :
    SRPFDispatches 0 (0 + 1) tableLoneSRPF (scheduler tableLoneSRPF 1 (fun _ => {}) 0).ptable
    ∧ tableLoneSRPF[0]?.map (fun p => p.mlfq.remainedPriority) = some 1
    ∧ (scheduler tableLoneSRPF 1 (fun _ => {}) 0).ptable[0]?.map
        (fun p => p.mlfq.remainedPriority) = some (7549747 / 8388608)
    ∧ (7549747 : ℚ) / 8388608 ≠ max 0 (1 - ((0 + 1 : Nat) : ℚ) / 10) := by
  refine ⟨SRPFDispatches.dispatch 0 tableLoneSRPF tableLoneSRPF 1 (fun _ => {}) 0
      (SRPFDispatches.start tableLoneSRPF) rfl rfl, rfl, ?_, by norm_num⟩
  rw [scheduler_tableLoneSRPF]
  have hr : slotLoneSRPF.mlfq.remainedPriority = 1 := rfl
  simp only [List.getElem?_cons_zero, Option.map_some', Option.some.injEq]
  show (account slotLoneSRPF 1).mlfq.remainedPriority = _
  rw [account_third_remainedPriority, hr, decayed_one, fl32_decayed_one]
  norm_num

theorem scheduler_tableTwoSRPF (randstate : Nat) (cmostime : Nat → rtcdate)
    (isThirdQueue : Int) :
    (scheduler tableTwoSRPF randstate cmostime isThirdQueue).ptable
      = [{ account slotLoneSRPF 1 with state := RUNNING }, slotSecondSRPF] := by
  have hL : findLottery tableTwoSRPF randstate = (-1, randstate) := rfl
  have hH : findHRRN tableTwoSRPF cmostime = -1 := rfl
  have hS : findSRPF tableTwoSRPF randstate = (9, randstate) := rfl
  have hp : slotLoneSRPF.pid = 9 := rfl
  simp only [scheduler, hL, hH, hS]
  simp [tableTwoSRPF, dispatch, hp]

theorem scheduler_tableTwoSRPFYielded (randstate : Nat) (cmostime : Nat → rtcdate)
    (isThirdQueue : Int) :
    (scheduler tableTwoSRPFYielded randstate cmostime isThirdQueue).branch = Branch.srpf
    ∧ (scheduler tableTwoSRPFYielded randstate cmostime isThirdQueue).current = some 0 := by
  have hL : findLottery tableTwoSRPFYielded randstate = (-1, randstate) := rfl
  have hH : findHRRN tableTwoSRPFYielded cmostime = -1 := rfl
  have hS : findSRPF tableTwoSRPFYielded randstate = (9, randstate) := by
    have hscan : srpfScan tableTwoSRPFYielded 0 ⟨⟨none, -1⟩, 500000, 1⟩
        = ⟨⟨some 0, 9⟩, 7549747 / 8388608, 1⟩ := by
      norm_num [srpfScan, tableTwoSRPFYielded, slotSecondSRPF]
    simp [findSRPF, findSRPFSel, hscan]
  simp only [scheduler, hL, hH, hS]
  exact ⟨rfl, rfl⟩

/-- C7, witness: in the table of two queue-3 slots with priorities 1 and 5,
the slot of priority 1 is dispatched through the third-queue branch, yields
(it is RUNNABLE again, holding `7549747/8388608`) and is dispatched a second
time: after these two dispatches its `remainedPriority` is within `2 / 2^23`
of `1 - 2/10`. -/
theorem srpf_decay_witness :
    SRPFDispatches 0 (0 + 1 + 1) tableTwoSRPF
      (scheduler tableTwoSRPFYielded 1 (fun _ => {}) 1).ptable
    ∧ tableTwoSRPF.map (fun p => (p.pid, p.mlfq.remainedPriority)) = [(9, 1), (10, 5)]
    ∧ ∃ p', (scheduler tableTwoSRPFYielded 1 (fun _ => {}) 1).ptable[0]? = some p'
      ∧ 0 ≤ p'.mlfq.remainedPriority
      ∧ |p'.mlfq.remainedPriority
          - max 0 (slotLoneSRPF.mlfq.remainedPriority - ((0 + 1 + 1 : Nat) : ℚ) / 10)|
          ≤ ((0 + 1 + 1 : Nat) : ℚ) * max 1 slotLoneSRPF.mlfq.remainedPriority / 2 ^ 23 := by
  have hsame : tableTwoSRPFYielded[0]?.map (fun p => p.mlfq.remainedPriority)
      = (scheduler tableTwoSRPF 1 (fun _ => {}) 0).ptable[0]?.map
          (fun p => p.mlfq.remainedPriority) := by
    rw [scheduler_tableTwoSRPF]
    have hr : slotLoneSRPF.mlfq.remainedPriority = 1 := rfl
    simp only [tableTwoSRPFYielded, List.getElem?_cons_zero, Option.map_some',
      Option.some.injEq]
    show _ = (account slotLoneSRPF 1).mlfq.remainedPriority
    rw [account_third_remainedPriority, hr, decayed_one, fl32_decayed_one]
    norm_num
  have hist : SRPFDispatches 0 (0 + 1 + 1) tableTwoSRPF
      (scheduler tableTwoSRPFYielded 1 (fun _ => {}) 1).ptable :=
    SRPFDispatches.dispatch (0 + 1) tableTwoSRPF tableTwoSRPFYielded 1 (fun _ => {}) 1
      (SRPFDispatches.other (0 + 1) tableTwoSRPF
        (scheduler tableTwoSRPF 1 (fun _ => {}) 0).ptable tableTwoSRPFYielded
        (SRPFDispatches.dispatch 0 tableTwoSRPF tableTwoSRPF 1 (fun _ => {}) 0
          (SRPFDispatches.start tableTwoSRPF) rfl rfl)
        hsame)
      (scheduler_tableTwoSRPFYielded 1 (fun _ => {}) 1).1
      (scheduler_tableTwoSRPFYielded 1 (fun _ => {}) 1).2
  exact ⟨hist, rfl,
    srpf_decay 0 (0 + 1 + 1) tableTwoSRPF _ hist slotLoneSRPF rfl (by decide)⟩

/-! ## `setLotteryTicket` -/

theorem setLotteryTicket_cases (pid newTicket : Int) (t : List proc) :
    ((setLotteryTicket t pid newTicket).1 = -1
      ∧ (setLotteryTicket t pid newTicket).2 = t
      ∧ ∀ p ∈ t, ¬ (p.pid = pid ∧ p.mlfq.queueNumber = 1))
    ∨ ((setLotteryTicket t pid newTicket).1 = 0
      ∧ ∃ k p, t[k]? = some p ∧ p.pid = pid ∧ p.mlfq.queueNumber = 1
        ∧ (∀ (j : Nat) (q : proc), j < k → t[j]? = some q →
            ¬ (q.pid = pid ∧ q.mlfq.queueNumber = 1))
        ∧ (setLotteryTicket t pid newTicket).2
            = t.set k { p with mlfq := { p.mlfq with lotteryTicket := newTicket } }) := by
  induction t with
  | nil => left; simp [setLotteryTicket]
  | cons a as ih =>
    by_cases ha : a.mlfq.queueNumber = 1 ∧ a.pid = pid
    · right
      refine ⟨by simp [setLotteryTicket, ha], 0, a, by simp, ha.2, ha.1, ?_, ?_⟩
      · intro j q hj
        omega
      · simp [setLotteryTicket, ha]
    · have hstep : setLotteryTicket (a :: as) pid newTicket
          = ((setLotteryTicket as pid newTicket).1, a :: (setLotteryTicket as pid newTicket).2) := by
        simp only [setLotteryTicket, ha, if_false]
      rw [hstep]
      rcases ih with ⟨h1, h2, h3⟩ | ⟨h1, k, p, h2, h3, h4, h5, h6⟩
      · left
        refine ⟨h1, by rw [h2], ?_⟩
        intro p hp
        rcases List.mem_cons.mp hp with rfl | hp
        · exact fun h => ha ⟨h.2, h.1⟩
        · exact h3 p hp
      · right
        refine ⟨h1, k + 1, p, by simpa using h2, h3, h4, ?_, ?_⟩
        · intro j q hjk hj
          cases j with
          | zero =>
            simp only [List.getElem?_cons_zero, Option.some.injEq] at hj
            subst hj
            exact fun h => ha ⟨h.2, h.1⟩
          | succ j => exact h5 j q (by omega) (by simpa using hj)
        · simp only [h6, List.set_cons_succ]

/-- C10. `setLotteryTicket(pid, n)` returns 0 or -1. It returns 0 exactly when
some slot holds `pid` with `queueNumber == 1`; then the table is the old one
with `lotteryTicket` set to `n` on the first such slot, every other field and
every other slot as before. When it returns -1 the table is unchanged. -/
theorem setLotteryTicket_spec (t : List proc) (pid newTicket : Int) :
    ((setLotteryTicket t pid newTicket).1 = 0 ∨ (setLotteryTicket t pid newTicket).1 = -1)
    ∧ ((setLotteryTicket t pid newTicket).1 = 0
        ↔ ∃ p ∈ t, p.pid = pid ∧ p.mlfq.queueNumber = 1)
    ∧ ((setLotteryTicket t pid newTicket).1 = 0 →
        ∃ k p, t[k]? = some p ∧ p.pid = pid ∧ p.mlfq.queueNumber = 1
          ∧ (∀ (j : Nat) (q : proc), j < k → t[j]? = some q →
              ¬ (q.pid = pid ∧ q.mlfq.queueNumber = 1))
          ∧ (setLotteryTicket t pid newTicket).2
              = t.set k { p with mlfq := { p.mlfq with lotteryTicket := newTicket } })
    ∧ ((setLotteryTicket t pid newTicket).1 = -1 →
        (setLotteryTicket t pid newTicket).2 = t) := by
  rcases setLotteryTicket_cases pid newTicket t with ⟨h1, h2, h3⟩ | ⟨h1, k, p, h2, h3, h4, h5, h6⟩
  · refine ⟨Or.inr h1, ?_, ?_, fun _ => h2⟩
    · constructor
      · intro h0
        rw [h1] at h0
        exact absurd h0 (by decide)
      · rintro ⟨p, hp, hpp⟩
        exact absurd hpp (h3 p hp)
    · intro h0
      rw [h1] at h0
      exact absurd h0 (by decide)
  · refine ⟨Or.inl h1, ?_, fun _ => ⟨k, p, h2, h3, h4, h5, h6⟩, ?_⟩
    · exact ⟨fun _ => ⟨p, List.getElem?_mem h2, h3, h4⟩, fun _ => h1⟩
    · intro hm
      rw [h1] at hm
      exact absurd hm (by decide)

/-! ## Decimal parsing -/

theorem digitsValue_eq (cs : List Char) :
    ∀ v : Nat, digitsValue cs v = v * 10 ^ cs.length + decimalValue cs := by
  induction cs with
  | nil => intro v; simp [digitsValue, decimalValue]
  | cons c cs ih =>
    intro v
    simp only [digitsValue, decimalValue, List.length_cons]
    rw [ih (v * 10 + (c.toNat - 48)), ih (0 * 10 + (c.toNat - 48))]
    ring

theorem decimalValue_cons (c : Char) (cs : List Char) :
    decimalValue (c :: cs) = (c.toNat - 48) * 10 ^ cs.length + decimalValue cs := by
  have h := digitsValue_eq cs (0 * 10 + (c.toNat - 48))
  simp only [decimalValue, digitsValue] at h ⊢
  rw [h]
  ring_nf

theorem decimalValue_append_singleton (cs : List Char) (c : Char) :
    decimalValue (cs ++ [c]) = decimalValue cs * 10 + (c.toNat - 48) := by
  have h : ∀ v, digitsValue (cs ++ [c]) v = digitsValue cs v * 10 + (c.toNat - 48) := by
    induction cs with
    | nil => intro v; simp [digitsValue]
    | cons a as ih => intro v; simp only [List.cons_append, digitsValue]; exact ih _
  exact h 0

theorem digitsValue_append (cs ds : List Char) :
    ∀ v : Nat, digitsValue (cs ++ ds) v = digitsValue ds (digitsValue cs v) := by
  induction cs with
  | nil => intro v; rfl
  | cons c cs ih => intro v; simp only [List.cons_append, digitsValue]; exact ih _

theorem digitsValue_ge (cs : List Char) : ∀ v : Nat, v ≤ digitsValue cs v := by
  induction cs with
  | nil => intro v; exact le_refl v
  | cons c cs ih =>
    intro v
    simp only [digitsValue]
    have := ih (v * 10 + (c.toNat - 48))
    omega

theorem float.mul_fin (a b : ℚ) (h : |a * b| < 2 ^ 127) :
    float.mul (float.fin a) (float.fin b) = float.fin (fl32 (a * b)) := by
  simp only [float.mul, float.round_fin _ h]

theorem float.add_fin (a b : ℚ) (h : |a + b| < 2 ^ 127) :
    float.add (float.fin a) (float.fin b) = float.fin (fl32 (a + b)) := by
  simp only [float.add, float.round_fin _ h]

theorem float.div_fin (a b : ℚ) (hb : b ≠ 0) (h : |a / b| < 2 ^ 127) :
    float.div (float.fin a) (float.fin b) = float.fin (fl32 (a / b)) := by
  simp only [float.div, hb, if_false, float.round_fin _ h]

theorem abs_lt_two_pow (x : ℚ) (h : |x| ≤ 16777216 * 16) : |x| < 2 ^ 127 := by
  have : (16777216 : ℚ) * 16 < 2 ^ 127 := by norm_num
  linarith

theorem strToFloatLoop_digit (c : Char) (cs : List Char) (point_seen : Bool)
    (rez fact : float) (hc : isDecimalDigit c = true) :
    strToFloatLoop (c :: cs) point_seen rez fact
      = strToFloatLoop cs point_seen
          (float.add (float.mul rez (float.fin 10)) (float.ofInt ((c.toNat : Int) - 48)))
          (if point_seen then float.div fact (float.fin 10) else fact) := by
  simp only [isDecimalDigit, Bool.and_eq_true, decide_eq_true_eq] at hc
  have h0 : c.toNat ≠ 0 := by omega
  have hdot : c ≠ '.' := by
    intro h
    rw [h] at hc
    exact absurd hc.1 (by decide)
  have hd : 0 ≤ (c.toNat : Int) - 48 ∧ (c.toNat : Int) - 48 ≤ 9 := by omega
  simp only [strToFloatLoop, h0, hdot, hd, and_self, if_true, if_false]

/-- one digit onto an exactly held `rez` -/
theorem digit_step (v : Nat) (c : Char) (hc : isDecimalDigit c = true)
    (h : v * 10 + (c.toNat - 48) < 16777216) :
    float.add (float.mul (float.fin (v : ℚ)) (float.fin 10))
        (float.ofInt ((c.toNat : Int) - 48))
      = float.fin ((v * 10 + (c.toNat - 48) : Nat) : ℚ) := by
  simp only [isDecimalDigit, Bool.and_eq_true, decide_eq_true_eq] at hc
  have hd : ((c.toNat : Int) - 48) = ((c.toNat - 48 : Nat) : Int) := by omega
  have h1 : ((v : ℚ)) * 10 = ((v * 10 : Nat) : ℚ) := by push_cast; ring
  have hm : fl32 (((v * 10 : Nat) : ℚ)) = ((v * 10 : Nat) : ℚ) := by
    have := fl32_int ((v * 10 : Nat) : Int) (by rw [abs_of_nonneg (by omega)]; omega)
    simpa using this
  have hdq : fl32 ((((c.toNat - 48 : Nat) : Int)) : ℚ) = ((c.toNat - 48 : Nat) : ℚ) := by
    have := fl32_int ((c.toNat - 48 : Nat) : Int) (by rw [abs_of_nonneg (by omega)]; omega)
    simpa using this
  have hs : fl32 (((v * 10 + (c.toNat - 48) : Nat) : ℚ)) = ((v * 10 + (c.toNat - 48) : Nat) : ℚ) := by
    have := fl32_int ((v * 10 + (c.toNat - 48) : Nat) : Int)
      (by rw [abs_of_nonneg (by omega)]; omega)
    simpa using this
  have hb1 : |(v : ℚ) * 10| < 2 ^ 127 := by
    apply abs_lt_two_pow
    rw [h1, abs_of_nonneg (Nat.cast_nonneg (v * 10))]
    have : ((v * 10 : Nat) : ℚ) ≤ ((16777216 : Nat) : ℚ) := by exact_mod_cast (by omega : v * 10 ≤ 16777216)
    push_cast at this ⊢
    linarith
  rw [float.mul_fin _ _ hb1, h1, hm, float.ofInt, hd, hdq]
  have hsum : ((v * 10 : Nat) : ℚ) + ((c.toNat - 48 : Nat) : ℚ)
      = ((v * 10 + (c.toNat - 48) : Nat) : ℚ) := by push_cast; ring
  have hb2 : |((v * 10 : Nat) : ℚ) + ((c.toNat - 48 : Nat) : ℚ)| < 2 ^ 127 := by
    apply abs_lt_two_pow
    rw [hsum, abs_of_nonneg (Nat.cast_nonneg (v * 10 + (c.toNat - 48)))]
    have : ((v * 10 + (c.toNat - 48) : Nat) : ℚ) ≤ ((16777216 : Nat) : ℚ) := by
      exact_mod_cast (by omega : v * 10 + (c.toNat - 48) ≤ 16777216)
    push_cast at this ⊢
    linarith
  rw [float.add_fin _ _ hb2, hsum, hs]

/-- one division of `fact` by ten -/
theorem fact_step (f : ℚ) (hf : |f| ≤ 1) :
    float.div (float.fin f) (float.fin 10) = float.fin (fl32 (f / 10))
    ∧ |fl32 (f / 10)| ≤ 1 := by
  have hb : |f / 10| < 2 ^ 127 := by
    apply abs_lt_two_pow
    rw [abs_div]
    have : |(10 : ℚ)| = 10 := by norm_num
    rw [this]
    linarith
  refine ⟨float.div_fin f 10 (by norm_num) hb, ?_⟩
  have h := fl32_abs_le (f / 10)
  have hc1 : (2 : ℚ) ^ (-24 : Int) = 1 / 16777216 := by norm_num
  have hc2 : (2 : ℚ) ^ (-150 : Int) ≤ 1 / 2 := by norm_num
  rw [hc1] at h
  have h10 : |f / 10| ≤ 1 / 10 := by
    rw [abs_div]
    have : |(10 : ℚ)| = 10 := by norm_num
    rw [this]
    linarith
  linarith

theorem tenthPower_abs_le (k : Nat) : ∀ f : ℚ, |f| ≤ 1 → |tenthPower k f| ≤ 1 := by
  induction k with
  | zero => intro f hf; exact hf
  | succ k ih => intro f hf; exact ih _ (fact_step f hf).2

theorem strToFloatLoop_digits (cs : List Char) :
    ∀ (rest : List Char) (point_seen : Bool) (v : Nat) (f : ℚ),
      (∀ c ∈ cs, isDecimalDigit c = true) → digitsValue cs v < 16777216 → |f| ≤ 1 →
      strToFloatLoop (cs ++ rest) point_seen (float.fin (v : ℚ)) (float.fin f)
        = strToFloatLoop rest point_seen (float.fin (digitsValue cs v : ℚ))
            (float.fin (if point_seen then tenthPower cs.length f else f)) := by
  induction cs with
  | nil => intro rest ps v f _ _ _; cases ps <;> simp [digitsValue, tenthPower]
  | cons c cs ih =>
    intro rest ps v f hd hv hf
    have hc := hd c (List.mem_cons_self _ _)
    have hcs : ∀ x ∈ cs, isDecimalDigit x = true := fun x hx => hd x (List.mem_cons_of_mem _ hx)
    simp only [digitsValue] at hv
    have hstep : v * 10 + (c.toNat - 48) < 16777216 :=
      lt_of_le_of_lt (digitsValue_ge cs _) hv
    rw [List.cons_append, strToFloatLoop_digit c _ ps _ _ hc, digit_step v c hc hstep]
    cases ps
    · simp only [Bool.false_eq_true, if_false]
      have := ih rest false (v * 10 + (c.toNat - 48)) f hcs hv hf
      simp only [Bool.false_eq_true, if_false] at this
      rw [this]
      simp only [digitsValue]
    · simp only [if_true]
      rw [(fact_step f hf).1]
      have := ih rest true (v * 10 + (c.toNat - 48)) (fl32 (f / 10)) hcs hv (fact_step f hf).2
      simp only [if_true] at this
      rw [this]
      simp only [digitsValue, List.length_cons, tenthPower]

theorem strToFloat_unsigned (s : List Char) (h : ∀ cs, s ≠ '-' :: cs) :
    strToFloat s = strToFloatLoop s false (float.fin 0) (float.fin 1) := by
  unfold strToFloat
  split
  · rename_i cs
    exact absurd rfl (h cs)
  · rfl

theorem strToFloatLoop_skip (body : List Char) :
    ∀ (point_seen : Bool) (rez fact : float), (∀ c ∈ body, c.toNat ≠ 0) →
      strToFloatLoop body point_seen rez fact
        = strToFloatLoop (body.filter isNumeric) point_seen rez fact := by
  induction body with
  | nil => intro ps rez fact _; rfl
  | cons c cs ih =>
    intro ps rez fact hn
    have h0 : c.toNat ≠ 0 := hn c (List.mem_cons_self _ _)
    have hcs : ∀ x ∈ cs, x.toNat ≠ 0 := fun x hx => hn x (List.mem_cons_of_mem _ hx)
    by_cases hdot : c = '.'
    · have hk : isNumeric c = true := by simp [isNumeric, hdot]
      rw [List.filter_cons_of_pos hk]
      simp only [strToFloatLoop, h0, hdot, if_true, if_false]
      exact ih true rez fact hcs
    · by_cases hd : isDecimalDigit c = true
      · have hk : isNumeric c = true := by simp [isNumeric, hd]
        rw [List.filter_cons_of_pos hk, strToFloatLoop_digit c _ ps rez fact hd,
          strToFloatLoop_digit c _ ps rez fact hd]
        exact ih ps _ _ hcs
      · have hk : ¬ isNumeric c = true := by simp [isNumeric, hdot, hd]
        rw [List.filter_cons_of_neg hk]
        have hnd : ¬ (0 ≤ (c.toNat : Int) - 48 ∧ (c.toNat : Int) - 48 ≤ 9) := by
          intro h
          apply hd
          simp only [isDecimalDigit, Bool.and_eq_true, decide_eq_true_eq]
          omega
        simp only [strToFloatLoop, h0, hdot, hnd, if_false]
        exact ih ps rez fact hcs

theorem strToFloat_signed (neg : Bool) (body : List Char)
    (h : neg = false → ∀ cs, body ≠ '-' :: cs) :
    strToFloat (signChars neg ++ body)
      = strToFloatLoop body false (float.fin 0) (float.fin (if neg then -1 else 1)) := by
  cases neg
  · simp only [signChars, Bool.false_eq_true, if_false, List.nil_append]
    exact strToFloat_unsigned body (h rfl)
  · simp [signChars, strToFloat]

theorem numeric_ne_minus (s : List Char) (h : ∀ c ∈ s, isNumeric c = true) :
    ∀ cs, s ≠ '-' :: cs := by
  intro cs hs
  have := h '-' (by rw [hs]; exact List.mem_cons_self _ _)
  exact absurd this (by decide)

theorem isNumeric_of_digit (c : Char) (h : isDecimalDigit c = true) : isNumeric c = true := by
  simp [isNumeric, h]

theorem skeleton_numeric (dot : Bool) (I F : List Char)
    (hI : ∀ c ∈ I, isDecimalDigit c = true) (hF : ∀ c ∈ F, isDecimalDigit c = true) :
    ∀ c ∈ I ++ fracChars dot F, isNumeric c = true := by
  intro c hc
  rcases List.mem_append.mp hc with h | h
  · exact isNumeric_of_digit c (hI c h)
  · cases dot
    · simp [fracChars] at h
    · simp only [fracChars, if_true, List.mem_cons] at h
      rcases h with rfl | h
      · decide
      · exact isNumeric_of_digit c (hF c h)

/-- the value parsed from `I[.F]` when its digits read as an integer below `2^24` -/
theorem strToFloatLoop_skeleton (dot : Bool) (I F : List Char) (s : ℚ) (hs : |s| ≤ 1)
    (hI : ∀ c ∈ I, isDecimalDigit c = true) (hF : ∀ c ∈ F, isDecimalDigit c = true)
    (hdot : dot = false → F = []) (hN : decimalValue (I ++ F) < 16777216) :
    strToFloatLoop (I ++ fracChars dot F) false (float.fin 0) (float.fin s)
      = float.fin (fl32 ((decimalValue (I ++ F) : ℚ) * tenthPower F.length s)) := by
  have hIF : decimalValue (I ++ F) = digitsValue F (decimalValue I) := by
    simp only [decimalValue]
    exact digitsValue_append I F 0
  have hIlt : digitsValue I 0 < 16777216 := by
    have := digitsValue_ge F (decimalValue I)
    simp only [decimalValue] at hIF this hN
    omega
  have h0 : (float.fin 0) = float.fin ((0 : Nat) : ℚ) := by simp
  have hfinal : ∀ (n : Nat) (c : ℚ), n < 16777216 → |c| ≤ 1 →
      float.mul (float.fin (n : ℚ)) (float.fin c) = float.fin (fl32 ((n : ℚ) * c)) := by
    intro n c hn hc
    apply float.mul_fin
    apply abs_lt_two_pow
    rw [abs_mul, abs_of_nonneg (Nat.cast_nonneg n)]
    have hn' : (n : ℚ) ≤ 16777216 := by exact_mod_cast le_of_lt hn
    have : (n : ℚ) * |c| ≤ (n : ℚ) * 1 := mul_le_mul_of_nonneg_left hc (by positivity)
    linarith
  rw [h0, strToFloatLoop_digits I _ false 0 s hI hIlt hs]
  simp only [Bool.false_eq_true, if_false]
  cases dot
  · rw [hdot rfl]
    simp only [fracChars, Bool.false_eq_true, if_false, strToFloatLoop, List.append_nil,
      List.length_nil, tenthPower]
    exact hfinal _ _ hIlt hs
  · have hstep : strToFloatLoop (fracChars true F) false (float.fin (digitsValue I 0 : ℚ))
          (float.fin s)
        = strToFloatLoop (F ++ []) true (float.fin (digitsValue I 0 : ℚ)) (float.fin s) := by
      simp [fracChars, strToFloatLoop]
    have hFlt : digitsValue F (digitsValue I 0) < 16777216 := by
      simp only [decimalValue] at hIF hN
      omega
    rw [hstep, strToFloatLoop_digits F [] true _ s hF hFlt hs]
    simp only [strToFloatLoop, if_true]
    rw [hfinal _ _ hFlt (tenthPower_abs_le _ s hs), hIF]
    rfl

theorem tenthPower_error (s : ℚ) (hs : |s| = 1) (k : Nat) :
    ∀ (j : Nat) (f : ℚ), j + k ≤ 37 → |f - s / 10 ^ j| ≤ (j : ℚ) / 2 ^ 23 / 10 ^ j →
      |tenthPower k f - s / 10 ^ (j + k)| ≤ ((j + k : Nat) : ℚ) / 2 ^ 23 / 10 ^ (j + k) := by
  induction k with
  | zero =>
    intro j f _ h
    simpa [tenthPower] using h
  | succ k ih =>
    intro j f hjk h
    have hidx : j + (k + 1) = (j + 1) + k := by omega
    rw [hidx]
    apply ih (j + 1) (fl32 (f / 10)) (by omega)
    have hTpos : (0 : ℚ) < 1 / 10 ^ j := by positivity
    have hTge : (1 : ℚ) / 10 ^ 36 ≤ 1 / 10 ^ j := by
      apply one_div_le_one_div_of_le (by positivity)
      exact pow_le_pow_right₀ (by norm_num) (by omega)
    have hsT : s / 10 ^ j = s * (1 / 10 ^ j) := by ring
    have hsT1 : s / 10 ^ (j + 1) = s * (1 / 10 ^ j) / 10 := by
      rw [pow_succ]
      field_simp
    have hjT : (j : ℚ) / 2 ^ 23 / 10 ^ j = (j : ℚ) * (1 / 10 ^ j) / 8388608 := by
      norm_num
      ring
    have hjT1 : ((j + 1 : Nat) : ℚ) / 2 ^ 23 / 10 ^ (j + 1)
        = ((j : ℚ) * (1 / 10 ^ j) + 1 / 10 ^ j) / 8388608 / 10 := by
      rw [pow_succ]
      push_cast
      field_simp
      left
      ring
    rw [hsT, hjT] at h
    rw [hsT1, hjT1]
    have habs : |s * (1 / 10 ^ j)| = 1 / 10 ^ j := by
      rw [abs_mul, hs, one_mul, abs_of_pos hTpos]
    have hj37 : (j : ℚ) ≤ 37 := by exact_mod_cast (by omega : j ≤ 37)
    have hjTle : (j : ℚ) * (1 / 10 ^ j) ≤ 37 * (1 / 10 ^ j) :=
      mul_le_mul_of_nonneg_right hj37 (le_of_lt hTpos)
    have hup : |f| ≤ |s * (1 / 10 ^ j)| + |f - s * (1 / 10 ^ j)| := by
      have := abs_sub_abs_le_abs_sub f (s * (1 / 10 ^ j))
      linarith
    have hlow : |s * (1 / 10 ^ j)| ≤ |f| + |f - s * (1 / 10 ^ j)| := by
      have := abs_sub_abs_le_abs_sub (s * (1 / 10 ^ j)) f
      rw [abs_sub_comm] at this
      linarith
    rw [habs] at hup hlow
    have hf10 : |f / 10| = |f| / 10 := by
      rw [abs_div]
      norm_num
    have hn : (2 : ℚ) ^ (-126 : Int) ≤ |f / 10| := by
      have hc : (2 : ℚ) ^ (-126 : Int) ≤ 1 / 10 ^ 36 / 40 := by norm_num
      rw [hf10]
      refine le_trans hc ?_
      linarith
    have hrel := roundBinary_rel 23 (-126) (f / 10) hn
    have hc1 : (2 : ℚ) ^ (-(23 : Int) - 1) = 1 / 16777216 := by norm_num
    rw [hc1, hf10] at hrel
    have htri := abs_sub_le (fl32 (f / 10)) (f / 10) (s * (1 / 10 ^ j) / 10)
    have hscale : |f / 10 - s * (1 / 10 ^ j) / 10| = |f - s * (1 / 10 ^ j)| / 10 := by
      have : f / 10 - s * (1 / 10 ^ j) / 10 = (f - s * (1 / 10 ^ j)) / 10 := by ring
      rw [this, abs_div]
      norm_num
    rw [hscale] at htri
    unfold fl32 at htri ⊢
    linarith

theorem parsed_error (n k : Nat) (s : ℚ) (hs : |s| = 1) (hn : n < 16777216) (hk : k ≤ 37) :
    |fl32 ((n : ℚ) * tenthPower k s) - s * ((n : ℚ) / 10 ^ k)|
      ≤ (k : ℚ) / 2 ^ 22 * ((n : ℚ) / 10 ^ k) := by
  rcases Nat.eq_zero_or_pos k with hk0 | hk0
  · subst hk0
    simp only [tenthPower, pow_zero, div_one, Nat.cast_zero, zero_div, zero_mul]
    have hex : fl32 ((n : ℚ) * s) = (n : ℚ) * s := by
      rcases (abs_eq (by norm_num : (0 : ℚ) ≤ 1)).mp hs with h1 | h1
      · rw [h1, mul_one]
        have := fl32_int (n : Int) (by rw [abs_of_nonneg (by omega)]; omega)
        simpa using this
      · rw [h1]
        have := fl32_int (-(n : Int)) (by rw [abs_neg, abs_of_nonneg (by omega)]; omega)
        have h2 : (n : ℚ) * -1 = ((-(n : Int) : Int) : ℚ) := by push_cast; ring
        rw [h2]
        exact this
    rw [hex]
    have : (n : ℚ) * s - s * (n : ℚ) = 0 := by ring
    rw [this, abs_zero]
  · have herr := tenthPower_error s hs k 0 s (by omega) (by simp)
    simp only [Nat.zero_add] at herr
    rcases Nat.eq_zero_or_pos n with hn0 | hn0
    · subst hn0
      simp [fl32_zero]
    · have hTpos : (0 : ℚ) < 1 / 10 ^ k := by positivity
      have hTge : (1 : ℚ) / 10 ^ 37 ≤ 1 / 10 ^ k := by
        apply one_div_le_one_div_of_le (by positivity)
        exact pow_le_pow_right₀ (by norm_num) hk
      have hsT : s / 10 ^ k = s * (1 / 10 ^ k) := by ring
      have hkT : (k : ℚ) / 2 ^ 23 / 10 ^ k = (k : ℚ) * (1 / 10 ^ k) / 8388608 := by
        norm_num
        ring
      rw [hsT, hkT] at herr
      have habs : |s * (1 / 10 ^ k)| = 1 / 10 ^ k := by
        rw [abs_mul, hs, one_mul, abs_of_pos hTpos]
      have hk37 : (k : ℚ) ≤ 37 := by exact_mod_cast hk
      have hk1 : (1 : ℚ) ≤ (k : ℚ) := by exact_mod_cast hk0
      have hn1 : (1 : ℚ) ≤ (n : ℚ) := by exact_mod_cast hn0
      have hkTle : (k : ℚ) * (1 / 10 ^ k) ≤ 37 * (1 / 10 ^ k) :=
        mul_le_mul_of_nonneg_right hk37 (le_of_lt hTpos)
      have hkTge : 1 * (1 / 10 ^ k) ≤ (k : ℚ) * (1 / 10 ^ k) :=
        mul_le_mul_of_nonneg_right hk1 (le_of_lt hTpos)
      have hup : |tenthPower k s| ≤ |s * (1 / 10 ^ k)| + |tenthPower k s - s * (1 / 10 ^ k)| := by
        have := abs_sub_abs_le_abs_sub (tenthPower k s) (s * (1 / 10 ^ k))
        linarith
      have hlow : |s * (1 / 10 ^ k)| ≤ |tenthPower k s| + |tenthPower k s - s * (1 / 10 ^ k)| := by
        have := abs_sub_abs_le_abs_sub (s * (1 / 10 ^ k)) (tenthPower k s)
        rw [abs_sub_comm] at this
        linarith
      rw [habs] at hup hlow
      have hnc : |(n : ℚ) * tenthPower k s| = (n : ℚ) * |tenthPower k s| := by
        rw [abs_mul, abs_of_nonneg (Nat.cast_nonneg n)]
      have hcge : (1 : ℚ) / 10 ^ k / 2 ≤ |tenthPower k s| := by linarith
      have hcle : |tenthPower k s| ≤ 2 * (1 / 10 ^ k) := by linarith
      have hprod_ge : 1 * |tenthPower k s| ≤ (n : ℚ) * |tenthPower k s| :=
        mul_le_mul_of_nonneg_right hn1 (abs_nonneg _)
      have hnorm : (2 : ℚ) ^ (-126 : Int) ≤ |(n : ℚ) * tenthPower k s| := by
        have hc : (2 : ℚ) ^ (-126 : Int) ≤ 1 / 10 ^ 37 / 2 := by norm_num
        rw [hnc]
        refine le_trans hc ?_
        linarith only [hTge, hcge, hprod_ge]
      have hrel := roundBinary_rel 23 (-126) ((n : ℚ) * tenthPower k s) hnorm
      have hc1 : (2 : ℚ) ^ (-(23 : Int) - 1) = 1 / 16777216 := by norm_num
      rw [hc1, hnc] at hrel
      have hprod_le : (n : ℚ) * |tenthPower k s| ≤ (n : ℚ) * (2 * (1 / 10 ^ k)) :=
        mul_le_mul_of_nonneg_left hcle (Nat.cast_nonneg n)
      have hdiff : |(n : ℚ) * tenthPower k s - s * ((n : ℚ) / 10 ^ k)|
          = (n : ℚ) * |tenthPower k s - s * (1 / 10 ^ k)| := by
        have : (n : ℚ) * tenthPower k s - s * ((n : ℚ) / 10 ^ k)
            = (n : ℚ) * (tenthPower k s - s * (1 / 10 ^ k)) := by ring
        rw [this, abs_mul, abs_of_nonneg (Nat.cast_nonneg n)]
      have hdiff_le : (n : ℚ) * |tenthPower k s - s * (1 / 10 ^ k)|
          ≤ (n : ℚ) * ((k : ℚ) * (1 / 10 ^ k) / 8388608) :=
        mul_le_mul_of_nonneg_left herr (Nat.cast_nonneg n)
      have htri := abs_sub_le (fl32 ((n : ℚ) * tenthPower k s)) ((n : ℚ) * tenthPower k s)
        (s * ((n : ℚ) / 10 ^ k))
      rw [hdiff] at htri
      have hnT : (n : ℚ) * (1 * (1 / 10 ^ k)) ≤ (n : ℚ) * ((k : ℚ) * (1 / 10 ^ k)) :=
        mul_le_mul_of_nonneg_left hkTge (Nat.cast_nonneg n)
      have hgoal : (k : ℚ) / 2 ^ 22 * ((n : ℚ) / 10 ^ k)
          = (n : ℚ) * ((k : ℚ) * (1 / 10 ^ k)) / 4194304 := by
        norm_num
        ring
      rw [hgoal]
      unfold fl32 at htri ⊢
      linarith

/-- C9, as amended. For a string `[-]I[.F]`, `I` and `F` strings of decimal
digits: when the digits of `I` and `F` together read as an integer below
`2^24` and `F` has at most 37 digits (so that `fact`, the power `10^-|F|`,
stays a normal `float`), `strToFloat` returns a finite `float`
`v` that differs from `sign * (value(I) + value(F) / 10^|F|)`, `sign = -1`
exactly when the leading `-` is present, by at most `|F| / 2^22` times the
magnitude of that number; so `v` is that number when there is no fraction,
and `v` is negative exactly when the `-` is present and the digits are not
all zero. Any string `body` that becomes `I[.F]` once its characters that are
neither digits nor `.` are deleted (that is, `I[.F]` with such characters
inserted; a C string holds no NUL, and without a sign the string does not
begin with `-`, which would be read as the sign) is parsed to the same result
after the same optional sign. -/
theorem strToFloat_spec (neg dot : Bool) (I F : List Char)
    (hI : ∀ c ∈ I, isDecimalDigit c = true) (hF : ∀ c ∈ F, isDecimalDigit c = true)
    (hdot : dot = false → F = []) :
    (decimalValue (I ++ F) < 16777216 → F.length ≤ 37 →
      ∃ v : ℚ, strToFloat (signChars neg ++ (I ++ fracChars dot F)) = float.fin v
        ∧ |v - (if neg then -1 else 1)
              * ((decimalValue I : ℚ) + (decimalValue F : ℚ) / 10 ^ F.length)|
            ≤ (F.length : ℚ) / 2 ^ 22
              * ((decimalValue I : ℚ) + (decimalValue F : ℚ) / 10 ^ F.length)
        ∧ (F = [] → v = (if neg then -1 else 1) * (decimalValue I : ℚ))
        ∧ (0 < decimalValue (I ++ F) → (v < 0 ↔ neg = true)))
    ∧ ∀ body : List Char, (∀ c ∈ body, c.toNat ≠ 0) →
        (neg = false → ∀ cs, body ≠ '-' :: cs) →
        body.filter isNumeric = I ++ fracChars dot F →
        strToFloat (signChars neg ++ body)
          = strToFloat (signChars neg ++ (I ++ fracChars dot F)) := by
  have hsk : strToFloat (signChars neg ++ (I ++ fracChars dot F))
      = strToFloatLoop (I ++ fracChars dot F) false (float.fin 0)
          (float.fin (if neg then -1 else 1)) :=
    strToFloat_signed neg _ (fun _ => numeric_ne_minus _ (skeleton_numeric dot I F hI hF))
  have hs : |(if neg then (-1 : ℚ) else 1)| = 1 := by cases neg <;> simp
  refine ⟨?_, ?_⟩
  · intro hN hk
    have hval : ((decimalValue (I ++ F) : Nat) : ℚ) / 10 ^ F.length
        = (decimalValue I : ℚ) + (decimalValue F : ℚ) / 10 ^ F.length := by
      have h1 : decimalValue (I ++ F) = decimalValue I * 10 ^ F.length + decimalValue F := by
        have := digitsValue_append I F 0
        simp only [decimalValue] at this ⊢
        rw [this, digitsValue_eq F (digitsValue I 0)]
        rfl
      rw [h1]
      have hpow : (10 : ℚ) ^ F.length ≠ 0 := pow_ne_zero _ (by norm_num)
      push_cast
      field_simp
    have herr := parsed_error (decimalValue (I ++ F)) F.length _ hs hN hk
    rw [hval] at herr
    have hE0 : (0 : ℚ) ≤ (decimalValue I : ℚ) + (decimalValue F : ℚ) / 10 ^ F.length := by
      positivity
    refine ⟨_, by rw [hsk, strToFloatLoop_skeleton dot I F _ (le_of_eq hs) hI hF hdot hN],
      herr, ?_, ?_⟩
    · intro hnil
      rw [hnil] at herr ⊢
      simp only [List.length_nil, Nat.cast_zero, zero_div, zero_mul, pow_zero, div_one,
        decimalValue, digitsValue, add_zero] at herr ⊢
      have := abs_nonpos_iff.mp herr
      linarith
    · intro hpos
      have hEpos : (0 : ℚ) < (decimalValue I : ℚ) + (decimalValue F : ℚ) / 10 ^ F.length := by
        rw [← hval]
        have : (0 : ℚ) < ((decimalValue (I ++ F) : Nat) : ℚ) := by exact_mod_cast hpos
        positivity
      have hk37 : (F.length : ℚ) ≤ 37 := by exact_mod_cast hk
      have hcoef : (F.length : ℚ) / 2 ^ 22 ≤ 1 / 2 := by
        have : (2 : ℚ) ^ 22 = 4194304 := by norm_num
        rw [this]
        linarith
      have hhalf : (F.length : ℚ) / 2 ^ 22
            * ((decimalValue I : ℚ) + (decimalValue F : ℚ) / 10 ^ F.length)
          ≤ 1 / 2 * ((decimalValue I : ℚ) + (decimalValue F : ℚ) / 10 ^ F.length) :=
        mul_le_mul_of_nonneg_right hcoef hE0
      have hb := le_trans herr hhalf
      rw [abs_le] at hb
      cases neg
      · simp only [Bool.false_eq_true, if_false, one_mul, iff_false, not_lt] at hb ⊢
        linarith
      · simp only [if_true, iff_true] at hb ⊢
        linarith
  · intro body hnul hsign hbody
    rw [hsk, strToFloat_signed neg body hsign, strToFloatLoop_skip body false _ _ hnul, hbody]

theorem fl32_neg_tenth : fl32 (-(1 : ℚ) / 10) = (-(13421773 : ℚ) / 134217728) := by
  have := roundBinary_near 23 (-126) (-(1 : ℚ) / 10) (-13421773) (-27) (by decide)
    (by norm_num [abs_of_neg]) (by norm_num [abs_of_neg]) (by norm_num [abs_lt])
  unfold fl32
  rw [this]
  norm_num

theorem fl32_parse_12_5 : fl32 (-(1677721625 : ℚ) / 134217728) = (-(25 : ℚ) / 2) := by
  have := roundBinary_near 23 (-126) (-(1677721625 : ℚ) / 134217728) (-13107200) (-20) (by decide)
    (by norm_num [abs_of_neg]) (by norm_num [abs_of_neg]) (by norm_num [abs_lt])
  unfold fl32
  rw [this]
  norm_num

theorem fl32_16777217 : fl32 (16777217 : ℚ) = (16777216 : ℚ) := by
  have := roundBinary_near_tie 23 (-126) (16777217 : ℚ) 8388608 (1) (by decide)
    (by norm_num [abs_of_pos]) (by norm_num [abs_of_pos]) (by norm_num)
  unfold fl32
  rw [this]
  norm_num

theorem fl32_tenth : fl32 ((1 : ℚ) / 10) = ((13421773 : ℚ) / 134217728) := by
  have := roundBinary_near 23 (-126) ((1 : ℚ) / 10) 13421773 (-27) (by decide)
    (by norm_num [abs_of_pos]) (by norm_num [abs_of_pos]) (by norm_num [abs_lt])
  unfold fl32
  rw [this]
  norm_num

theorem fl32_tenth_fix : fl32 ((13421773 : ℚ) / 134217728) = ((13421773 : ℚ) / 134217728) := by
  have := roundBinary_near 23 (-126) ((13421773 : ℚ) / 134217728) 13421773 (-27) (by decide)
    (by norm_num [abs_of_pos]) (by norm_num [abs_of_pos]) (by norm_num [abs_lt])
  unfold fl32
  rw [this]
  norm_num

theorem strToFloat_minus_12_5 :
    strToFloat ['-', '1', '2', '.', '5'] = float.fin (-25 / 2) := by
  have h := strToFloat_signed true (['1', '2'] ++ fracChars true ['5'])
    (fun h => absurd h (by decide))
  have hN : decimalValue (['1', '2'] ++ ['5']) = 125 := by decide
  have ht : tenthPower ['5'].length (-1) = fl32 (-(1 : ℚ) / 10) := by
    simp only [List.length_singleton, tenthPower]
  have e2 : ((125 : Nat) : ℚ) * (-(13421773 : ℚ) / 134217728)
      = -(1677721625 : ℚ) / 134217728 := by norm_num
  have hsk := strToFloatLoop_skeleton true ['1', '2'] ['5'] (-1) (by norm_num) (by decide)
    (by decide) (by decide) (by decide)
  rw [hN, ht, fl32_neg_tenth, e2, fl32_parse_12_5] at hsk
  simp only [if_true] at h
  rw [hsk] at h
  exact h

theorem fl32_two_pow_24 : fl32 (16777216 : ℚ) = 16777216 := by
  have := roundBinary_exact 23 (-126) 1 24 (by norm_num) (by decide)
  have h : ((1 : Int) : ℚ) * 2 ^ (24 : Int) = 16777216 := by norm_num
  rw [h] at this
  exact this

theorem strToFloat_16777217 :
    strToFloat ['1', '6', '7', '7', '7', '2', '1', '7'] = float.fin 16777216 := by
  have h := strToFloat_unsigned (['1', '6', '7', '7', '7', '2', '1'] ++ ['7'])
    (fun cs h => absurd (List.cons.inj h).1 (by decide))
  have hv : digitsValue ['1', '6', '7', '7', '7', '2', '1'] 0 = 1677721 := by decide
  have hd : (('7'.toNat : Int) - 48) = 7 := by decide
  have e1 : fl32 ((1677721 : ℚ) * 10) = 16777210 := by
    have := fl32_int 16777210 (by decide)
    norm_num at this ⊢
    exact this
  have e2 : fl32 (((7 : Int) : ℚ)) = 7 := by
    have := fl32_int 7 (by decide)
    exact_mod_cast this
  have e3 : fl32 ((16777210 : ℚ) + 7) = 16777216 := by
    have h1 : (16777210 : ℚ) + 7 = 16777217 := by norm_num
    rw [h1, fl32_16777217]
  have e4 : fl32 ((16777216 : ℚ) * 1) = 16777216 := by
    rw [mul_one, fl32_two_pow_24]
  have hloop := strToFloatLoop_digits ['1', '6', '7', '7', '7', '2', '1'] ['7'] false 0 1
    (by decide) (by decide) (by norm_num)
  rw [hv] at hloop
  simp only [Nat.cast_zero, Nat.cast_ofNat, Bool.false_eq_true, if_false] at hloop
  show strToFloat (['1', '6', '7', '7', '7', '2', '1'] ++ ['7']) = float.fin 16777216
  rw [h, hloop, strToFloatLoop_digit '7' [] false _ _ (by decide), hd]
  simp only [Bool.false_eq_true, if_false, strToFloatLoop, float.ofInt]
  rw [float.mul_fin 1677721 10 (by norm_num), e1, e2,
    float.add_fin 16777210 7 (by norm_num), e3,
    float.mul_fin 16777216 1 (by norm_num), e4]

theorem strToFloat_tenth :
    strToFloat ['0', '.', '1'] = float.fin (13421773 / 134217728) := by
  have h := strToFloat_unsigned (['0'] ++ fracChars true ['1'])
    (fun cs h => absurd (List.cons.inj h).1 (by decide))
  have hN : decimalValue (['0'] ++ ['1']) = 1 := by decide
  have ht : tenthPower ['1'].length 1 = fl32 ((1 : ℚ) / 10) := by
    simp only [List.length_singleton, tenthPower]
  have e2 : ((1 : Nat) : ℚ) * ((13421773 : ℚ) / 134217728) = (13421773 : ℚ) / 134217728 := by
    norm_num
  have hsk := strToFloatLoop_skeleton true ['0'] ['1'] 1 (by norm_num) (by decide)
    (by decide) (by decide) (by decide)
  rw [hN, ht, fl32_tenth, e2, fl32_tenth_fix] at hsk
  rw [hsk] at h
  exact h

theorem strToFloat_12 (neg : Bool) :
    strToFloat (signChars neg ++ ['1', '2']) = float.fin (if neg then -12 else 12) := by
  have hsk := strToFloatLoop_skeleton false ['1', '2'] [] (if neg then -1 else 1)
    (by cases neg <;> simp) (by decide) (by decide) (fun _ => rfl) (by decide)
  have hN : decimalValue (['1', '2'] ++ []) = 12 := by decide
  rw [strToFloat_signed neg ['1', '2'] (fun _ cs h => absurd (List.cons.inj h).1 (by decide))]
  simp only [fracChars, Bool.false_eq_true, if_false, List.append_nil, List.length_nil,
    tenthPower] at hsk
  rw [List.append_nil] at hN
  rw [hsk, hN]
  cases neg
  · have := fl32_int 12 (by decide)
    simp only [Bool.false_eq_true, if_false, mul_one]
    norm_num at this ⊢
    exact this
  · have := fl32_int (-12) (by decide)
    simp only [if_true]
    norm_num at this ⊢
    exact this

/-- C9, witness: `-12.5` is parsed to `-12.5`, within the bound, and so is
`-1x2 .y5`; without a sign, `1x2` is parsed as `12` is. -/
theorem strToFloat_spec_witness :
    strToFloat ['-', '1', '2', '.', '5'] = float.fin (-25 / 2)
    ∧ (∃ v : ℚ, strToFloat ['-', '1', '2', '.', '5'] = float.fin v
        ∧ |v - (-1) * ((decimalValue ['1', '2'] : ℚ)
              + (decimalValue ['5'] : ℚ) / 10 ^ ['5'].length)|
            ≤ ((['5'].length : Nat) : ℚ) / 2 ^ 22
              * ((decimalValue ['1', '2'] : ℚ) + (decimalValue ['5'] : ℚ) / 10 ^ ['5'].length)
        ∧ (['5'] = [] → v = (-1) * (decimalValue ['1', '2'] : ℚ))
        ∧ (0 < decimalValue (['1', '2'] ++ ['5']) → (v < 0 ↔ true = true)))
    ∧ strToFloat ['-', '1', 'x', '2', ' ', '.', 'y', '5']
        = strToFloat ['-', '1', '2', '.', '5']
    ∧ strToFloat ['1', 'x', '2'] = strToFloat ['1', '2'] :=
  ⟨strToFloat_minus_12_5,
   (strToFloat_spec true true ['1', '2'] ['5'] (by decide) (by decide) (by decide)).1
      (by decide) (by decide),
   (strToFloat_spec true true ['1', '2'] ['5'] (by decide) (by decide) (by decide)).2
      ['1', 'x', '2', ' ', '.', 'y', '5'] (by decide) (fun h => absurd h (by decide))
      (by decide),
   (strToFloat_spec false false ['1', '2'] [] (by decide) (by decide) (fun _ => rfl)).2
      ['1', 'x', '2'] (by decide)
      (fun _ cs h => absurd (List.cons.inj h).1 (by decide)) (by decide)⟩

/-- C9, counterexample. The digits of `16777217` read as `2^24 + 1`, which is
not a `float`: `rez * 10.0f + 7` is rounded and `strToFloat` returns
`16777216`. The string `0.1` is parsed to the `float` nearest to one tenth,
`13421773/134217728`, not to `1/10`. And `-`, which is neither a digit nor
`.`, inserted in front of the unsigned string `12` is read as the sign:
`-12` is parsed to `-12`, not to `12`. -/
theorem strToFloat_spec_counterexample :
    strToFloat ['1', '6', '7', '7', '7', '2', '1', '7'] = float.fin 16777216
    ∧ decimalValue ['1', '6', '7', '7', '7', '2', '1', '7'] = 16777217
    ∧ strToFloat ['0', '.', '1'] = float.fin (13421773 / 134217728)
    ∧ (13421773 : ℚ) / 134217728 ≠ 1 / 10
    ∧ strToFloat ['-', '1', '2'] = float.fin (-12)
    ∧ strToFloat ['1', '2'] = float.fin 12
    ∧ ['-', '1', '2'].filter isNumeric = ['1', '2'] :=
  ⟨strToFloat_16777217, by decide, strToFloat_tenth, by norm_num, strToFloat_12 true,
    strToFloat_12 false, by decide⟩

/-! ## Decimal round trip -/

theorem digitChar_spec (r : Nat) (h : r < 10) :
    isDecimalDigit (digitChar (r : Int)) = true ∧ (digitChar (r : Int)).toNat - 48 = r := by
  interval_cases r <;> decide

theorem intToStrLoop_nat (fuel : Nat) :
    ∀ m : Nat, m ≤ fuel →
      (∀ c ∈ intToStrLoop fuel (m : Int), isDecimalDigit c = true)
      ∧ decimalValue (intToStrLoop fuel (m : Int)).reverse = m
      ∧ (m = 0 → intToStrLoop fuel (m : Int) = [])
      ∧ ∀ k : Nat, m < 10 ^ k → (intToStrLoop fuel (m : Int)).length ≤ k := by
  induction fuel with
  | zero =>
    intro m hm
    have : m = 0 := by omega
    subst this
    simp [intToStrLoop, decimalValue, digitsValue]
  | succ fuel ih =>
    intro m hm
    by_cases h0 : m = 0
    · subst h0
      simp [intToStrLoop, decimalValue, digitsValue]
    · have hne : (m : Int) ≠ 0 := by exact_mod_cast h0
      have hmod : (m : Int).tmod 10 = ((m % 10 : Nat) : Int) := by
        rw [Int.tmod_eq_emod (by omega) (by omega)]
        omega
      have hdiv : (m : Int).tdiv 10 = ((m / 10 : Nat) : Int) := by
        rw [Int.tdiv_eq_ediv (by omega) (by omega)]
        omega
      have hstep : intToStrLoop (fuel + 1) (m : Int)
          = digitChar ((m % 10 : Nat) : Int) :: intToStrLoop fuel ((m / 10 : Nat) : Int) := by
        simp only [intToStrLoop, hne, if_false, hmod, hdiv]
      obtain ⟨ih1, ih2, _, ih4⟩ := ih (m / 10) (by omega)
      have hd := digitChar_spec (m % 10) (Nat.mod_lt _ (by decide))
      rw [hstep]
      refine ⟨?_, ?_, fun h => absurd h h0, ?_⟩
      · intro c hc
        rcases List.mem_cons.mp hc with rfl | hc
        · exact hd.1
        · exact ih1 c hc
      · rw [List.reverse_cons, decimalValue_append_singleton, ih2, hd.2]
        omega
      · intro k hk
        cases k with
        | zero => simp at hk; omega
        | succ k =>
          simp only [List.length_cons]
          have := ih4 k (by rw [pow_succ] at hk; omega)
          omega

theorem decimalValue_zeros (k : Nat) (cs : List Char) :
    decimalValue (List.replicate k '0' ++ cs) = decimalValue cs := by
  induction k with
  | zero => simp
  | succ k ih =>
    rw [List.replicate_succ, List.cons_append]
    simpa [decimalValue, digitsValue] using ih

theorem intToStr_nat (m : Nat) :
    (∀ c ∈ intToStr (m : Int) 0, isDecimalDigit c = true)
    ∧ decimalValue (intToStr (m : Int) 0) = m := by
  obtain ⟨h1, h2, h3, _⟩ := intToStrLoop_nat m m (le_refl m)
  have hfuel : (m : Int).natAbs = m := Int.natAbs_ofNat m
  by_cases h0 : m = 0
  · subst h0
    refine ⟨?_, ?_⟩ <;> decide
  · have hne : ¬ ((m : Int) = 0 ∧ (0 : Int) = 0) := fun h => h0 (by exact_mod_cast h.1)
    have hpad : ((0 : Int) - ((intToStrLoop m (m : Int)).length : Int)).toNat = 0 := by omega
    have heq : intToStr (m : Int) 0 = (intToStrLoop m (m : Int)).reverse := by
      unfold intToStr
      rw [if_neg hne]
      simp only [hfuel, List.nil_append, hpad, List.replicate_zero, List.append_nil]
    rw [heq]
    exact ⟨fun c hc => h1 c (List.mem_reverse.mp hc), h2⟩

theorem intToStr_padded (f : Nat) (hf : f < 1000) :
    (∀ c ∈ intToStr (f : Int) 3, isDecimalDigit c = true)
    ∧ decimalValue (intToStr (f : Int) 3) = f
    ∧ (intToStr (f : Int) 3).length = 3 := by
  obtain ⟨h1, h2, _, h4⟩ := intToStrLoop_nat f f (le_refl f)
  have hlen : (intToStrLoop f (f : Int)).length ≤ 3 := h4 3 (by norm_num; exact hf)
  have hfuel : (f : Int).natAbs = f := Int.natAbs_ofNat f
  have hne : ¬ ((f : Int) = 0 ∧ (3 : Int) = 0) := fun h => absurd h.2 (by decide)
  have hpad : ((3 : Int) - ((intToStrLoop f (f : Int)).length : Int)).toNat
      = 3 - (intToStrLoop f (f : Int)).length := by omega
  have heq : intToStr (f : Int) 3
      = List.replicate (3 - (intToStrLoop f (f : Int)).length) '0'
          ++ (intToStrLoop f (f : Int)).reverse := by
    unfold intToStr
    rw [if_neg hne]
    simp only [hfuel, List.nil_append, hpad, List.reverse_append, List.reverse_replicate]
  rw [heq]
  refine ⟨?_, ?_, ?_⟩
  · intro c hc
    rcases List.mem_append.mp hc with h | h
    · rw [(List.mem_replicate.mp h).2]
      decide
    · exact h1 c (List.mem_reverse.mp h)
  · rw [decimalValue_zeros, h2]
  · simp only [List.length_append, List.length_replicate, List.length_reverse]
    omega

theorem floatToInt_floor (f : ℚ) (h0 : 0 ≤ f) (h1 : f < 2147483648) :
    floatToInt (float.fin f) = ⌊f⌋ := by
  have hnum : 0 ≤ f.num := Rat.num_nonneg.mpr h0
  have htdiv : f.num.tdiv (f.den : Int) = ⌊f⌋ := by
    rw [Int.tdiv_eq_ediv hnum (by omega), Rat.floor_def]
  have hlo : 0 ≤ ⌊f⌋ := Int.floor_nonneg.mpr h0
  have hhi : ⌊f⌋ < 2147483648 := by
    rw [Int.floor_lt]
    exact_mod_cast h1
  simp only [floatToInt]
  rw [htdiv, if_pos (by omega)]

theorem fl32_hundredth : fl32 ((1 : ℚ) / 100) = ((5368709 : ℚ) / 536870912) := by
  have := roundBinary_near 23 (-126) ((1 : ℚ) / 100) 10737418 (-30) (by decide)
    (by norm_num [abs_of_pos]) (by norm_num [abs_of_pos]) (by norm_num [abs_lt])
  unfold fl32
  rw [this]
  norm_num

theorem fl32_hundredth_fix : fl32 ((5368709 : ℚ) / 536870912) = ((5368709 : ℚ) / 536870912) := by
  have := roundBinary_near 23 (-126) ((5368709 : ℚ) / 536870912) 10737418 (-30) (by decide)
    (by norm_num [abs_of_pos]) (by norm_num [abs_of_pos]) (by norm_num [abs_lt])
  unfold fl32
  rw [this]
  norm_num

theorem fl32_scale_one : fl32 ((26843545 : ℚ) / 268435456) = ((3355443 : ℚ) / 33554432) := by
  have := roundBinary_near_tie 23 (-126) ((26843545 : ℚ) / 268435456) 13421772 (-27) (by decide)
    (by norm_num [abs_of_pos]) (by norm_num [abs_of_pos]) (by norm_num)
  unfold fl32
  rw [this]
  norm_num

theorem fl32_scale_two : fl32 ((16777215 : ℚ) / 16777216) = ((16777215 : ℚ) / 16777216) := by
  have := roundBinary_near 23 (-126) ((16777215 : ℚ) / 16777216) 16777215 (-24) (by decide)
    (by norm_num [abs_of_pos]) (by norm_num [abs_of_pos]) (by norm_num [abs_lt])
  unfold fl32
  rw [this]
  norm_num

theorem fl32_scale_three : fl32 ((83886075 : ℚ) / 8388608) = ((10485759 : ℚ) / 1048576) := by
  have := roundBinary_near 23 (-126) ((83886075 : ℚ) / 8388608) 10485759 (-20) (by decide)
    (by norm_num [abs_of_pos]) (by norm_num [abs_of_pos]) (by norm_num [abs_lt])
  unfold fl32
  rw [this]
  norm_num

theorem fl32_tenth_two : fl32 ((13421773 : ℚ) / 1342177280) = ((5368709 : ℚ) / 536870912) := by
  have := roundBinary_near 23 (-126) ((13421773 : ℚ) / 1342177280) 10737418 (-30) (by decide)
    (by norm_num [abs_of_pos]) (by norm_num [abs_of_pos]) (by norm_num [abs_lt])
  unfold fl32
  rw [this]
  norm_num

theorem fl32_tenth_three : fl32 ((5368709 : ℚ) / 5368709120) = ((4294967 : ℚ) / 4294967296) := by
  have := roundBinary_near 23 (-126) ((5368709 : ℚ) / 5368709120) 8589934 (-33) (by decide)
    (by norm_num [abs_of_pos]) (by norm_num [abs_of_pos]) (by norm_num [abs_lt])
  unfold fl32
  rw [this]
  norm_num

theorem fl32_parse_009 : fl32 ((38654703 : ℚ) / 4294967296) = ((2415919 : ℚ) / 268435456) := by
  have := roundBinary_near 23 (-126) ((38654703 : ℚ) / 4294967296) 9663676 (-30) (by decide)
    (by norm_num [abs_of_pos]) (by norm_num [abs_of_pos]) (by norm_num [abs_lt])
  unfold fl32
  rw [this]
  norm_num

theorem float_round_hundredth :
    float.round (1 / 100) = float.fin (5368709 / 536870912) := by
  rw [float.round_fin _ (by norm_num [abs_of_pos]), fl32_hundredth]

theorem floatToStr_hundredth :
    floatToStr (float.fin (5368709 / 536870912)) 3 = ['0', '.', '0', '0', '9'] := by
  have hi : floatToInt (float.fin (5368709 / 536870912)) = 0 := by
    rw [floatToInt_floor _ (by norm_num) (by norm_num), Int.floor_eq_iff]
    norm_num
  have hz : fl32 (((0 : Int) : ℚ)) = 0 := by
    rw [Int.cast_zero, fl32_zero]
  have hten : fl32 (((10 : Int) : ℚ)) = 10 := by
    have := fl32_int 10 (by decide)
    exact_mod_cast this
  have hsub : float.sub (float.fin (5368709 / 536870912)) (float.ofInt 0)
      = float.fin (5368709 / 536870912) := by
    simp only [float.sub, float.ofInt, float.neg, hz]
    rw [float.add_fin _ _ (by norm_num [abs_of_pos])]
    have : (5368709 : ℚ) / 536870912 + -0 = 5368709 / 536870912 := by norm_num
    rw [this, fl32_hundredth_fix]
  have e1 : (5368709 : ℚ) / 536870912 * 10 = 26843545 / 268435456 := by norm_num
  have e2 : (3355443 : ℚ) / 33554432 * 10 = 16777215 / 16777216 := by norm_num
  have e3 : (16777215 : ℚ) / 16777216 * 10 = 83886075 / 8388608 := by norm_num
  have hscale : scaleFpart (3 : Int).toNat (float.fin (5368709 / 536870912))
      = float.fin (10485759 / 1048576) := by
    have h3 : (3 : Int).toNat = 3 := rfl
    rw [h3]
    simp only [scaleFpart, float.ofInt, hten]
    rw [float.mul_fin (5368709 / 536870912) 10 (by norm_num [abs_of_pos]), e1, fl32_scale_one,
      float.mul_fin (3355443 / 33554432) 10 (by norm_num [abs_of_pos]), e2, fl32_scale_two,
      float.mul_fin (16777215 / 16777216) 10 (by norm_num [abs_of_pos]), e3, fl32_scale_three]
  have hf : floatToInt (float.fin (10485759 / 1048576)) = 9 := by
    rw [floatToInt_floor _ (by norm_num) (by norm_num), Int.floor_eq_iff]
    norm_num
  simp only [floatToStr, hi, hsub, hscale, hf]
  decide

theorem strToFloat_009 :
    strToFloat ['0', '.', '0', '0', '9'] = float.fin (2415919 / 268435456) := by
  have h := strToFloat_unsigned (['0'] ++ fracChars true ['0', '0', '9'])
    (fun cs h => absurd (List.cons.inj h).1 (by decide))
  have hN : decimalValue (['0'] ++ ['0', '0', '9']) = 9 := by decide
  have e1 : (13421773 : ℚ) / 134217728 / 10 = 13421773 / 1342177280 := by norm_num
  have e2 : (5368709 : ℚ) / 536870912 / 10 = 5368709 / 5368709120 := by norm_num
  have ht : tenthPower ['0', '0', '9'].length 1 = 4294967 / 4294967296 := by
    have h3 : ['0', '0', '9'].length = 3 := rfl
    rw [h3]
    simp only [tenthPower]
    rw [fl32_tenth, e1, fl32_tenth_two, e2, fl32_tenth_three]
  have e3 : ((9 : Nat) : ℚ) * ((4294967 : ℚ) / 4294967296) = 38654703 / 4294967296 := by
    norm_num
  have hsk := strToFloatLoop_skeleton true ['0'] ['0', '0', '9'] 1 (by norm_num) (by decide)
    (by decide) (by decide) (by decide)
  rw [hN, ht, e3, fl32_parse_009] at hsk
  rw [hsk] at h
  exact h

/-- C8, the code at the failing input. The decimal `0.01` is not a `float`;
the nearest one is `5368709/536870912`, just below it. `floatToStr(x, 3)`
scales the fraction by ten three times in `float` arithmetic, reaching
`9.99999905`, and truncates: it writes `0.009`. `strToFloat` reads that back
as `2415919/268435456` (0.0089999996), which is more than `1e-3` away from
`0.01` and from the `float` that was written. -/
theorem floatToStr_roundtrip_fails :
    float.round (1 / 100) = float.fin (5368709 / 536870912)
    ∧ floatToStr (float.round (1 / 100)) 3 = ['0', '.', '0', '0', '9']
    ∧ strToFloat (floatToStr (float.round (1 / 100)) 3) = float.fin (2415919 / 268435456)
    ∧ (1 : ℚ) / 1000 < |2415919 / 268435456 - 1 / 100|
    ∧ (1 : ℚ) / 1000 < |2415919 / 268435456 - 5368709 / 536870912| := by
  refine ⟨float_round_hundredth, ?_, ?_, ?_, ?_⟩
  · rw [float_round_hundredth, floatToStr_hundredth]
  · rw [float_round_hundredth, floatToStr_hundredth, strToFloat_009]
  · rw [lt_abs]
    right
    norm_num
  · rw [lt_abs]
    right
    norm_num

/-! ## `kill` -/

theorem kill_cases (pid : Int) (t : List proc) :
    ((kill t pid).1 = -1 ∧ (kill t pid).2 = t ∧ ∀ p ∈ t, p.pid ≠ pid)
    ∨ ((kill t pid).1 = 0
      ∧ ∃ k p, t[k]? = some p ∧ p.pid = pid
        ∧ (∀ (j : Nat) (q : proc), j < k → t[j]? = some q → q.pid ≠ pid)
        ∧ (kill t pid).2
            = t.set k { p with
                killed := 1
                state := if p.state = SLEEPING then RUNNABLE else p.state }) := by
  induction t with
  | nil => left; simp [kill]
  | cons a as ih =>
    by_cases ha : a.pid = pid
    · right
      refine ⟨by simp [kill, ha], 0, a, by simp, ha, ?_, by simp [kill, ha]⟩
      intro j q hj
      omega
    · have hstep : kill (a :: as) pid = ((kill as pid).1, a :: (kill as pid).2) := by
        simp only [kill, ha, if_false]
      rw [hstep]
      rcases ih with ⟨h1, h2, h3⟩ | ⟨h1, k, p, h2, h3, h4, h5⟩
      · left
        refine ⟨h1, by rw [h2], ?_⟩
        intro p hp
        rcases List.mem_cons.mp hp with rfl | hp
        · exact ha
        · exact h3 p hp
      · right
        refine ⟨h1, k + 1, p, by simpa using h2, h3, ?_, ?_⟩
        · intro j q hjk hj
          cases j with
          | zero =>
            simp only [List.getElem?_cons_zero, Option.some.injEq] at hj
            subst hj
            exact ha
          | succ j => exact h4 j q (by omega) (by simpa using hj)
        · simp only [h5, List.set_cons_succ]

/-- C11. `kill(pid)` returns 0 or -1, and 0 exactly when some slot's pid
equals `pid`. On 0 the table is the old one in which the first such slot has
`killed == 1` and is RUNNABLE if it was SLEEPING (its state is otherwise
unchanged), every other slot and field as before; on -1 the table is
unchanged. -/
theorem kill_spec (t : List proc) (pid : Int) :
    ((kill t pid).1 = 0 ∨ (kill t pid).1 = -1)
    ∧ ((kill t pid).1 = 0 ↔ ∃ p ∈ t, p.pid = pid)
    ∧ ((kill t pid).1 = 0 →
        ∃ k p, t[k]? = some p ∧ p.pid = pid
          ∧ (∀ (j : Nat) (q : proc), j < k → t[j]? = some q → q.pid ≠ pid)
          ∧ (kill t pid).2
              = t.set k { p with
                  killed := 1
                  state := if p.state = SLEEPING then RUNNABLE else p.state })
    ∧ ((kill t pid).1 = -1 → (kill t pid).2 = t) := by
  rcases kill_cases pid t with ⟨h1, h2, h3⟩ | ⟨h1, k, p, h2, h3, h4, h5⟩
  · refine ⟨Or.inr h1, ?_, ?_, fun _ => h2⟩
    · constructor
      · intro h0
        rw [h1] at h0
        exact absurd h0 (by decide)
      · rintro ⟨p, hp, hpp⟩
        exact absurd hpp (h3 p hp)
    · intro h0
      rw [h1] at h0
      exact absurd h0 (by decide)
  · refine ⟨Or.inl h1, ?_, fun _ => ⟨k, p, h2, h3, h4, h5⟩, ?_⟩
    · exact ⟨fun _ => ⟨p, List.getElem?_mem h2, h3⟩, fun _ => h1⟩
    · intro hm
      rw [h1] at hm
      exact absurd hm (by decide)

/-! ## `wakeup` -/

theorem wakeup1_eq_map (chan : Nat) (t : List proc) :
    wakeup1 t chan
      = t.map (fun p =>
          if p.state = SLEEPING ∧ p.chan = chan then { p with state := RUNNABLE } else p) := by
  induction t with
  | nil => rfl
  | cons a as ih => simp only [wakeup1, List.map_cons, ih]

theorem wakeup1_length (chan : Nat) (t : List proc) : (wakeup1 t chan).length = t.length := by
  rw [wakeup1_eq_map, List.length_map]

theorem wakeup1_getElem? (chan : Nat) (t : List proc) (i : Nat) :
    (wakeup1 t chan)[i]?
      = t[i]?.map (fun p =>
          if p.state = SLEEPING ∧ p.chan = chan then { p with state := RUNNABLE } else p) := by
  rw [wakeup1_eq_map, List.getElem?_map]

/-- C12. `wakeup(chan)` keeps the number of slots; slot by slot, a slot that
is SLEEPING with `chan` as its channel becomes the same slot with state
RUNNABLE, and every other slot is left exactly as it was. After it no slot is
SLEEPING on `chan`. -/
theorem wakeup_spec (t : List proc) (chan : Nat) :
    (wakeup t chan).length = t.length
    ∧ (∀ (i : Nat) (p : proc), t[i]? = some p →
        (p.state = SLEEPING ∧ p.chan = chan →
          (wakeup t chan)[i]? = some { p with state := RUNNABLE })
        ∧ (¬ (p.state = SLEEPING ∧ p.chan = chan) → (wakeup t chan)[i]? = some p))
    ∧ ∀ q ∈ wakeup t chan, ¬ (q.state = SLEEPING ∧ q.chan = chan) := by
  refine ⟨wakeup1_length chan t, ?_, ?_⟩
  · intro i p hi
    constructor
    · intro h
      simp only [wakeup, wakeup1_getElem?, hi, Option.map_some', h, and_self, if_true]
    · intro h
      simp only [wakeup, wakeup1_getElem?, hi, Option.map_some', h, if_false]
  · intro q hq
    simp only [wakeup, wakeup1_eq_map, List.mem_map] at hq
    obtain ⟨p, _, hpq⟩ := hq
    by_cases h : p.state = SLEEPING ∧ p.chan = chan
    · rw [if_pos h] at hpq
      rw [← hpq]
      simp
    · rw [if_neg h] at hpq
      rw [← hpq]
      exact h

/-! ## `wait` -/

theorem waitScan_cases (curproc : Nat) (t : List proc) :
    ∀ havekids : Int,
      ((∀ p ∈ t, ¬ (p.parent = some curproc ∧ p.state = ZOMBIE))
        ∧ (waitScan curproc t havekids).pid = none
        ∧ (waitScan curproc t havekids).ptable = t
        ∧ ((∀ p ∈ t, p.parent ≠ some curproc) →
            (waitScan curproc t havekids).havekids = havekids)
        ∧ ((∃ p ∈ t, p.parent = some curproc) →
            (waitScan curproc t havekids).havekids = 1))
      ∨ ∃ k p, t[k]? = some p ∧ p.parent = some curproc ∧ p.state = ZOMBIE
          ∧ (∀ (j : Nat) (q : proc), j < k → t[j]? = some q →
              ¬ (q.parent = some curproc ∧ q.state = ZOMBIE))
          ∧ (waitScan curproc t havekids).pid = some p.pid
          ∧ (waitScan curproc t havekids).ptable
              = t.set k { p with pid := 0, parent := none, killed := 0, state := UNUSED } := by
  induction t with
  | nil =>
    intro hk
    left
    simp [waitScan]
  | cons a as ih =>
    intro hk
    by_cases hp : a.parent = some curproc
    · by_cases hz : a.state = ZOMBIE
      · right
        refine ⟨0, a, by simp, hp, hz, ?_, by simp [waitScan, hp, hz],
          by simp [waitScan, hp, hz]⟩
        intro j q hj
        omega
      · have hstep : waitScan curproc (a :: as) hk
            = ⟨(waitScan curproc as 1).pid, (waitScan curproc as 1).havekids,
                a :: (waitScan curproc as 1).ptable⟩ := by
          simp [waitScan, hp, hz]
        rw [hstep]
        rcases ih 1 with ⟨h1, h2, h3, h4, h5⟩ | ⟨k, p, h1, h2, h3, h4, h5, h6⟩
        · left
          refine ⟨?_, h2, by rw [h3], ?_, ?_⟩
          · intro p hpm
            rcases List.mem_cons.mp hpm with rfl | hpm
            · exact fun h => hz h.2
            · exact h1 p hpm
          · intro hno
            exact absurd hp (hno a (List.mem_cons_self _ _))
          · intro _
            by_cases hex : ∃ p ∈ as, p.parent = some curproc
            · exact h5 hex
            · exact h4 (fun p hpm hpp => hex ⟨p, hpm, hpp⟩)
        · right
          refine ⟨k + 1, p, by simpa using h1, h2, h3, ?_, h5, ?_⟩
          · intro j q hjk hj
            cases j with
            | zero =>
              simp only [List.getElem?_cons_zero, Option.some.injEq] at hj
              subst hj
              exact fun h => hz h.2
            | succ j => exact h4 j q (by omega) (by simpa using hj)
          · simp only [h6, List.set_cons_succ]
    · have hstep : waitScan curproc (a :: as) hk
          = ⟨(waitScan curproc as hk).pid, (waitScan curproc as hk).havekids,
              a :: (waitScan curproc as hk).ptable⟩ := by
        simp [waitScan, hp]
      rw [hstep]
      rcases ih hk with ⟨h1, h2, h3, h4, h5⟩ | ⟨k, p, h1, h2, h3, h4, h5, h6⟩
      · left
        refine ⟨?_, h2, by rw [h3], ?_, ?_⟩
        · intro p hpm
          rcases List.mem_cons.mp hpm with rfl | hpm
          · exact fun h => hp h.1
          · exact h1 p hpm
        · intro hno
          exact h4 (fun p hpm => hno p (List.mem_cons_of_mem _ hpm))
        · rintro ⟨p, hpm, hpp⟩
          rcases List.mem_cons.mp hpm with rfl | hpm
          · exact absurd hpp hp
          · exact h5 ⟨p, hpm, hpp⟩
      · right
        refine ⟨k + 1, p, by simpa using h1, h2, h3, ?_, h5, ?_⟩
        · intro j q hjk hj
          cases j with
          | zero =>
            simp only [List.getElem?_cons_zero, Option.some.injEq] at hj
            subst hj
            exact fun h => hp h.1
          | succ j => exact h4 j q (by omega) (by simpa using hj)
        · simp only [h6, List.set_cons_succ]

/-- C13. For the caller in slot `curproc`: if some slot is a ZOMBIE child of
the caller, `wait` returns the pid of the first such slot in table order and
leaves that slot UNUSED with pid 0, no parent and `killed == 0`, every other
slot (and the scheduling fields of that slot) unchanged. If the caller has no
children, or has no ZOMBIE child and is marked killed, `wait` returns -1 with
the table unchanged. -/
theorem wait_spec (t : List proc) (curproc : Nat) :
    ((∃ p ∈ t, p.parent = some curproc ∧ p.state = ZOMBIE) →
      ∃ k p, t[k]? = some p ∧ p.parent = some curproc ∧ p.state = ZOMBIE
        ∧ (∀ (j : Nat) (q : proc), j < k → t[j]? = some q →
            ¬ (q.parent = some curproc ∧ q.state = ZOMBIE))
        ∧ wait t curproc
            = WaitResult.reaped p.pid
                (t.set k { p with pid := 0, parent := none, killed := 0, state := UNUSED }))
    ∧ ((∀ p ∈ t, p.parent ≠ some curproc) → wait t curproc = WaitResult.failed t)
    ∧ ((∀ p ∈ t, ¬ (p.parent = some curproc ∧ p.state = ZOMBIE)) →
        killedOf t curproc ≠ 0 → wait t curproc = WaitResult.failed t) := by
  rcases waitScan_cases curproc t 0 with ⟨h1, h2, h3, h4, h5⟩ | ⟨k, p, h1, h2, h3, h4, h5, h6⟩
  · refine ⟨?_, ?_, ?_⟩
    · rintro ⟨p, hp, hpp⟩
      exact absurd hpp (h1 p hp)
    · intro hno
      simp [wait, h2, h4 hno]
    · intro _ hk
      simp [wait, h2, hk]
  · refine ⟨fun _ => ⟨k, p, h1, h2, h3, h4, by simp [wait, h5, h6]⟩, ?_, ?_⟩
    · intro hno
      exact absurd h2 (hno p (List.getElem?_mem h1))
    · intro hno
      exact absurd ⟨h2, h3⟩ (hno p (List.getElem?_mem h1))

/-- C13, witness. In `tableFamily` the caller in slot 0 has a ZOMBIE child in
slot 2 (pid 3): `wait` returns 3 and slot 2 is UNUSED with pid 0. The caller
in slot 1 has no children and the killed caller of `tableKilledParent` has no
ZOMBIE child: `wait` returns -1 and leaves the table. -/
theorem wait_spec_witness :
    (∃ k p, tableFamily[k]? = some p ∧ p.parent = some 0 ∧ p.state = ZOMBIE
        ∧ (∀ (j : Nat) (q : proc), j < k → tableFamily[j]? = some q →
            ¬ (q.parent = some 0 ∧ q.state = ZOMBIE))
        ∧ wait tableFamily 0
            = WaitResult.reaped p.pid
                (tableFamily.set k
                  { p with pid := 0, parent := none, killed := 0, state := UNUSED }))
    ∧ wait tableFamily 0
        = WaitResult.reaped 3
            (tableFamily.set 2
              { state := UNUSED, pid := 0, parent := none, killed := 0,
                mlfq := { queueNumber := 2, executedCycleNumber := 4, lotteryTicket := 10,
                          remainedPriority := 1 } })
    ∧ wait tableFamily 1 = WaitResult.failed tableFamily
    ∧ wait tableKilledParent 0 = WaitResult.failed tableKilledParent :=
  ⟨(wait_spec tableFamily 0).1 ⟨_, List.mem_cons_of_mem _ (List.mem_cons_of_mem _
      (List.mem_cons_self _ _)), by decide⟩,
    by decide,
    (wait_spec tableFamily 1).2.1 (by decide),
    (wait_spec tableKilledParent 0).2.2 (by decide) (by decide)⟩

/-! ## `allocproc` -/

theorem allocprocScan_cases (nextpid : Int) (now : rtcdate) (t : List proc) :
    ((∀ p ∈ t, p.state ≠ UNUSED) ∧ allocprocScan t nextpid now = none)
    ∨ ∃ k p, t[k]? = some p ∧ p.state = UNUSED
        ∧ (∀ (j : Nat) (q : proc), j < k → t[j]? = some q → q.state ≠ UNUSED)
        ∧ allocprocScan t nextpid now = some (k, t.set k (allocated p nextpid now)) := by
  induction t with
  | nil => left; simp [allocprocScan]
  | cons a as ih =>
    by_cases ha : a.state = UNUSED
    · right
      refine ⟨0, a, by simp, ha, ?_, by simp [allocprocScan, ha]⟩
      intro j q hj
      omega
    · rcases ih with ⟨h1, h2⟩ | ⟨k, p, h1, h2, h3, h4⟩
      · left
        refine ⟨?_, by simp [allocprocScan, ha, h2]⟩
        intro p hp
        rcases List.mem_cons.mp hp with rfl | hp
        · exact ha
        · exact h1 p hp
      · right
        refine ⟨k + 1, p, by simpa using h1, h2, ?_, by simp [allocprocScan, ha, h4]⟩
        intro j q hjk hj
        cases j with
        | zero =>
          simp only [List.getElem?_cons_zero, Option.some.injEq] at hj
          subst hj
          exact ha
        | succ j => exact h3 j q (by omega) (by simpa using hj)

/-- C14, as amended. `allocproc` fails with the table and the counter
unchanged when no slot is UNUSED. Otherwise, with `kalloc` succeeding and the
counter below `INT_MAX`, it returns the lowest-index UNUSED slot, which it sets
to EMBRYO
with `pid` the previous value of `nextpid`, `arrivalTime` the clock reading,
`queueNumber = 1`, `executedCycleNumber = 1`, `remainedPriority = 1` and
`lotteryTicket = 10`; `nextpid` is one larger and every other slot is
unchanged. -/
theorem allocproc_spec (t : List proc) (nextpid : Int) (now : rtcdate) :
    ((∀ p ∈ t, p.state ≠ UNUSED) →
      ∀ kallocOk, allocproc t nextpid now kallocOk = ⟨none, t, nextpid⟩)
    ∧ ((∃ p ∈ t, p.state = UNUSED) → -2147483648 ≤ nextpid → nextpid < 2147483647 →
        ∃ k p, t[k]? = some p ∧ p.state = UNUSED
          ∧ (∀ (j : Nat) (q : proc), j < k → t[j]? = some q → q.state ≠ UNUSED)
          ∧ allocproc t nextpid now true
              = ⟨some k,
                  t.set k { p with
                    state := EMBRYO
                    pid := nextpid
                    mlfq := { p.mlfq with
                      arrivalTime := now
                      queueNumber := 1
                      executedCycleNumber := 1
                      remainedPriority := 1
                      lotteryTicket := 10 } },
                  nextpid + 1⟩) := by
  rcases allocprocScan_cases nextpid now t with ⟨h1, h2⟩ | ⟨k, p, h1, h2, h3, h4⟩
  · refine ⟨fun _ ok => by simp [allocproc, h2], ?_⟩
    rintro ⟨p, hp, hpu⟩
    exact absurd hpu (h1 p hp)
  · refine ⟨fun hno => absurd h2 (hno p (List.getElem?_mem h1)), ?_⟩
    intro _ hlo hhi
    refine ⟨k, p, h1, h2, h3, ?_⟩
    simp only [allocproc, h4, if_true, toInt32_eq (nextpid + 1) (by omega) (by omega)]
    rfl

/-- C14, witness. A table without UNUSED slot is left alone; in
`tableFamily` with slot 1 freed, `allocproc` with counter 4 claims slot 1. -/
theorem allocproc_spec_witness :
    (∀ kallocOk, allocproc tableFamily 4 clockLoneHRRN kallocOk = ⟨none, tableFamily, 4⟩)
    ∧ ∃ k p, (tableFamily.set 1 {})[k]? = some p ∧ p.state = UNUSED
        ∧ (∀ (j : Nat) (q : proc), j < k → (tableFamily.set 1 {})[j]? = some q →
            q.state ≠ UNUSED)
        ∧ allocproc (tableFamily.set 1 {}) 4 clockLoneHRRN true
            = ⟨some k,
                (tableFamily.set 1 {}).set k { p with
                  state := EMBRYO
                  pid := 4
                  mlfq := { p.mlfq with
                    arrivalTime := clockLoneHRRN
                    queueNumber := 1
                    executedCycleNumber := 1
                    remainedPriority := 1
                    lotteryTicket := 10 } },
                4 + 1⟩ :=
  ⟨(allocproc_spec tableFamily 4 clockLoneHRRN).1 (by decide),
    (allocproc_spec (tableFamily.set 1 {}) 4 clockLoneHRRN).2
      ⟨{}, by decide, rfl⟩ (by decide) (by decide)⟩

/-- C14, counterexample. With the counter at `INT_MAX = 2147483647` and
`kalloc` succeeding, `allocproc` on a table of one UNUSED slot claims the slot
with pid `2147483647`, and `nextpid++` leaves the counter at
`INT_MIN = -2147483648`: it is not one larger than its previous value. -/
theorem allocproc_spec_counterexample :
    (∃ p ∈ initialTable 1, p.state = UNUSED)
    ∧ (allocproc (initialTable 1) 2147483647 clockLoneHRRN true).slot = some 0
    ∧ (allocproc (initialTable 1) 2147483647 clockLoneHRRN true).ptable
        = [allocated {} 2147483647 clockLoneHRRN]
    ∧ (allocproc (initialTable 1) 2147483647 clockLoneHRRN true).nextpid = -2147483648
    ∧ (allocproc (initialTable 1) 2147483647 clockLoneHRRN true).nextpid
        ≠ 2147483647 + 1 :=
  ⟨⟨{}, List.mem_cons_self _ _, rfl⟩, rfl, rfl, by decide, by decide⟩

/-! ## Slot-wise description of the atomic actions -/

theorem slotwise_refl (R : proc → proc → Prop) (hR : ∀ p, R p p) (t : List proc) :
    Slotwise R t t := by
  refine ⟨rfl, ?_⟩
  intro i p p' h1 h2
  rw [h1] at h2
  cases h2
  exact hR p

theorem slotwise_set (R : proc → proc → Prop) (hR : ∀ p, R p p) (t : List proc)
    (k : Nat) (p p' : proc) (hk : t[k]? = some p) (hpp : R p p') :
    Slotwise R t (t.set k p') := by
  refine ⟨List.length_set _ _ _, ?_⟩
  intro i q q' h1 h2
  by_cases hik : k = i
  · subst hik
    rw [hk] at h1
    cases h1
    have hlt : k < t.length := by
      rcases Nat.lt_or_ge k t.length with h | h
      · exact h
      · rw [List.getElem?_eq_none h] at hk
        cases hk
    rw [List.getElem?_set_self hlt] at h2
    cases h2
    exact hpp
  · rw [List.getElem?_set_ne hik] at h2
    rw [h1] at h2
    cases h2
    exact hR q

theorem slotwise_mono (R S : proc → proc → Prop) (h : ∀ p p', R p p' → S p p')
    (t t' : List proc) (hs : Slotwise R t t') : Slotwise S t t' :=
  ⟨hs.1, fun i p p' h1 h2 => h p p' (hs.2 i p p' h1 h2)⟩

theorem slotwise_trans (R : proc → proc → Prop)
    (hR : ∀ p q r, R p q → R q r → R p r) (t t' t'' : List proc)
    (h1 : Slotwise R t t') (h2 : Slotwise R t' t'') : Slotwise R t t'' := by
  refine ⟨h2.1.trans h1.1, ?_⟩
  intro i p p'' hp hp''
  have hlt : i < t'.length := by
    rw [h1.1]
    rcases Nat.lt_or_ge i t.length with h | h
    · exact h
    · rw [List.getElem?_eq_none h] at hp
      cases hp
  have hp' : t'[i]? = some (t'[i]) := List.getElem?_eq_getElem hlt
  exact hR p _ p'' (h1.2 i p _ hp hp') (h2.2 i _ p'' hp' hp'')

theorem slotStep_refl (okQ : Int → Prop) (p : proc) : SlotStep okQ p p :=
  ⟨Or.inl rfl, Or.inl rfl, Or.inl rfl⟩

theorem wakeStep_refl (p : proc) : WakeStep p p := ⟨rfl, rfl, Or.inl rfl⟩

theorem wakeStep_trans (p q r : proc) (h1 : WakeStep p q) (h2 : WakeStep q r) :
    WakeStep p r := by
  obtain ⟨a1, a2, a3⟩ := h1
  obtain ⟨b1, b2, b3⟩ := h2
  refine ⟨b1.trans a1, b2.trans a2, ?_⟩
  rcases a3 with a3 | ⟨a3, a4⟩
  · rcases b3 with b3 | ⟨b3, b4⟩
    · exact Or.inl (b3.trans a3)
    · exact Or.inr ⟨a3 ▸ b3, b4⟩
  · rcases b3 with b3 | ⟨b3, _⟩
    · exact Or.inr ⟨a3, b3.trans a4⟩
    · rw [a4] at b3
      cases b3

theorem wakeStep_slotStep (okQ : Int → Prop) (p p' : proc) (h : WakeStep p p') :
    SlotStep okQ p p' := by
  obtain ⟨h1, h2, h3⟩ := h
  refine ⟨?_, Or.inl h1, Or.inl (by rw [h2])⟩
  rcases h3 with h3 | ⟨h3, h4⟩
  · exact Or.inl h3
  · refine Or.inr (Or.inl ⟨?_, ?_⟩)
    · rw [h3, h4]
      rfl
    · rw [h3]
      decide

theorem wakeup1_slotwise (chan : Nat) (t : List proc) :
    Slotwise WakeStep t (wakeup1 t chan) := by
  refine ⟨wakeup1_length chan t, ?_⟩
  intro i p p' h1 h2
  rw [wakeup1_getElem?, h1] at h2
  simp only [Option.map_some', Option.some.injEq] at h2
  by_cases h : p.state = SLEEPING ∧ p.chan = chan
  · rw [if_pos h] at h2
    subst h2
    exact ⟨rfl, rfl, Or.inr ⟨h.1, rfl⟩⟩
  · rw [if_neg h] at h2
    subst h2
    exact wakeStep_refl p

theorem setState_slotwise (R : proc → proc → Prop) (hR : ∀ p, R p p) (t : List proc)
    (i : Nat) (s : procstate)
    (h : ∀ p, t[i]? = some p → R p { p with state := s }) :
    Slotwise R t (setState t i s) := by
  unfold setState
  cases hi : t[i]? with
  | none => exact slotwise_refl R hR t
  | some p => exact slotwise_set R hR t i p _ hi (h p hi)
theorem slotwise_comp (R S T : proc → proc → Prop)
    (hT : ∀ p q r, R p q → S q r → T p r) (t t' t'' : List proc)
    (h1 : Slotwise R t t') (h2 : Slotwise S t' t'') : Slotwise T t t'' := by
  refine ⟨h2.1.trans h1.1, ?_⟩
  intro i p p'' hp hp''
  have hlt : i < t'.length := by
    rw [h1.1]
    rcases Nat.lt_or_ge i t.length with h | h
    · exact h
    · rw [List.getElem?_eq_none h] at hp
      cases hp
  have hp' : t'[i]? = some (t'[i]) := List.getElem?_eq_getElem hlt
  exact hT p _ p'' (h1.2 i p _ hp hp') (h2.2 i _ p'' hp' hp'')

theorem slotwise_cons (R : proc → proc → Prop) (a a' : proc) (t t' : List proc)
    (ha : R a a') (h : Slotwise R t t') : Slotwise R (a :: t) (a' :: t') := by
  refine ⟨by simp [h.1], ?_⟩
  intro i p p' h1 h2
  cases i with
  | zero =>
    simp only [List.getElem?_cons_zero, Option.some.injEq] at h1 h2
    subst h1 h2
    exact ha
  | succ i => exact h.2 i p p' (by simpa using h1) (by simpa using h2)

theorem changeQueue_slotwise (okQ : Int → Prop) (pid queueNumber : Int) (hq : okQ queueNumber)
    (t : List proc) : Slotwise (SlotStep okQ) t (changeQueue t pid queueNumber).2 := by
  induction t with
  | nil => exact slotwise_refl _ (slotStep_refl okQ) _
  | cons a as ih =>
    by_cases ha : a.pid = pid
    · simp only [changeQueue]
      rw [if_pos ha]
      exact slotwise_cons _ _ _ _ _ ⟨Or.inl rfl, Or.inl rfl, Or.inr hq⟩
        (slotwise_refl _ (slotStep_refl okQ) _)
    · simp only [changeQueue]
      rw [if_neg ha]
      exact slotwise_cons _ _ _ _ _ (slotStep_refl okQ a) ih

theorem setLotteryTicket_slotwise (okQ : Int → Prop) (pid newTicket : Int) (t : List proc) :
    Slotwise (SlotStep okQ) t (setLotteryTicket t pid newTicket).2 := by
  induction t with
  | nil => exact slotwise_refl _ (slotStep_refl okQ) _
  | cons a as ih =>
    by_cases ha : a.mlfq.queueNumber = 1 ∧ a.pid = pid
    · simp only [setLotteryTicket]
      rw [if_pos ha]
      exact slotwise_cons _ _ _ _ _ ⟨Or.inl rfl, Or.inl rfl, Or.inl rfl⟩
        (slotwise_refl _ (slotStep_refl okQ) _)
    · simp only [setLotteryTicket]
      rw [if_neg ha]
      exact slotwise_cons _ _ _ _ _ (slotStep_refl okQ a) ih

theorem setSRPFPriorityLoop_slotwise (okQ : Int → Prop) (pid : Int) (newPriority : ℚ)
    (t : List proc) : Slotwise (SlotStep okQ) t (setSRPFPriorityLoop t pid newPriority).2 := by
  induction t with
  | nil => exact slotwise_refl _ (slotStep_refl okQ) _
  | cons a as ih =>
    by_cases ha : a.mlfq.queueNumber = 3 ∧ a.pid = pid
    · simp only [setSRPFPriorityLoop]
      rw [if_pos ha]
      exact slotwise_cons _ _ _ _ _ ⟨Or.inl rfl, Or.inl rfl, Or.inl rfl⟩
        (slotwise_refl _ (slotStep_refl okQ) _)
    · simp only [setSRPFPriorityLoop]
      rw [if_neg ha]
      exact slotwise_cons _ _ _ _ _ (slotStep_refl okQ a) ih

theorem kill_slotwise (okQ : Int → Prop) (pid : Int) (t : List proc) :
    Slotwise (SlotStep okQ) t (kill t pid).2 := by
  induction t with
  | nil => exact slotwise_refl _ (slotStep_refl okQ) _
  | cons a as ih =>
    by_cases ha : a.pid = pid
    · simp only [kill]
      rw [if_pos ha]
      refine slotwise_cons _ _ _ _ _ ⟨?_, Or.inl rfl, Or.inl rfl⟩
        (slotwise_refl _ (slotStep_refl okQ) _)
      by_cases hs : a.state = SLEEPING
      · refine Or.inr (Or.inl ⟨?_, ?_⟩)
        · simp only [hs, if_true]
          rfl
        · rw [hs]
          decide
      · exact Or.inl (by simp only [hs, if_false])
    · simp only [kill]
      rw [if_neg ha]
      exact slotwise_cons _ _ _ _ _ (slotStep_refl okQ a) ih

theorem dispatch_slotwise (okQ : Int → Prop) (foundPid third : Int) (t : List proc)
    (h : ∀ q ∈ t, q.pid = foundPid → q.state = RUNNABLE) :
    Slotwise (SlotStep okQ) t (dispatch t foundPid third) := by
  induction t with
  | nil => exact slotwise_refl _ (slotStep_refl okQ) _
  | cons a as ih =>
    by_cases ha : a.pid = foundPid
    · simp only [dispatch]
      rw [if_pos ha]
      have hs : a.state = RUNNABLE := h a (List.mem_cons_self _ _) ha
      refine slotwise_cons _ _ _ _ _ ⟨Or.inr (Or.inl ⟨?_, ?_⟩), Or.inl rfl, Or.inl rfl⟩
        (slotwise_refl _ (slotStep_refl okQ) _)
      · rw [hs]
        rfl
      · rw [hs]
        decide
    · simp only [dispatch]
      rw [if_neg ha]
      exact slotwise_cons _ _ _ _ _ (slotStep_refl okQ a)
        (ih (fun q hq => h q (List.mem_cons_of_mem _ hq)))

theorem fallbackDispatch_slotwise (okQ : Int → Prop) (t : List proc) :
    Slotwise (SlotStep okQ) t (fallbackDispatch t) := by
  induction t with
  | nil => exact slotwise_refl _ (slotStep_refl okQ) _
  | cons a as ih =>
    by_cases ha : a.state = RUNNABLE
    · simp only [fallbackDispatch]
      rw [if_neg (not_not.mpr ha)]
      refine slotwise_cons _ _ _ _ _ ⟨Or.inr (Or.inl ⟨?_, ?_⟩), Or.inl rfl, Or.inl rfl⟩
        (slotwise_refl _ (slotStep_refl okQ) _)
      · rw [ha]
        rfl
      · rw [ha]
        decide
    · simp only [fallbackDispatch]
      rw [if_pos ha]
      exact slotwise_cons _ _ _ _ _ (slotStep_refl okQ a) ih
theorem getElem?_of_slotwise (R : proc → proc → Prop) (t t' : List proc)
    (h : Slotwise R t t') (i : Nat) (p : proc) (hp : t[i]? = some p) :
    ∃ p', t'[i]? = some p' ∧ R p p' := by
  have hlt : i < t'.length := by
    rw [h.1]
    rcases Nat.lt_or_ge i t.length with h' | h'
    · exact h'
    · rw [List.getElem?_eq_none h'] at hp
      cases hp
  exact ⟨t'[i], List.getElem?_eq_getElem hlt, h.2 i p _ hp (List.getElem?_eq_getElem hlt)⟩

theorem exitBody_slotwise (curproc initproc : Nat) (t : List proc) (i : Nat) :
    Slotwise WakeStep t (exitBody curproc initproc t i) := by
  unfold exitBody
  cases hi : t[i]? with
  | none => exact slotwise_refl _ wakeStep_refl _
  | some p =>
    simp only
    by_cases hp : p.parent = some curproc
    · rw [if_pos hp]
      have hset : Slotwise WakeStep t (t.set i { p with parent := some initproc }) :=
        slotwise_set _ wakeStep_refl t i p _ hi ⟨rfl, rfl, Or.inl rfl⟩
      by_cases hz : p.state = ZOMBIE
      · rw [if_pos hz]
        exact slotwise_trans _ wakeStep_trans _ _ _ hset (wakeup1_slotwise _ _)
      · rw [if_neg hz]
        exact hset
    · rw [if_neg hp]
      exact slotwise_refl _ wakeStep_refl _

theorem exitLoop_slotwise (curproc initproc : Nat) (l : List Nat) :
    ∀ t : List proc, Slotwise WakeStep t (l.foldl (exitBody curproc initproc) t) := by
  induction l with
  | nil => intro t; exact slotwise_refl _ wakeStep_refl _
  | cons i l ih =>
    intro t
    simp only [List.foldl_cons]
    exact slotwise_trans _ wakeStep_trans _ _ _ (exitBody_slotwise curproc initproc t i)
      (ih _)

theorem exit_slotwise (okQ : Int → Prop) (t t' : List proc) (curproc initproc : Nat)
    (hrun : isRunning t curproc) (h : exit t curproc initproc = some t') :
    Slotwise (SlotStep okQ) t t' := by
  unfold exit at h
  by_cases hc : curproc = initproc
  · rw [if_pos hc] at h
    cases h
  · rw [if_neg hc] at h
    simp only [Option.some.injEq] at h
    subst h
    have h1 : Slotwise WakeStep t
        ((List.range t.length).foldl (exitBody curproc initproc)
          (wakeup1 t (parentChan t curproc))) :=
      slotwise_trans _ wakeStep_trans _ _ _ (wakeup1_slotwise _ _)
        (exitLoop_slotwise curproc initproc _ _)
    obtain ⟨p, hp, hps⟩ := hrun
    obtain ⟨p2, hp2, hw⟩ := getElem?_of_slotwise _ _ _ h1 curproc p hp
    have hs2 : p2.state = RUNNING := by
      rcases hw.2.2 with h' | ⟨h', _⟩
      · rw [h', hps]
      · rw [hps] at h'
        cases h'
    refine slotwise_comp WakeStep
      (fun q r => r = q ∨ (q.state = RUNNING ∧ r = { q with state := ZOMBIE }))
      (SlotStep okQ) ?_ _ _ _ h1
      (setState_slotwise _ (fun q => Or.inl rfl) _ curproc ZOMBIE ?_)
    · intro a b c hab hbc
      rcases hbc with hbc | ⟨hb, hbc⟩
      · rw [hbc]
        exact wakeStep_slotStep okQ a b hab
      · obtain ⟨a1, a2, a3⟩ := hab
        have ha : a.state = RUNNING := by
          rcases a3 with a3 | ⟨_, a4⟩
          · rw [← a3, hb]
          · rw [a4] at hb
            cases hb
        rw [hbc]
        refine ⟨Or.inr (Or.inl ⟨?_, ?_⟩), Or.inl a1, Or.inl (by rw [a2])⟩
        · rw [ha]
          rfl
        · rw [ha]
          decide
    · intro q hq
      rw [hp2] at hq
      cases hq
      exact Or.inr ⟨hs2, rfl⟩

theorem sleep_slotwise (okQ : Int → Prop) (t : List proc) (curproc chan : Nat)
    (hrun : isRunning t curproc) : Slotwise (SlotStep okQ) t (sleep t curproc chan) := by
  obtain ⟨p, hp, hps⟩ := hrun
  simp only [sleep, hp]
  refine slotwise_set _ (slotStep_refl okQ) t curproc p _ hp
    ⟨Or.inr (Or.inl ⟨?_, ?_⟩), Or.inl rfl, Or.inl rfl⟩
  · rw [hps]
    rfl
  · rw [hps]
    decide

theorem wait_slotwise (okQ : Int → Prop) (t : List proc) (curproc : Nat)
    (hrun : isRunning t curproc) : Slotwise (SlotStep okQ) t (wait t curproc).table := by
  rcases waitScan_cases curproc t 0 with ⟨_, h2, _, _, _⟩ | ⟨k, p, h1, _, h3, _, h5, h6⟩
  · by_cases hc : (waitScan curproc t 0).havekids = 0 ∨ killedOf t curproc ≠ 0
    · simp only [wait, h2, if_pos hc, WaitResult.table]
      exact slotwise_refl _ (slotStep_refl okQ) _
    · simp only [wait, h2, if_neg hc, WaitResult.table]
      exact sleep_slotwise okQ t curproc _ hrun
  · simp only [wait, h5, h6, WaitResult.table]
    refine slotwise_set _ (slotStep_refl okQ) t k p _ h1
      ⟨Or.inr (Or.inl ⟨?_, ?_⟩), Or.inr ⟨rfl, rfl⟩, Or.inl rfl⟩
    · rw [h3]
      rfl
    · rw [h3]
      decide

theorem setField_slotwise (okQ : Int → Prop) (t : List proc) (i : Nat) (f : proc → proc)
    (hf : ∀ p, SlotStep okQ p (f p)) :
    Slotwise (SlotStep okQ) t
      (match t[i]? with
       | some p => t.set i (f p)
       | none => t) := by
  cases hi : t[i]? with
  | none => exact slotwise_refl _ (slotStep_refl okQ) _
  | some p => exact slotwise_set _ (slotStep_refl okQ) t i p _ hi (hf p)
/-! ## The selectors return pids of RUNNABLE slots -/

theorem lotteryWalk_sound (t : List proc) :
    ∀ (i : Nat) (sel : Int),
      lotteryWalk t i sel = ⟨none, -1⟩
      ∨ ∃ p ∈ t, p.state = RUNNABLE ∧ (lotteryWalk t i sel).foundPid = p.pid := by
  induction t with
  | nil => intro i sel; left; rfl
  | cons a as ih =>
    intro i sel
    by_cases hs : a.state = RUNNABLE
    · by_cases hq : a.mlfq.queueNumber = 1
      · by_cases hw : toInt32 (sel - a.mlfq.lotteryTicket) ≤ 0
        · right
          exact ⟨a, List.mem_cons_self _ _, hs, by simp [lotteryWalk, hs, hq, hw]⟩
        · have hstep : lotteryWalk (a :: as) i sel
              = lotteryWalk as (i + 1) (toInt32 (sel - a.mlfq.lotteryTicket)) := by
            simp [lotteryWalk, hs, hq, hw]
          rw [hstep]
          rcases ih (i + 1) (toInt32 (sel - a.mlfq.lotteryTicket)) with h | ⟨p, hp, h1, h2⟩
          · exact Or.inl h
          · exact Or.inr ⟨p, List.mem_cons_of_mem _ hp, h1, h2⟩
      · have hstep : lotteryWalk (a :: as) i sel = lotteryWalk as (i + 1) sel := by
          simp [lotteryWalk, hs, hq]
        rw [hstep]
        rcases ih (i + 1) sel with h | ⟨p, hp, h1, h2⟩
        · exact Or.inl h
        · exact Or.inr ⟨p, List.mem_cons_of_mem _ hp, h1, h2⟩
    · have hstep : lotteryWalk (a :: as) i sel = lotteryWalk as (i + 1) sel := by
        simp [lotteryWalk, hs]
      rw [hstep]
      rcases ih (i + 1) sel with h | ⟨p, hp, h1, h2⟩
      · exact Or.inl h
      · exact Or.inr ⟨p, List.mem_cons_of_mem _ hp, h1, h2⟩

theorem hrrnLoop_sound (cmostime : Nat → rtcdate) (t : List proc) :
    ∀ (i : Nat) (mx : float) (sel : Selection),
      hrrnLoop cmostime t i mx sel = sel
      ∨ ∃ p ∈ t, p.state = RUNNABLE ∧ (hrrnLoop cmostime t i mx sel).foundPid = p.pid := by
  induction t with
  | nil => intro i mx sel; left; rfl
  | cons a as ih =>
    intro i mx sel
    by_cases hs : a.state = RUNNABLE
    · by_cases hq : a.mlfq.queueNumber = 2
      · by_cases hgt : HRRN (cmostime i) a > mx
        · have hstep : hrrnLoop cmostime (a :: as) i mx sel
              = hrrnLoop cmostime as (i + 1) (HRRN (cmostime i) a) ⟨some i, a.pid⟩ := by
            simp [hrrnLoop, hs, hq, hgt]
          rw [hstep]
          right
          rcases ih (i + 1) (HRRN (cmostime i) a) ⟨some i, a.pid⟩ with h | ⟨p, hp, h1, h2⟩
          · exact ⟨a, List.mem_cons_self _ _, hs, by rw [h]⟩
          · exact ⟨p, List.mem_cons_of_mem _ hp, h1, h2⟩
        · have hstep : hrrnLoop cmostime (a :: as) i mx sel
              = hrrnLoop cmostime as (i + 1) mx sel := by
            simp [hrrnLoop, hs, hq, hgt]
          rw [hstep]
          rcases ih (i + 1) mx sel with h | ⟨p, hp, h1, h2⟩
          · exact Or.inl h
          · exact Or.inr ⟨p, List.mem_cons_of_mem _ hp, h1, h2⟩
      · have hstep : hrrnLoop cmostime (a :: as) i mx sel
            = hrrnLoop cmostime as (i + 1) mx sel := by
          simp [hrrnLoop, hs, hq]
        rw [hstep]
        rcases ih (i + 1) mx sel with h | ⟨p, hp, h1, h2⟩
        · exact Or.inl h
        · exact Or.inr ⟨p, List.mem_cons_of_mem _ hp, h1, h2⟩
    · have hstep : hrrnLoop cmostime (a :: as) i mx sel
          = hrrnLoop cmostime as (i + 1) mx sel := by
        simp [hrrnLoop, hs]
      rw [hstep]
      rcases ih (i + 1) mx sel with h | ⟨p, hp, h1, h2⟩
      · exact Or.inl h
      · exact Or.inr ⟨p, List.mem_cons_of_mem _ hp, h1, h2⟩

theorem srpfScan_sound (t : List proc) :
    ∀ (i : Nat) (s : SRPFScan),
      (srpfScan t i s).sel = s.sel
      ∨ ∃ p ∈ t, p.state = RUNNABLE ∧ (srpfScan t i s).sel.foundPid = p.pid := by
  induction t with
  | nil => intro i s; left; rfl
  | cons a as ih =>
    intro i s
    by_cases hc : a.state = RUNNABLE ∧ a.mlfq.queueNumber = 3
    · obtain ⟨hs, hq⟩ := hc
      by_cases hlt : a.mlfq.remainedPriority < s.minRemainedPriority
      · have hstep : srpfScan (a :: as) i s
            = srpfScan as (i + 1) ⟨⟨some i, a.pid⟩, a.mlfq.remainedPriority, 1⟩ := by
          simp [srpfScan, hs, hq, hlt]
        rw [hstep]
        right
        rcases ih (i + 1) ⟨⟨some i, a.pid⟩, a.mlfq.remainedPriority, 1⟩ with h | ⟨p, hp, h1, h2⟩
        · exact ⟨a, List.mem_cons_self _ _, hs, by rw [h]⟩
        · exact ⟨p, List.mem_cons_of_mem _ hp, h1, h2⟩
      · by_cases heq : a.mlfq.remainedPriority = s.minRemainedPriority
        · have hstep : srpfScan (a :: as) i s
              = srpfScan as (i + 1)
                  { s with repeatedMinNum := toInt32 (s.repeatedMinNum + 1) } := by
            simp [srpfScan, hs, hq, heq]
          rw [hstep]
          rcases ih (i + 1) { s with repeatedMinNum := toInt32 (s.repeatedMinNum + 1) }
            with h | ⟨p, hp, h1, h2⟩
          · exact Or.inl h
          · exact Or.inr ⟨p, List.mem_cons_of_mem _ hp, h1, h2⟩
        · have hstep : srpfScan (a :: as) i s = srpfScan as (i + 1) s := by
            simp [srpfScan, hs, hq, hlt, heq]
          rw [hstep]
          rcases ih (i + 1) s with h | ⟨p, hp, h1, h2⟩
          · exact Or.inl h
          · exact Or.inr ⟨p, List.mem_cons_of_mem _ hp, h1, h2⟩
    · rw [srpfScan_skip a as i s hc]
      rcases ih (i + 1) s with h | ⟨p, hp, h1, h2⟩
      · exact Or.inl h
      · exact Or.inr ⟨p, List.mem_cons_of_mem _ hp, h1, h2⟩

theorem srpfPick_sound (m : ℚ) (t : List proc) :
    ∀ (i : Nat) (n : Int) (sel : Selection),
      srpfPick m t i n sel = sel
      ∨ ∃ p ∈ t, p.state = RUNNABLE ∧ (srpfPick m t i n sel).foundPid = p.pid := by
  induction t with
  | nil => intro i n sel; left; rfl
  | cons a as ih =>
    intro i n sel
    by_cases hc : a.state = RUNNABLE ∧ a.mlfq.queueNumber = 3 ∧ a.mlfq.remainedPriority = m
    · by_cases hn : n = 1
      · right
        exact ⟨a, List.mem_cons_self _ _, hc.1, by simp [srpfPick, hc, hn]⟩
      · have hstep : srpfPick m (a :: as) i n sel
            = srpfPick m as (i + 1) (toInt32 (n - 1)) sel := by
          simp only [srpfPick, hc, and_self, if_true, hn, if_false]
        rw [hstep]
        rcases ih (i + 1) (toInt32 (n - 1)) sel with h | ⟨p, hp, h1, h2⟩
        · exact Or.inl h
        · exact Or.inr ⟨p, List.mem_cons_of_mem _ hp, h1, h2⟩
    · have hstep : srpfPick m (a :: as) i n sel = srpfPick m as (i + 1) n sel := by
        simp only [srpfPick, hc, if_false]
      rw [hstep]
      rcases ih (i + 1) n sel with h | ⟨p, hp, h1, h2⟩
      · exact Or.inl h
      · exact Or.inr ⟨p, List.mem_cons_of_mem _ hp, h1, h2⟩

theorem findLottery_sound (t : List proc) (randstate : Nat)
    (h : (findLottery t randstate).1 ≠ -1) :
    ∃ p ∈ t, p.state = RUNNABLE ∧ (findLottery t randstate).1 = p.pid := by
  simp only [findLottery, findLotterySel] at h ⊢
  by_cases hsum : lotterySum t 0 ≠ 0
  · simp only [if_pos hsum] at h ⊢
    rcases lotteryWalk_sound t 0 (lotteryDraw (rand randstate) (lotterySum t 0))
      with h' | h'
    · rw [h'] at h
      exact absurd rfl h
    · exact h'
  · simp only [if_neg hsum] at h
    exact absurd rfl h

theorem findHRRN_sound (t : List proc) (cmostime : Nat → rtcdate)
    (h : findHRRN t cmostime ≠ -1) :
    ∃ p ∈ t, p.state = RUNNABLE ∧ findHRRN t cmostime = p.pid := by
  simp only [findHRRN, findHRRNSel] at h ⊢
  rcases hrrnLoop_sound cmostime t 0 (float.fin (-1)) ⟨none, -1⟩ with h' | h'
  · rw [h'] at h
    exact absurd rfl h
  · exact h'

theorem findSRPF_sound (t : List proc) (randstate : Nat)
    (h : (findSRPF t randstate).1 ≠ -1) :
    ∃ p ∈ t, p.state = RUNNABLE ∧ (findSRPF t randstate).1 = p.pid := by
  simp only [findSRPF, findSRPFSel] at h ⊢
  have hscan := srpfScan_sound t 0 ⟨⟨none, -1⟩, 500000, 1⟩
  by_cases hrep : (srpfScan t 0 ⟨⟨none, -1⟩, 500000, 1⟩).repeatedMinNum ≠ 1
  · simp only [if_pos hrep] at h ⊢
    rcases srpfPick_sound (srpfScan t 0 ⟨⟨none, -1⟩, 500000, 1⟩).minRemainedPriority t 0
        (srpfDraw (rand randstate) (srpfScan t 0 ⟨⟨none, -1⟩, 500000, 1⟩).repeatedMinNum)
        (srpfScan t 0 ⟨⟨none, -1⟩, 500000, 1⟩).sel with h' | h'
    · rw [h'] at h ⊢
      rcases hscan with h'' | h''
      · rw [h''] at h
        exact absurd rfl h
      · exact h''
    · exact h'
  · simp only [if_neg hrep] at h ⊢
    rcases hscan with h'' | h''
    · rw [h''] at h
      exact absurd rfl h
    · exact h''

theorem scheduler_cases (t : List proc) (randstate : Nat) (cmostime : Nat → rtcdate)
    (isThirdQueue : Int) :
    (scheduler t randstate cmostime isThirdQueue).ptable = fallbackDispatch t
    ∨ ∃ (foundPid third : Int),
        (scheduler t randstate cmostime isThirdQueue).ptable = dispatch t foundPid third
        ∧ ∃ p ∈ t, p.state = RUNNABLE ∧ foundPid = p.pid := by
  by_cases h1 : (findLottery t randstate).1 ≠ -1
  · right
    exact ⟨(findLottery t randstate).1, 0, by simp [scheduler, h1],
      findLottery_sound t randstate h1⟩
  · by_cases h2 : findHRRN t cmostime ≠ -1
    · right
      exact ⟨findHRRN t cmostime, 0, by simp [scheduler, h1, h2], findHRRN_sound t cmostime h2⟩
    · by_cases h3 : (findSRPF t (findLottery t randstate).2).1 ≠ -1
      · right
        exact ⟨(findSRPF t (findLottery t randstate).2).1, 1, by simp [scheduler, h1, h2, h3],
          findSRPF_sound t _ h3⟩
      · left
        simp [scheduler, h1, h2, h3]

theorem scheduler_slotwise (okQ : Int → Prop) (m : Machine) (hinv : PidInv m)
    (randstate : Nat) (cmostime : Nat → rtcdate) (isThirdQueue : Int) :
    Slotwise (SlotStep okQ) m.ptable
      (scheduler m.ptable randstate cmostime isThirdQueue).ptable := by
  rcases scheduler_cases m.ptable randstate cmostime isThirdQueue
    with h | ⟨foundPid, third, h, p, hp, hps, hpid⟩
  · rw [h]
    exact fallbackDispatch_slotwise okQ _
  · rw [h]
    refine dispatch_slotwise okQ foundPid third _ ?_
    intro q hq hqpid
    obtain ⟨_, _, hnz, huniq⟩ := hinv
    obtain ⟨i, hi⟩ := List.mem_iff_getElem?.mp hp
    obtain ⟨j, hj⟩ := List.mem_iff_getElem?.mp hq
    have hpnz : p.pid ≠ 0 := hnz p hp (by rw [hps]; decide)
    have hij : i = j := huniq i j p q hi hj (by rw [← hpid, hqpid]) hpnz
    subst hij
    rw [hi] at hj
    cases hj
    exact hps

/-! ## Every atomic action, slot by slot -/

theorem step_slotwise (okQ : Int → Prop) (m m' : Machine) (a : Option Int)
    (hinv : PidInv m) (h : Step okQ m a m') :
    (a = none ∧ m'.nextpid = m.nextpid ∧ Slotwise (SlotStep okQ) m.ptable m'.ptable)
    ∨ ∃ (k : Nat) (p : proc) (now : rtcdate),
        a = some m.nextpid ∧ m.ptable[k]? = some p ∧ p.state = UNUSED
        ∧ m'.ptable = m.ptable.set k (allocated p m.nextpid now)
        ∧ m'.nextpid = m.nextpid + 1 ∧ m.nextpid < 2147483647 := by
  cases h with
  | alloc now i t hscan hlt =>
    right
    rcases allocprocScan_cases m.nextpid now m.ptable with ⟨_, h2⟩ | ⟨k, p, h1, h2, _, h4⟩
    · rw [h2] at hscan
      cases hscan
    · rw [h4] at hscan
      simp only [Option.some.injEq, Prod.mk.injEq] at hscan
      exact ⟨k, p, now, rfl, h1, h2, hscan.2.symm, rfl, hlt⟩
  | allocFail i he =>
    left
    refine ⟨rfl, rfl, setState_slotwise _ (slotStep_refl okQ) _ i UNUSED ?_⟩
    intro p hp
    obtain ⟨q, hq, hqs⟩ := he
    rw [hp] at hq
    cases hq
    exact ⟨Or.inr (Or.inr ⟨hqs, rfl⟩), Or.inl rfl, Or.inl rfl⟩
  | forkParent np curproc _ =>
    left
    exact ⟨rfl, rfl, setField_slotwise okQ _ np (fun p => { p with parent := some curproc })
      (fun p => ⟨Or.inl rfl, Or.inl rfl, Or.inl rfl⟩)⟩
  | publish np he =>
    left
    refine ⟨rfl, rfl, setState_slotwise _ (slotStep_refl okQ) _ np RUNNABLE ?_⟩
    intro p hp
    obtain ⟨q, hq, hqs⟩ := he
    rw [hp] at hq
    cases hq
    refine ⟨Or.inr (Or.inl ⟨?_, ?_⟩), Or.inl rfl, Or.inl rfl⟩
    · rw [hqs]
      rfl
    · rw [hqs]
      decide
  | exit curproc initproc t hrun hex =>
    left
    exact ⟨rfl, rfl, exit_slotwise okQ _ _ curproc initproc hrun hex⟩
  | wait curproc hrun =>
    left
    exact ⟨rfl, rfl, wait_slotwise okQ _ curproc hrun⟩
  | sleep curproc chan hrun =>
    left
    exact ⟨rfl, rfl, sleep_slotwise okQ _ curproc chan hrun⟩
  | sleepReturn curproc _ =>
    left
    exact ⟨rfl, rfl, setField_slotwise okQ _ curproc (fun p => { p with chan := 0 })
      (fun p => ⟨Or.inl rfl, Or.inl rfl, Or.inl rfl⟩)⟩
  | yield curproc hrun =>
    left
    refine ⟨rfl, rfl, setState_slotwise _ (slotStep_refl okQ) _ curproc RUNNABLE ?_⟩
    intro p hp
    obtain ⟨q, hq, hqs⟩ := hrun
    rw [hp] at hq
    cases hq
    refine ⟨Or.inr (Or.inl ⟨?_, ?_⟩), Or.inl rfl, Or.inl rfl⟩
    · rw [hqs]
      rfl
    · rw [hqs]
      decide
  | setTicket curproc ticketNum _ =>
    left
    exact ⟨rfl, rfl, setField_slotwise okQ _ curproc
      (fun p => { p with mlfq := { p.mlfq with lotteryTicket := ticketNum } })
      (fun p => ⟨Or.inl rfl, Or.inl rfl, Or.inl rfl⟩)⟩
  | kill pid =>
    left
    exact ⟨rfl, rfl, kill_slotwise okQ pid _⟩
  | wakeup chan =>
    left
    exact ⟨rfl, rfl, slotwise_mono _ _ (wakeStep_slotStep okQ) _ _ (wakeup1_slotwise chan _)⟩
  | changeQueue pid queueNumber hq =>
    left
    exact ⟨rfl, rfl, changeQueue_slotwise okQ pid queueNumber hq _⟩
  | setLotteryTicket pid newTicket =>
    left
    exact ⟨rfl, rfl, setLotteryTicket_slotwise okQ pid newTicket _⟩
  | setSRPFPriority pid newStrPriority r hr =>
    left
    have hr2 : ∃ q, r = setSRPFPriorityLoop m.ptable pid q := by
      unfold setSRPFPriority at hr
      split at hr
      · rename_i q _
        exact ⟨q, (Option.some.inj hr).symm⟩
      · exact absurd hr (by simp)
      · exact absurd hr (by simp)
    obtain ⟨q, rfl⟩ := hr2
    exact ⟨rfl, rfl, setSRPFPriorityLoop_slotwise okQ pid _ _⟩
  | schedule randstate cmostime isThirdQueue =>
    left
    exact ⟨rfl, rfl, scheduler_slotwise okQ m hinv randstate cmostime isThirdQueue⟩
  | fallbackNext i hr =>
    left
    refine ⟨rfl, rfl, setState_slotwise _ (slotStep_refl okQ) _ i RUNNING ?_⟩
    intro p hp
    obtain ⟨q, hq, hqs⟩ := hr
    rw [hp] at hq
    cases hq
    refine ⟨Or.inr (Or.inl ⟨?_, ?_⟩), Or.inl rfl, Or.inl rfl⟩
    · rw [hqs]
      rfl
    · rw [hqs]
      decide

/-! ## Invariants of the reachable machines -/

theorem getElem?_of_slotwise_rev (R : proc → proc → Prop) (t t' : List proc)
    (h : Slotwise R t t') (i : Nat) (p' : proc) (hp : t'[i]? = some p') :
    ∃ p, t[i]? = some p ∧ R p p' := by
  have hlt : i < t.length := by
    rw [← h.1]
    rcases Nat.lt_or_ge i t'.length with h' | h'
    · exact h'
    · rw [List.getElem?_eq_none h'] at hp
      cases hp
  exact ⟨t[i], List.getElem?_eq_getElem hlt, h.2 i _ p' (List.getElem?_eq_getElem hlt) hp⟩

theorem slotStep_allocated (okQ : Int → Prop) (p p' : proc) (h : SlotStep okQ p p')
    (hs : p'.state ≠ UNUSED) : p.state ≠ UNUSED ∧ p'.pid = p.pid := by
  obtain ⟨h1, h2, _⟩ := h
  have hp : p.state ≠ UNUSED := by
    rcases h1 with h1 | ⟨_, h1⟩ | ⟨_, h1⟩
    · rw [← h1]
      exact hs
    · exact h1
    · exact absurd h1 hs
  refine ⟨hp, ?_⟩
  rcases h2 with h2 | ⟨_, h2⟩
  · exact h2
  · exact absurd h2 hs

theorem pidInv_slotwise (okQ : Int → Prop) (t t' : List proc) (nextpid : Int)
    (hinv : PidInv ⟨t, nextpid⟩) (h : Slotwise (SlotStep okQ) t t') :
    PidInv ⟨t', nextpid⟩ := by
  obtain ⟨h1, h2, h3, h4⟩ := hinv
  refine ⟨h1, ?_, ?_, ?_⟩
  · intro p' hp'
    obtain ⟨i, hi⟩ := List.mem_iff_getElem?.mp hp'
    obtain ⟨p, hp, hpp⟩ := getElem?_of_slotwise_rev _ _ _ h i p' hi
    have hb := h2 p (List.getElem?_mem hp)
    rcases hpp.2.1 with e | ⟨e, _⟩
    · rw [e]
      exact hb
    · rw [e]
      simp only at h1 ⊢
      omega
  · intro p' hp' hs
    obtain ⟨i, hi⟩ := List.mem_iff_getElem?.mp hp'
    obtain ⟨p, hp, hpp⟩ := getElem?_of_slotwise_rev _ _ _ h i p' hi
    obtain ⟨ha, hb⟩ := slotStep_allocated okQ p p' hpp hs
    rw [hb]
    exact h3 p (List.getElem?_mem hp) ha
  · intro i j p' q' hi hj hpq hnz
    obtain ⟨p, hp, hpp⟩ := getElem?_of_slotwise_rev _ _ _ h i p' hi
    obtain ⟨q, hq, hqq⟩ := getElem?_of_slotwise_rev _ _ _ h j q' hj
    have e1 : p'.pid = p.pid := by
      rcases hpp.2.1 with e | ⟨e, _⟩
      · exact e
      · exact absurd e hnz
    have e2 : q'.pid = q.pid := by
      rcases hqq.2.1 with e | ⟨e, _⟩
      · exact e
      · exact absurd (hpq.trans e) hnz
    exact h4 i j p q hp hq (by rw [← e1, ← e2, hpq]) (by rw [← e1]; exact hnz)

theorem getElem?_set_cases (t : List proc) (k : Nat) (x : proc) (i : Nat) (p' : proc)
    (h : (t.set k x)[i]? = some p') :
    (i = k ∧ p' = x) ∨ (i ≠ k ∧ t[i]? = some p') := by
  by_cases hik : k = i
  · subst hik
    left
    rw [List.getElem?_set] at h
    simp only [if_true] at h
    split at h
    · cases h
      exact ⟨rfl, rfl⟩
    · cases h
  · right
    rw [List.getElem?_set_ne hik] at h
    exact ⟨fun e => hik e.symm, h⟩

theorem pidInv_alloc (t : List proc) (nextpid : Int) (k : Nat) (p : proc) (now : rtcdate)
    (hinv : PidInv ⟨t, nextpid⟩) :
    PidInv ⟨t.set k (allocated p nextpid now), nextpid + 1⟩ := by
  obtain ⟨h1, h2, h3, h4⟩ := hinv
  simp only at h1 h2 h3 h4
  have hx : (allocated p nextpid now).pid = nextpid := rfl
  refine ⟨by simp only; omega, ?_, ?_, ?_⟩
  · intro p' hp'
    simp only at hp' ⊢
    obtain ⟨i, hi⟩ := List.mem_iff_getElem?.mp hp'
    rcases getElem?_set_cases t k _ i p' hi with ⟨_, e⟩ | ⟨_, e⟩
    · rw [e, hx]
      omega
    · have := h2 p' (List.getElem?_mem e)
      omega
  · intro p' hp' hs
    simp only at hp'
    obtain ⟨i, hi⟩ := List.mem_iff_getElem?.mp hp'
    rcases getElem?_set_cases t k _ i p' hi with ⟨_, e⟩ | ⟨_, e⟩
    · rw [e, hx]
      omega
    · exact h3 p' (List.getElem?_mem e) hs
  · intro i j p' q' hi hj hpq hnz
    simp only at hi hj
    rcases getElem?_set_cases t k _ i p' hi with ⟨ei, e⟩ | ⟨ei, e⟩
    · rcases getElem?_set_cases t k _ j q' hj with ⟨ej, _⟩ | ⟨_, e'⟩
      · rw [ei, ej]
      · have := h2 q' (List.getElem?_mem e')
        rw [e, hx] at hpq
        omega
    · rcases getElem?_set_cases t k _ j q' hj with ⟨_, e'⟩ | ⟨_, e'⟩
      · have := h2 p' (List.getElem?_mem e)
        rw [e', hx] at hpq
        omega
      · exact h4 i j p' q' e e' hpq hnz

theorem pidInv_step (okQ : Int → Prop) (m m' : Machine) (a : Option Int)
    (hinv : PidInv m) (h : Step okQ m a m') : PidInv m' := by
  rcases step_slotwise okQ m m' a hinv h with ⟨_, h2, h3⟩ | ⟨k, p, now, _, _, _, h4, h5, _⟩
  · have := pidInv_slotwise okQ m.ptable m'.ptable m.nextpid hinv h3
    rw [← h2] at this
    exact this
  · have := pidInv_alloc m.ptable m.nextpid k p now hinv
    rw [← h4, ← h5] at this
    exact this

theorem pidInv_initial (n : Nat) : PidInv ⟨initialTable n, 1⟩ := by
  have hmem : ∀ p ∈ initialTable n, p = {} := fun p hp => (List.mem_replicate.mp hp).2
  refine ⟨le_refl _, ?_, ?_, ?_⟩
  · intro p hp
    rw [hmem p hp]
    exact ⟨le_refl _, show (0 : Int) < 1 by decide⟩
  · intro p hp hs
    rw [hmem p hp] at hs
    exact absurd rfl hs
  · intro i j p q hi _ _ hnz
    rw [hmem p (List.getElem?_mem hi)] at hnz
    exact absurd rfl hnz

theorem reach_pidInv (okQ : Int → Prop) (n : Nat) (m : Machine) (log : List Int)
    (h : Reach okQ n m log) :
    PidInv m ∧ (∀ x ∈ log, x < m.nextpid) ∧ log.Pairwise (fun newer older => older < newer) := by
  induction h with
  | init => exact ⟨pidInv_initial n, fun x hx => by simp at hx, List.Pairwise.nil⟩
  | step m m' log a _ hstep ih =>
    obtain ⟨hinv, hlog, hpw⟩ := ih
    refine ⟨pidInv_step okQ m m' a hinv hstep, ?_, ?_⟩
    · rcases step_slotwise okQ m m' a hinv hstep with ⟨h1, h2, _⟩ | ⟨_, _, _, h1, _, _, _, h5, _⟩
      · intro x hx
        rw [h1] at hx
        simp only [Option.toList, List.nil_append] at hx
        rw [h2]
        exact hlog x hx
      · intro x hx
        rw [h1] at hx
        simp only [Option.toList, List.singleton_append, List.mem_cons] at hx
        rw [h5]
        rcases hx with e | hx
        · omega
        · have := hlog x hx
          omega
    · rcases step_slotwise okQ m m' a hinv hstep with ⟨h1, _, _⟩ | ⟨_, _, _, h1, _, _, _, _, _⟩
      · rw [h1]
        simpa [Option.toList] using hpw
      · rw [h1]
        simp only [Option.toList, List.singleton_append, List.pairwise_cons]
        exact ⟨hlog, hpw⟩

theorem reach_pidLogged (okQ : Int → Prop) (n : Nat) (m : Machine) (log : List Int)
    (h : Reach okQ n m log) : ∀ p ∈ m.ptable, p.pid = 0 ∨ p.pid ∈ log := by
  induction h with
  | init =>
    intro p hp
    rw [(List.mem_replicate.mp hp).2]
    exact Or.inl rfl
  | step m m' log a hr hstep ih =>
    intro p' hp'
    obtain ⟨i, hi⟩ := List.mem_iff_getElem?.mp hp'
    rcases step_slotwise okQ m m' a (reach_pidInv okQ n m log hr).1 hstep
      with ⟨h1, _, h3⟩ | ⟨k, p, now, h1, _, _, h4, _, _⟩
    · obtain ⟨p, hp, hpp⟩ := getElem?_of_slotwise_rev _ _ _ h3 i p' hi
      rw [h1]
      simp only [Option.toList, List.nil_append]
      rcases hpp.2.1 with e | e
      · rw [e]
        exact ih p (List.getElem?_mem hp)
      · exact Or.inl e.1
    · rw [h1]
      simp only [Option.toList, List.singleton_append, List.mem_cons]
      rw [h4] at hi
      rcases getElem?_set_cases _ k _ i p' hi with ⟨_, e⟩ | ⟨_, e⟩
      · rw [e]
        exact Or.inr (Or.inl rfl)
      · rcases ih p' (List.getElem?_mem e) with e0 | e1
        · exact Or.inl e0
        · exact Or.inr (Or.inr e1)

/-! ## Pid uniqueness, queue numbers and the state diagram -/

theorem reach_oneEmbryo (okQ : Int → Prop) : Reach okQ 1 machineOneEmbryo [1] :=
  Reach.step ⟨initialTable 1, 1⟩ machineOneEmbryo [] (some 1) Reach.init
    (Step.alloc ⟨initialTable 1, 1⟩ clockLoneHRRN 0 tableOneEmbryo rfl (by decide))

theorem reach_twoEmbryos (okQ : Int → Prop) : Reach okQ 3 machineTwoEmbryos [1 + 1, 1] :=
  Reach.step ⟨[allocated {} 1 clockLoneHRRN, {}, {}], 1 + 1⟩ machineTwoEmbryos [1] (some (1 + 1))
    (Reach.step ⟨initialTable 3, 1⟩ ⟨[allocated {} 1 clockLoneHRRN, {}, {}], 1 + 1⟩ []
      (some 1) Reach.init
      (Step.alloc ⟨initialTable 3, 1⟩ clockLoneHRRN 0
        [allocated {} 1 clockLoneHRRN, {}, {}] rfl (by decide)))
    (Step.alloc ⟨[allocated {} 1 clockLoneHRRN, {}, {}], 1 + 1⟩ clockLoneHRRN 1
      machineTwoEmbryos.ptable rfl (by decide))

/-- C15. In every machine reachable from the initial all-UNUSED table
(`nextpid = 1`) by the atomic actions of `allocproc`, `fork`, `exit`, `wait`,
`kill`, `sleep`, `wakeup`, `yield`, the scheduler and the scheduling-control
calls with arbitrary arguments (allocations with the counter below `INT_MAX`),
no two slots that are not UNUSED hold the same pid; the pids assigned so far
are strictly increasing in the order of their allocations; the pid held by a
slot that is not UNUSED is one of them; and an allocation claims one UNUSED
slot, leaves every other slot as it is and sets the pid of the claimed slot to
a value greater than every pid assigned before and than the pid held by any
slot. -/
theorem pids_unique_increasing (n : Nat) (m : Machine) (log : List Int)
    (h : Reach anyQueue n m log) :
    (∀ (i j : Nat) (p q : proc), m.ptable[i]? = some p → m.ptable[j]? = some q →
        p.state ≠ UNUSED → q.state ≠ UNUSED → p.pid = q.pid → i = j)
    ∧ log.Pairwise (fun newer older => older < newer)
    ∧ (∀ p ∈ m.ptable, p.state ≠ UNUSED → p.pid ∈ log)
    ∧ ∀ (m' : Machine) (a : Int), Step anyQueue m (some a) m' →
        (∃ (k : Nat) (p p' : proc), m.ptable[k]? = some p ∧ p.state = UNUSED
          ∧ m'.ptable[k]? = some p' ∧ p'.state = EMBRYO ∧ p'.pid = a
          ∧ ∀ (j : Nat), j ≠ k → m'.ptable[j]? = m.ptable[j]?)
        ∧ (∀ x ∈ log, x < a)
        ∧ ∀ q ∈ m.ptable, q.pid < a := by
  obtain ⟨hinv, hlog, hpw⟩ := reach_pidInv anyQueue n m log h
  obtain ⟨_, h2, h3, h4⟩ := hinv
  refine ⟨?_, hpw, ?_, ?_⟩
  · intro i j p q hi hj hp _ hpq
    exact h4 i j p q hi hj hpq (h3 p (List.getElem?_mem hi) hp)
  · intro p hp hs
    rcases reach_pidLogged anyQueue n m log h p hp with e | e
    · exact absurd e (h3 p hp hs)
    · exact e
  · intro m' a hstep
    rcases step_slotwise anyQueue m m' (some a) (reach_pidInv anyQueue n m log h).1 hstep
      with ⟨h1, _, _⟩ | ⟨k, p, now, h1, hk, hu, ht, _, _⟩
    · cases h1
    · simp only [Option.some.injEq] at h1
      subst h1
      have hklt : k < m.ptable.length := by
        rcases Nat.lt_or_ge k m.ptable.length with h' | h'
        · exact h'
        · rw [List.getElem?_eq_none h'] at hk
          cases hk
      refine ⟨⟨k, p, allocated p m.nextpid now, hk, hu, ?_, rfl, rfl, ?_⟩, hlog,
        fun q hq => (h2 q hq).2⟩
      · rw [ht, List.getElem?_set]
        simp [hklt]
      · intro j hj
        rw [ht, List.getElem?_set_ne (fun e => hj e.symm)]

/-- C15, witness: the machine of three slots after two successive
allocations, which gave the pids 1 and 2 to slots 0 and 1; a third allocation
is possible and gives pid 3 to slot 2. -/
theorem pids_unique_increasing_witness :
    Reach anyQueue 3 machineTwoEmbryos [1 + 1, 1]
    ∧ machineTwoEmbryos.ptable.map (fun p => (p.state, p.pid))
        = [(EMBRYO, 1), (EMBRYO, 2), (UNUSED, 0)]
    ∧ Step anyQueue machineTwoEmbryos (some 3) machineThreeEmbryos
    ∧ machineThreeEmbryos.ptable.map (fun p => (p.state, p.pid))
        = [(EMBRYO, 1), (EMBRYO, 2), (EMBRYO, 3)]
    ∧ (∀ (i j : Nat) (p q : proc), machineTwoEmbryos.ptable[i]? = some p →
        machineTwoEmbryos.ptable[j]? = some q →
        p.state ≠ UNUSED → q.state ≠ UNUSED → p.pid = q.pid → i = j)
    ∧ [(1 : Int) + 1, 1].Pairwise (fun newer older => older < newer)
    ∧ (∀ p ∈ machineTwoEmbryos.ptable, p.state ≠ UNUSED → p.pid ∈ [(1 : Int) + 1, 1])
    ∧ ∀ (m' : Machine) (a : Int), Step anyQueue machineTwoEmbryos (some a) m' →
        (∃ (k : Nat) (p p' : proc), machineTwoEmbryos.ptable[k]? = some p ∧ p.state = UNUSED
          ∧ m'.ptable[k]? = some p' ∧ p'.state = EMBRYO ∧ p'.pid = a
          ∧ ∀ (j : Nat), j ≠ k → m'.ptable[j]? = machineTwoEmbryos.ptable[j]?)
        ∧ (∀ x ∈ [(1 : Int) + 1, 1], x < a)
        ∧ ∀ q ∈ machineTwoEmbryos.ptable, q.pid < a :=
  ⟨reach_twoEmbryos anyQueue, rfl,
    Step.alloc machineTwoEmbryos clockLoneHRRN 2 machineThreeEmbryos.ptable rfl (by decide),
    rfl,
    pids_unique_increasing 3 machineTwoEmbryos [1 + 1, 1] (reach_twoEmbryos anyQueue)⟩

theorem queueInv_step (m m' : Machine) (a : Option Int) (hinv : PidInv m)
    (hq : ∀ p ∈ m.ptable, p.state ≠ UNUSED → validQueue p.mlfq.queueNumber)
    (h : Step validQueue m a m') :
    ∀ p ∈ m'.ptable, p.state ≠ UNUSED → validQueue p.mlfq.queueNumber := by
  intro p' hp' hs
  obtain ⟨i, hi⟩ := List.mem_iff_getElem?.mp hp'
  rcases step_slotwise validQueue m m' a hinv h with ⟨_, _, h3⟩ | ⟨k, p, now, _, _, _, h4, _, _⟩
  · obtain ⟨p, hp, hpp⟩ := getElem?_of_slotwise_rev _ _ _ h3 i p' hi
    rcases hpp.2.2 with e | e
    · rw [e]
      exact hq p (List.getElem?_mem hp) (slotStep_allocated validQueue p p' hpp hs).1
    · exact e
  · rw [h4] at hi
    rcases getElem?_set_cases _ k _ i p' hi with ⟨_, e⟩ | ⟨_, e⟩
    · rw [e]
      exact Or.inl rfl
    · exact hq p' (List.getElem?_mem e) hs

theorem reach_queueInv (n : Nat) (m : Machine) (log : List Int)
    (h : Reach validQueue n m log) :
    ∀ p ∈ m.ptable, p.state ≠ UNUSED → validQueue p.mlfq.queueNumber := by
  induction h with
  | init =>
    intro p hp hs
    rw [(List.mem_replicate.mp hp).2] at hs
    exact absurd rfl hs
  | step m m' log a hr hstep ih =>
    exact queueInv_step m m' a (reach_pidInv validQueue n m log hr).1 ih hstep

/-- C16, as amended. In every machine reachable from the initial table by the
atomic actions of the operations, `changeQueue` being called with a queue
number in {1, 2, 3} only (`setLotteryTicket`, `setSRPFPriority` and the other
calls with arbitrary arguments, the pid counter below `INT_MAX`), every slot
that is not UNUSED has `queueNumber` in {1, 2, 3}; and the slot an allocation
claims has `queueNumber == 1`. -/
theorem queueNumber_valid (n : Nat) (m : Machine) (log : List Int)
    (h : Reach validQueue n m log) :
    (∀ p ∈ m.ptable, p.state ≠ UNUSED → validQueue p.mlfq.queueNumber)
    ∧ ∀ (now : rtcdate) (i : Nat) (t : List proc),
        allocprocScan m.ptable m.nextpid now = some (i, t) →
        ∃ p, t[i]? = some p ∧ p.state = EMBRYO ∧ p.mlfq.queueNumber = 1 := by
  refine ⟨reach_queueInv n m log h, ?_⟩
  intro now i t hscan
  rcases allocprocScan_cases m.nextpid now m.ptable with ⟨_, h2⟩ | ⟨k, p, h1, _, _, h4⟩
  · rw [h2] at hscan
    cases hscan
  · rw [h4] at hscan
    simp only [Option.some.injEq, Prod.mk.injEq] at hscan
    obtain ⟨hk, ht⟩ := hscan
    subst hk ht
    have hlt : k < m.ptable.length := by
      rcases Nat.lt_or_ge k m.ptable.length with h' | h'
      · exact h'
      · rw [List.getElem?_eq_none h'] at h1
        cases h1
    exact ⟨_, List.getElem?_set_self hlt, rfl, rfl⟩

/-- C16, witness: the machine of one slot after the first allocation. -/
theorem queueNumber_valid_witness :
    (∀ p ∈ machineOneEmbryo.ptable, p.state ≠ UNUSED → validQueue p.mlfq.queueNumber)
    ∧ ∀ (now : rtcdate) (i : Nat) (t : List proc),
        allocprocScan machineOneEmbryo.ptable machineOneEmbryo.nextpid now = some (i, t) →
        ∃ p, t[i]? = some p ∧ p.state = EMBRYO ∧ p.mlfq.queueNumber = 1 :=
  queueNumber_valid 1 machineOneEmbryo [1] (reach_oneEmbryo validQueue)

/-- C16, counterexample. From the initial table of one slot, an allocation
(pid 1) followed by `changeQueue(1, 7)` reaches a machine whose slot is
EMBRYO, hence allocated, with `queueNumber == 7`. -/
theorem queueNumber_counterexample :
    Reach anyQueue 1 machineQueueSeven [1]
    ∧ machineQueueSeven.ptable.map (fun p => (p.state, p.pid, p.mlfq.queueNumber))
        = [(EMBRYO, 1, 7)]
    ∧ ¬ validQueue 7 :=
  ⟨Reach.step machineOneEmbryo machineQueueSeven [1] none (reach_oneEmbryo anyQueue)
      (Step.changeQueue machineOneEmbryo 1 7 trivial),
    by decide, by unfold validQueue; decide⟩

/-! ## `pid == 0` and UNUSED -/

/-- C17, the code at the failing input. On the initial table of 64 slots with
`nextpid == 1`, `allocproc` with `kalloc` failing returns the null pointer
and leaves slot 0 UNUSED with pid 1; so does `fork` when `copyuvm` fails. The
machine after the failed allocation is reachable by the atomic actions of
`allocproc` alone. -/
theorem allocproc_failure_keeps_pid :
    (allocproc (initialTable 64) 1 clockLoneHRRN false).slot = none
    ∧ (allocproc (initialTable 64) 1 clockLoneHRRN false).ptable[0]?.map
        (fun p => (p.state, p.pid)) = some (UNUSED, 1)
    ∧ (fork (initialTable 64) 1 clockLoneHRRN 0 true false).ret = -1
    ∧ (fork (initialTable 64) 1 clockLoneHRRN 0 true false).ptable[0]?.map
        (fun p => (p.state, p.pid)) = some (UNUSED, 1)
    ∧ Reach anyQueue 1 machineRolledBack [1]
    ∧ machineRolledBack.ptable = (allocproc (initialTable 1) 1 clockLoneHRRN false).ptable
    ∧ machineRolledBack.ptable.map (fun p => (p.state, p.pid)) = [(UNUSED, 1)] :=
  ⟨by decide, by decide, by decide, by decide,
    Reach.step machineOneEmbryo machineRolledBack [1] none (reach_oneEmbryo anyQueue)
      (Step.allocFail machineOneEmbryo 0 ⟨_, rfl, rfl⟩),
    by decide, by decide⟩

/-! ## The state diagram -/

/-- C18, as amended. In every machine reachable from the initial table (the
pid counter below `INT_MAX`), every atomic action of every operation keeps
the number of slots and changes the lifecycle state of a slot, if at all, by
one of UNUSED→EMBRYO, EMBRYO→RUNNABLE, RUNNABLE→RUNNING, RUNNING→RUNNABLE,
RUNNING→SLEEPING, SLEEPING→RUNNABLE, RUNNING→ZOMBIE, ZOMBIE→UNUSED, or by
EMBRYO→UNUSED, the roll-back of a failed creation. -/
theorem state_changes_admissible (n : Nat) (m : Machine) (log : List Int)
    (h : Reach anyQueue n m log) (m' : Machine) (a : Option Int)
    (hstep : Step anyQueue m a m') :
    m'.ptable.length = m.ptable.length
    ∧ ∀ (i : Nat) (p p' : proc), m.ptable[i]? = some p → m'.ptable[i]? = some p' →
        p'.state = p.state ∨ admissible p.state p'.state = true
          ∨ (p.state = EMBRYO ∧ p'.state = UNUSED) := by
  rcases step_slotwise anyQueue m m' a (reach_pidInv anyQueue n m log h).1 hstep
    with ⟨_, _, h3⟩ | ⟨k, q, now, _, hk, hq, h4, _, _⟩
  · refine ⟨h3.1, ?_⟩
    intro i p p' hp hp'
    rcases (h3.2 i p p' hp hp').1 with e | ⟨e, _⟩ | e
    · exact Or.inl e
    · exact Or.inr (Or.inl e)
    · exact Or.inr (Or.inr e)
  · rw [h4]
    refine ⟨List.length_set _ _ _, ?_⟩
    intro i p p' hp hp'
    rcases getElem?_set_cases _ k _ i p' hp' with ⟨e1, e2⟩ | ⟨_, e⟩
    · subst e1
      rw [hk] at hp
      cases hp
      rw [e2, hq]
      exact Or.inr (Or.inl rfl)
    · rw [hp] at e
      cases e
      exact Or.inl rfl

/-- C18, witness: the EMBRYO slot of `machineOneEmbryo` is published. -/
theorem state_changes_admissible_witness :
    (setState machineOneEmbryo.ptable 0 RUNNABLE).length = machineOneEmbryo.ptable.length
    ∧ ∀ (i : Nat) (p p' : proc), machineOneEmbryo.ptable[i]? = some p →
        (setState machineOneEmbryo.ptable 0 RUNNABLE)[i]? = some p' →
        p'.state = p.state ∨ admissible p.state p'.state = true
          ∨ (p.state = EMBRYO ∧ p'.state = UNUSED) :=
  state_changes_admissible 1 machineOneEmbryo [1] (reach_oneEmbryo anyQueue)
    ⟨setState machineOneEmbryo.ptable 0 RUNNABLE, machineOneEmbryo.nextpid⟩ none
    (Step.publish machineOneEmbryo 0 ⟨_, rfl, rfl⟩)

/-- C18, counterexample. From the initial table of one slot, `allocproc`
claims slot 0 (UNUSED→EMBRYO); when `kalloc` fails its next assignment sets
the slot back to UNUSED. The change EMBRYO→UNUSED is none of the eight changes
of the state diagram. -/
theorem state_changes_counterexample :
    Reach anyQueue 1 machineOneEmbryo [1]
    ∧ Step anyQueue machineOneEmbryo none machineRolledBack
    ∧ machineOneEmbryo.ptable.map (fun p => p.state) = [EMBRYO]
    ∧ machineRolledBack.ptable.map (fun p => p.state) = [UNUSED]
    ∧ (allocproc (initialTable 1) 1 clockLoneHRRN false).ptable = machineRolledBack.ptable
    ∧ admissible EMBRYO UNUSED = false :=
  ⟨reach_oneEmbryo anyQueue, Step.allocFail machineOneEmbryo 0 ⟨_, rfl, rfl⟩,
    by decide, by decide, by decide, by decide⟩

/-! ## `allocproc` and `fork` are sequences of atomic actions -/

theorem allocprocScan_embryo (nextpid : Int) (now : rtcdate) (t t' : List proc) (i : Nat)
    (h : allocprocScan t nextpid now = some (i, t')) : isEmbryo t' i := by
  rcases allocprocScan_cases nextpid now t with ⟨_, h2⟩ | ⟨k, p, h1, _, _, h4⟩
  · rw [h2] at h
    cases h
  · rw [h4] at h
    simp only [Option.some.injEq, Prod.mk.injEq] at h
    obtain ⟨hk, ht⟩ := h
    subst hk ht
    have hlt : k < t.length := by
      rcases Nat.lt_or_ge k t.length with h' | h'
      · exact h'
      · rw [List.getElem?_eq_none h'] at h1
        cases h1
    exact ⟨_, List.getElem?_set_self hlt, rfl⟩

/-- The machine `allocproc` leaves is reachable, and the slot it returns is
EMBRYO. -/
theorem reach_allocproc (okQ : Int → Prop) (n : Nat) (m : Machine) (log : List Int)
    (h : Reach okQ n m log) (hlt : m.nextpid < 2147483647) (now : rtcdate) (kallocOk : Bool) :
    (∃ log', Reach okQ n
      ⟨(allocproc m.ptable m.nextpid now kallocOk).ptable,
        (allocproc m.ptable m.nextpid now kallocOk).nextpid⟩ log')
    ∧ ∀ np, (allocproc m.ptable m.nextpid now kallocOk).slot = some np →
        isEmbryo (allocproc m.ptable m.nextpid now kallocOk).ptable np := by
  have h1 : 1 ≤ m.nextpid := (reach_pidInv okQ n m log h).1.1
  have hw : toInt32 (m.nextpid + 1) = m.nextpid + 1 := toInt32_eq _ (by omega) (by omega)
  cases hscan : allocprocScan m.ptable m.nextpid now with
  | none =>
    simp only [allocproc, hscan]
    exact ⟨⟨log, h⟩, fun np hnp => by cases hnp⟩
  | some r =>
    obtain ⟨i, t⟩ := r
    have hstep : Reach okQ n ⟨t, m.nextpid + 1⟩ ((some m.nextpid).toList ++ log) :=
      Reach.step m _ log _ h (Step.alloc m now i t hscan hlt)
    have hemb := allocprocScan_embryo m.nextpid now m.ptable t i hscan
    cases kallocOk with
    | true =>
      simp only [allocproc, hscan, if_true, hw]
      refine ⟨⟨_, hstep⟩, ?_⟩
      intro np hnp
      cases hnp
      exact hemb
    | false =>
      simp only [allocproc, hscan, Bool.false_eq_true, if_false, hw]
      exact ⟨⟨_, Reach.step _ _ _ _ hstep (Step.allocFail ⟨t, m.nextpid + 1⟩ i hemb)⟩,
        fun np hnp => by cases hnp⟩

theorem isEmbryo_setParent (t : List proc) (np curproc : Nat) (h : isEmbryo t np) :
    isEmbryo (setParent t np curproc) np := by
  obtain ⟨p, hp, hs⟩ := h
  have hlt : np < t.length := by
    rcases Nat.lt_or_ge np t.length with h' | h'
    · exact h'
    · rw [List.getElem?_eq_none h'] at hp
      cases hp
  simp only [setParent, hp]
  exact ⟨_, List.getElem?_set_self hlt, hs⟩

/-- The machine `fork` leaves is reachable. -/
theorem reach_fork (okQ : Int → Prop) (n : Nat) (m : Machine) (log : List Int)
    (h : Reach okQ n m log) (hlt : m.nextpid < 2147483647) (now : rtcdate) (curproc : Nat)
    (kallocOk copyuvmOk : Bool) :
    ∃ log', Reach okQ n
      ⟨(fork m.ptable m.nextpid now curproc kallocOk copyuvmOk).ptable,
        (fork m.ptable m.nextpid now curproc kallocOk copyuvmOk).nextpid⟩ log' := by
  obtain ⟨⟨log1, hr⟩, hemb⟩ := reach_allocproc okQ n m log h hlt now kallocOk
  cases hslot : (allocproc m.ptable m.nextpid now kallocOk).slot with
  | none =>
    simp only [fork, hslot]
    exact ⟨log1, hr⟩
  | some np =>
    have he := hemb np hslot
    cases copyuvmOk with
    | true =>
      simp only [fork, hslot, if_true]
      exact ⟨_, Reach.step _ _ _ _
        (Reach.step _ _ _ _ hr (Step.forkParent _ np curproc he))
        (Step.publish _ np (isEmbryo_setParent _ np curproc he))⟩
    | false =>
      simp only [fork, hslot, Bool.false_eq_true, if_false]
      exact ⟨_, Reach.step _ _ _ _ hr (Step.allocFail _ np he)⟩

/-! ## The lottery always has a winner -/

/-- C19, as amended. For every table whose RUNNABLE queue-1 slots hold
non-negative tickets of sum `T` below `2^31`: when `T == 0`, `findLottery`
returns -1 and
leaves the generator alone; when `T > 0`, for every draw `r` in `[0, T)` the
walk stops at a slot that is RUNNABLE with `queueNumber == 1`, and
`findLottery`, whose draw is `rand() % T`, returns the pid of such a slot. -/
theorem findLottery_winner (t : List proc)
    (hnn : ∀ x ∈ lotteryTickets t, 0 ≤ x) (hlt : (lotteryTickets t).sum < 2147483648) :
    ((lotteryTickets t).sum = 0 → ∀ randstate, findLottery t randstate = (-1, randstate))
    ∧ (0 < (lotteryTickets t).sum →
        (∀ r : Int, 0 ≤ r → r < (lotteryTickets t).sum →
          ∃ k p, lotteryWalk t 0 r = ⟨some k, p.pid⟩ ∧ t[k]? = some p
            ∧ p.state = RUNNABLE ∧ p.mlfq.queueNumber = 1)
        ∧ ∀ randstate, ∃ k p,
            (findLotterySel t randstate).1 = ⟨some k, p.pid⟩
            ∧ findLottery t randstate = (p.pid, rand randstate)
            ∧ (findLotterySel t randstate).1
                = lotteryWalk t 0
                    ((rand randstate % ((lotteryTickets t).sum).toNat : Nat) : Int)
            ∧ t[k]? = some p ∧ p.state = RUNNABLE ∧ p.mlfq.queueNumber = 1) := by
  have hsum : lotterySum t 0 = (lotteryTickets t).sum := by
    rw [lotterySum_eq t 0 hnn (le_refl 0) (by omega)]
    omega
  refine ⟨?_, ?_⟩
  · intro h0 randstate
    simp [findLottery, findLotterySel, hsum, h0]
  · intro hpos
    refine ⟨?_, ?_⟩
    · intro r hr0 hr1
      obtain ⟨k, p, h1, h2, h3, h4⟩ := lotteryWalk_wins t 0 r hnn hlt hr0 hr1
      rw [Nat.zero_add] at h1
      exact ⟨k, p, h1, h2, h3, h4⟩
    · intro randstate
      obtain ⟨k, p, h1, h2, h3, h4⟩ := findLotterySel_wins t randstate hnn hpos hlt
      have hne : (lotteryTickets t).sum ≠ 0 := by omega
      have hdraw : lotteryDraw (rand randstate) (lotteryTickets t).sum
          = ((rand randstate % ((lotteryTickets t).sum).toNat : Nat) : Int) := by
        unfold lotteryDraw
        have hT : (lotteryTickets t).sum % 4294967296 = (lotteryTickets t).sum :=
          Int.emod_eq_of_lt (by omega) (by omega)
        rw [hT]
        have hlt' : rand randstate % ((lotteryTickets t).sum).toNat
            < ((lotteryTickets t).sum).toNat := Nat.mod_lt _ (by omega)
        exact toInt32_eq _ (by omega) (by omega)
      have hsel : (findLotterySel t randstate)
          = (lotteryWalk t 0 (lotteryDraw (rand randstate) (lotteryTickets t).sum),
              rand randstate) := by
        simp only [findLotterySel, hsum, hne, ne_eq, not_false_eq_true, if_true]
      refine ⟨k, p, h1, ?_, ?_, h2, h3, h4⟩
      · simp only [findLottery, h1]
        rw [hsel]
      · rw [hsel, hdraw]

/-- C19, witness: no ticket at all in `tableZeroTicket`, tickets 1, 2 and 7
in `tableTickets127`. -/
theorem findLottery_winner_witness :
    (∀ randstate, findLottery tableZeroTicket randstate = (-1, randstate))
    ∧ (∀ r : Int, 0 ≤ r → r < (lotteryTickets tableTickets127).sum →
        ∃ k p, lotteryWalk tableTickets127 0 r = ⟨some k, p.pid⟩
          ∧ tableTickets127[k]? = some p
          ∧ p.state = RUNNABLE ∧ p.mlfq.queueNumber = 1)
    ∧ ∀ randstate, ∃ k p,
        (findLotterySel tableTickets127 randstate).1 = ⟨some k, p.pid⟩
        ∧ findLottery tableTickets127 randstate = (p.pid, rand randstate)
        ∧ (findLotterySel tableTickets127 randstate).1
            = lotteryWalk tableTickets127 0
                ((rand randstate % ((lotteryTickets tableTickets127).sum).toNat : Nat) : Int)
        ∧ tableTickets127[k]? = some p ∧ p.state = RUNNABLE ∧ p.mlfq.queueNumber = 1 :=
  ⟨(findLottery_winner tableZeroTicket (by decide) (by decide)).1 (by decide),
    ((findLottery_winner tableTickets127 (by decide) (by decide)).2 (by decide)).1,
    ((findLottery_winner tableTickets127 (by decide) (by decide)).2 (by decide)).2⟩

/-- C19, counterexample. In `tableTicketsWrap` the four RUNNABLE queue-1 slots
hold `2^30` tickets each: the tickets are non-negative and their sum `T = 2^32`
is positive, but the `int ticketSum` of the first loop wraps to 0, the guard
`if(ticketSum != 0)` skips the draw and `findLottery` returns -1 for every
generator state. -/
theorem findLottery_winner_counterexample :
    (∀ x ∈ lotteryTickets tableTicketsWrap, 0 ≤ x)
    ∧ (lotteryTickets tableTicketsWrap).sum = 4294967296
    ∧ (∀ p ∈ tableTicketsWrap, p.state = RUNNABLE ∧ p.mlfq.queueNumber = 1)
    ∧ lotterySum tableTicketsWrap 0 = 0
    ∧ ∀ randstate, findLottery tableTicketsWrap randstate = (-1, randstate) :=
  ⟨by decide, by decide, by decide, by decide, fun _ => rfl⟩

/-! ## SRPF tie-break -/

theorem srpfTies_take_lt (m : ℚ) (t : List proc) :
    ∀ (i j : Nat) (p : proc), i < j → t[i]? = some p → p.state = RUNNABLE →
      p.mlfq.queueNumber = 3 → p.mlfq.remainedPriority = m →
      srpfTies m (t.take i) < srpfTies m (t.take j) := by
  induction t with
  | nil => intro i j p _ h; simp at h
  | cons a as ih =>
    intro i j p hij hi hs hq hr
    cases j with
    | zero => omega
    | succ j =>
      cases i with
      | zero =>
        simp only [List.getElem?_cons_zero, Option.some.injEq] at hi
        subst hi
        rw [List.take_succ_cons, srpfTies_cons_in m a _ ⟨hs, hq, hr⟩]
        simp only [List.take_zero, srpfTies]
        omega
      | succ i =>
        have hi' : as[i]? = some p := by simpa using hi
        have := ih i j p (by omega) hi' hs hq hr
        rw [List.take_succ_cons, List.take_succ_cons]
        by_cases hc : a.state = RUNNABLE ∧ a.mlfq.queueNumber = 3
            ∧ a.mlfq.remainedPriority = m
        · rw [srpfTies_cons_in m a _ hc, srpfTies_cons_in m a _ hc]
          omega
        · rw [srpfTies_cons_out m a _ hc, srpfTies_cons_out m a _ hc]
          exact this

/-- C20, as amended. Let `m`, below 500000, be the minimum `remainedPriority`
of the RUNNABLE queue-3 slots and `k` the number of such slots tied at `m`.
When `k > 1`, `findSRPF` advances the generator and returns the pid of the
tied slot that has `rand() % k` tied slots before it in the table, that is the
`j`-th tied slot for `j = (rand() % k) + 1`; a tied slot is the winner exactly
for the one residue equal to the number of tied slots before it. When
`k == 1` the pid of the one slot at the minimum is returned and the generator
state is not advanced. -/
theorem findSRPF_tiebreak (t : List proc) (randstate : Nat) (m : ℚ)
    (hlen : t.length < 2147483647) (hm : m < 500000)
    (hmin : ∀ q ∈ t, q.state = RUNNABLE → q.mlfq.queueNumber = 3 →
      m ≤ q.mlfq.remainedPriority)
    (hex : ∃ q ∈ t, q.state = RUNNABLE ∧ q.mlfq.queueNumber = 3
      ∧ q.mlfq.remainedPriority = m) :
    (1 < srpfTies m t →
      (findSRPFSel t randstate).2 = rand randstate
      ∧ (∃ idx p, (findSRPFSel t randstate).1 = ⟨some idx, p.pid⟩
          ∧ (findSRPF t randstate).1 = p.pid ∧ t[idx]? = some p
          ∧ p.state = RUNNABLE ∧ p.mlfq.queueNumber = 3 ∧ p.mlfq.remainedPriority = m
          ∧ srpfTies m (t.take idx) = rand randstate % srpfTies m t)
      ∧ ∀ (idx : Nat) (p : proc), t[idx]? = some p → p.state = RUNNABLE →
          p.mlfq.queueNumber = 3 → p.mlfq.remainedPriority = m →
          ((findSRPFSel t randstate).1.winner = some idx
            ↔ rand randstate % srpfTies m t = srpfTies m (t.take idx)))
    ∧ (srpfTies m t = 1 →
        (findSRPFSel t randstate).2 = randstate
        ∧ ∃ idx p, (findSRPFSel t randstate).1 = ⟨some idx, p.pid⟩
            ∧ (findSRPF t randstate).1 = p.pid ∧ t[idx]? = some p
            ∧ p.state = RUNNABLE ∧ p.mlfq.queueNumber = 3
            ∧ p.mlfq.remainedPriority = m) := by
  obtain ⟨q, hq, hq1, hq2, hq3⟩ := hex
  rcases srpfScan_spec t 0 ⟨⟨none, -1⟩, 500000, 1⟩ (by simp) (by simp only; omega)
    with ⟨h1, _⟩ | ⟨k0, p0, h1, h2, h3, _, h5, h6, _⟩
  · obtain ⟨j, hj⟩ := List.mem_iff_getElem?.mp hq
    have := h1 j q hj hq1 hq2
    simp only at this
    rw [hq3] at this
    exact absurd hm (not_lt.mpr this)
  · rw [Nat.zero_add] at h5
    have hp0 : p0.mlfq.remainedPriority = m := by
      obtain ⟨j, hj⟩ := List.mem_iff_getElem?.mp hq
      have hle := h6 j q hj hq1 hq2
      rw [hq3] at hle
      exact le_antisymm hle (hmin p0 (List.getElem?_mem h1) h2 h3)
    rw [hp0] at h5
    have hle := srpfTies_le_length m t
    refine ⟨?_, ?_⟩
    · intro hk
      have hd := srpfDraw_range (rand randstate) (srpfTies m t) (by omega) (by omega)
      obtain ⟨idx, p, hk1, hk2, hk3, hk4, hk5, hk6⟩ :=
        srpfPick_spec m t 0 (srpfDraw (rand randstate) (srpfTies m t : Int))
          ⟨some k0, p0.pid⟩ hd.1 hd.2.1 (by omega)
      rw [Nat.zero_add] at hk1
      have hne : ((srpfTies m t : Nat) : Int) ≠ 1 := by omega
      have hsel : findSRPFSel t randstate = (⟨some idx, p.pid⟩, rand randstate) := by
        simp only [findSRPFSel, h5, hne, ne_eq, not_false_eq_true, if_true]
        rw [hk1]
      have hcount : srpfTies m (t.take idx) = rand randstate % srpfTies m t := by
        have := hd.2.2
        omega
      refine ⟨by rw [hsel], ⟨idx, p, by rw [hsel], by simp [findSRPF, hsel], hk2, hk3, hk4,
        hk5, hcount⟩, ?_⟩
      intro idx' p' hi' hs' hq' hr'
      rw [hsel]
      simp only [Option.some.injEq]
      constructor
      · intro e
        rw [← e, hcount]
      · intro e
        rcases Nat.lt_trichotomy idx idx' with hlt | heq | hgt
        · have := srpfTies_take_lt m t idx idx' p hlt hk2 hk3 hk4 hk5
          omega
        · exact heq
        · have := srpfTies_take_lt m t idx' idx p' hgt hi' hs' hq' hr'
          omega
    · intro hk
      have hone : ((srpfTies m t : Nat) : Int) = 1 := by omega
      have hsel : findSRPFSel t randstate = (⟨some k0, p0.pid⟩, randstate) := by
        simp [findSRPFSel, h5, hone]
      exact ⟨by rw [hsel], k0, p0, by rw [hsel], by simp [findSRPF, hsel], h1, h2, h3, hp0⟩

/-- C20, counterexample. In `tableTiedAtBound` two RUNNABLE queue-3 slots tie
at the minimum 500000. The first loop of `findSRPF` counts them on top of the
initial `repeatedMinNum = 1`, so the draw is `rand() % 3 + 1`; from generator
state 2 it is 3, there is no third tied slot, and -1, the pid of no slot, is
returned, where the claim has the second tied slot (`rand() % 2 + 1 == 2`). -/
theorem findSRPF_tiebreak_counterexample :
    srpfTies 500000 tableTiedAtBound = 2
    ∧ (∀ q ∈ tableTiedAtBound, q.state = RUNNABLE ∧ q.mlfq.queueNumber = 3
        ∧ q.mlfq.remainedPriority = 500000)
    ∧ (srpfScan tableTiedAtBound 0 ⟨⟨none, -1⟩, 500000, 1⟩).repeatedMinNum = 3
    ∧ rand 2 % 2 + 1 = 2
    ∧ srpfDraw (rand 2) 3 = 3
    ∧ findSRPF tableTiedAtBound 2 = (-1, rand 2)
    ∧ ∀ q ∈ tableTiedAtBound, q.pid ≠ -1 := by
  decide
theorem tableTiedSRPF_min :
    (∀ q ∈ tableTiedSRPF, q.state = RUNNABLE → q.mlfq.queueNumber = 3 →
      (3 / 10 : ℚ) ≤ q.mlfq.remainedPriority)
    ∧ ∃ q ∈ tableTiedSRPF, q.state = RUNNABLE ∧ q.mlfq.queueNumber = 3
        ∧ q.mlfq.remainedPriority = 3 / 10 := by
  refine ⟨?_, ⟨_, List.mem_cons_of_mem _ (List.mem_cons_self _ _), rfl, rfl, rfl⟩⟩
  intro q hq _ _
  simp only [tableTiedSRPF, List.mem_cons, List.mem_singleton, List.not_mem_nil,
    or_false] at hq
  rcases hq with rfl | rfl | rfl <;> norm_num

theorem tableTiedSRPF_ties : srpfTies (3 / 10) tableTiedSRPF = 2 := by
  norm_num [srpfTies, tableTiedSRPF]

/-- C20, witness: in `tableTiedSRPF` slots 1 and 2 (pids 5 and 6) tie at the
minimum 3/10; from generator state 1 the residue is 0 and pid 5 is returned,
from generator state 2 the residue is 1 and pid 6 is returned. -/
theorem findSRPF_tiebreak_witness :
    srpfTies (3 / 10) tableTiedSRPF = 2
    ∧ rand 1 % 2 = 0 ∧ (findSRPF tableTiedSRPF 1).1 = 5
    ∧ rand 2 % 2 = 1 ∧ (findSRPF tableTiedSRPF 2).1 = 6
    ∧ ((1 < srpfTies (3 / 10) tableTiedSRPF →
        (findSRPFSel tableTiedSRPF 1).2 = rand 1
        ∧ (∃ idx p, (findSRPFSel tableTiedSRPF 1).1 = ⟨some idx, p.pid⟩
            ∧ (findSRPF tableTiedSRPF 1).1 = p.pid ∧ tableTiedSRPF[idx]? = some p
            ∧ p.state = RUNNABLE ∧ p.mlfq.queueNumber = 3
            ∧ p.mlfq.remainedPriority = 3 / 10
            ∧ srpfTies (3 / 10) (tableTiedSRPF.take idx)
                = rand 1 % srpfTies (3 / 10) tableTiedSRPF)
        ∧ ∀ (idx : Nat) (p : proc), tableTiedSRPF[idx]? = some p → p.state = RUNNABLE →
            p.mlfq.queueNumber = 3 → p.mlfq.remainedPriority = 3 / 10 →
            ((findSRPFSel tableTiedSRPF 1).1.winner = some idx
              ↔ rand 1 % srpfTies (3 / 10) tableTiedSRPF
                  = srpfTies (3 / 10) (tableTiedSRPF.take idx)))
      ∧ (srpfTies (3 / 10) tableTiedSRPF = 1 →
          (findSRPFSel tableTiedSRPF 1).2 = 1
          ∧ ∃ idx p, (findSRPFSel tableTiedSRPF 1).1 = ⟨some idx, p.pid⟩
              ∧ (findSRPF tableTiedSRPF 1).1 = p.pid ∧ tableTiedSRPF[idx]? = some p
              ∧ p.state = RUNNABLE ∧ p.mlfq.queueNumber = 3
              ∧ p.mlfq.remainedPriority = 3 / 10)) :=
  ⟨tableTiedSRPF_ties, by decide,
    by norm_num [findSRPF, findSRPFSel, srpfScan, srpfPick, srpfDraw, rand, toInt32,
      tableTiedSRPF],
    by decide,
    by norm_num [findSRPF, findSRPFSel, srpfScan, srpfPick, srpfDraw, rand, toInt32,
      tableTiedSRPF],
    findSRPF_tiebreak tableTiedSRPF 1 (3 / 10) (by decide) (by norm_num)
      tableTiedSRPF_min.1 tableTiedSRPF_min.2⟩

/-! ## The buffer of `printInfo` -/

theorem intToStr_length_ge (x d : Int) : d.toNat ≤ (intToStr x d).length := by
  simp only [intToStr, List.length_reverse, List.length_append, List.length_replicate]
  omega

theorem intToStr_length_pos (x : Int) : 1 ≤ (intToStr x 0).length := by
  by_cases hx : x = 0
  · subst hx
    simp [intToStr]
    omega
  · obtain ⟨n, hn⟩ : ∃ n, x.natAbs = n + 1 :=
      Nat.exists_eq_succ_of_ne_zero (fun h => hx (Int.natAbs_eq_zero.mp h))
    simp [intToStr, hx, hn, intToStrLoop]
    omega

theorem floatToStr_length_ge (f : float) (afterpoint : Int) :
    afterpoint.toNat + 2 ≤ (floatToStr f afterpoint).length := by
  have h1 := intToStr_length_pos (floatToInt f)
  have h2 := intToStr_length_ge
    (floatToInt (scaleFpart afterpoint.toNat (float.sub f (float.ofInt (floatToInt f)))))
    afterpoint
  simp only [floatToStr, List.length_append, List.length_cons]
  omega

theorem printInfoLoop_rows (cmostime : Nat → rtcdate) (t : List proc) :
    ∀ (i : Nat) (row : List (List Char)), row ∈ printInfoLoop cmostime t i →
      ∃ k p, t[k]? = some p ∧ p.state ≠ UNUSED ∧ p.state ≠ EMBRYO
        ∧ row = printInfoBuf (cmostime (i + k)) p := by
  induction t with
  | nil =>
    intro i row h
    simp [printInfoLoop] at h
  | cons a as ih =>
    intro i row h
    by_cases hc : a.state = UNUSED ∨ a.state = EMBRYO
    · simp only [printInfoLoop, hc, if_true] at h
      obtain ⟨k, p, h1, h2, h3, h4⟩ := ih (i + 1) row h
      refine ⟨k + 1, p, by simpa using h1, h2, h3, ?_⟩
      rw [h4]
      congr 2
      omega
    · simp only [printInfoLoop, hc, if_false] at h
      rcases List.mem_cons.mp h with h | h
      · exact ⟨0, a, by simp, fun h0 => hc (Or.inl h0), fun h1 => hc (Or.inr h1),
          by rw [h]; rfl⟩
      · obtain ⟨k, p, h1, h2, h3, h4⟩ := ih (i + 1) row h
        refine ⟨k + 1, p, by simpa using h1, h2, h3, ?_⟩
        rw [h4]
        congr 2
        omega

/-- C22, the code on every input. Every row `printInfo` prints (a slot `p`
that is neither UNUSED nor EMBRYO, at the clock reading of its row) makes six
writes into `buf`, and the last one, `floatToStr(HRRN, 3, buf)`, stores at
least six bytes with its terminating NUL: a digit or more, the point and three
decimals. That is more than the five bytes of `buf`, whatever the table and
the clock. The bound does not depend on the value converted, so it also covers
`executedCycleNumber == 0`, where the quotient is an infinity or a NaN. -/
theorem printInfo_buf_overflow (ptable : List proc) (cmostime : Nat → rtcdate)
    (row : List (List Char)) (h : row ∈ printInfo ptable cmostime) :
    ∃ k p, ptable[k]? = some p ∧ p.state ≠ UNUSED ∧ p.state ≠ EMBRYO
      ∧ row = printInfoBuf (cmostime k) p
      ∧ row.length = 6
      ∧ row[5]? = some (floatToStr (HRRN (cmostime k) p) 3)
      ∧ bufSize + 1 ≤ bytesWritten (floatToStr (HRRN (cmostime k) p) 3) := by
  obtain ⟨k, p, h1, h2, h3, h4⟩ := printInfoLoop_rows cmostime ptable 0 row h
  rw [Nat.zero_add] at h4
  refine ⟨k, p, h1, h2, h3, h4, by rw [h4]; rfl, by rw [h4]; rfl, ?_⟩
  have := floatToStr_length_ge (HRRN (cmostime k) p) 3
  simp only [bufSize, bytesWritten]
  have h3 : (3 : Int).toNat = 3 := rfl
  omega

theorem hrrn_freshSlot (pid : Int) : HRRN {} (freshSlot pid) = float.fin 0 := by
  have hw : waitingTime {} (freshSlot pid).mlfq.arrivalTime = 0 := by
    show waitingTime {} {} = 0
    decide
  rw [HRRN_small {} (freshSlot pid) 0 1 hw rfl (by decide) (by decide) (by decide)]
  simp only [Int.cast_zero, zero_div, fl32_zero]

theorem float_sub_ofInt (n : Int) (hn : |n| < 16777216) :
    float.sub (float.fin (n : ℚ)) (float.ofInt n) = float.fin 0 := by
  simp only [float.sub, float.ofInt, float.neg, fl32_int n hn]
  rw [float.add_fin _ _ (by simp), add_neg_cancel, fl32_zero]

theorem scaleFpart_zero (k : Nat) : scaleFpart k (float.fin 0) = float.fin 0 := by
  induction k with
  | zero => rfl
  | succ k ih =>
    simp only [scaleFpart, float.ofInt]
    rw [float.mul_fin _ _ (by simp), zero_mul, fl32_zero]
    exact ih

theorem floatToStr_small_int (n : Nat) (hn : n < 16777216) (afterpoint : Int) :
    floatToStr (float.fin (n : ℚ)) afterpoint
      = intToStr (n : Int) 0 ++ '.' :: intToStr 0 afterpoint := by
  have hi : floatToInt (float.fin (n : ℚ)) = (n : Int) := by
    rw [floatToInt_floor _ (Nat.cast_nonneg n)
      (by exact_mod_cast (by omega : n < 2147483648))]
    exact Int.floor_natCast n
  have hz : floatToInt (float.fin 0) = 0 := by
    rw [floatToInt_floor _ (le_refl 0) (by norm_num)]
    exact Int.floor_zero
  have hsub : float.sub (float.fin (n : ℚ)) (float.ofInt (n : Int)) = float.fin 0 := by
    have := float_sub_ofInt (n : Int) (by rw [abs_of_nonneg (by omega)]; omega)
    simpa using this
  simp only [floatToStr, hi, hsub, scaleFpart_zero, hz]

/-- C22, witness: two fresh processes (pids 1 and 2) listed at their arrival
time. The first row writes `1`, `1.0`, `10`, `1`, `1` and `0.000` into `buf`:
two, four, three, two, two and six bytes. -/
theorem printInfo_buf_overflow_witness :
    printInfoBuf {} (freshSlot 1) ∈ printInfo tableTwoFresh (fun _ => {})
    ∧ printInfoBuf {} (freshSlot 1)
        = [['1'], ['1', '.', '0'], ['1', '0'], ['1'], ['1'], ['0', '.', '0', '0', '0']]
    ∧ (printInfoBuf {} (freshSlot 1)).map bytesWritten = [2, 4, 3, 2, 2, 6]
    ∧ ∃ (k : Nat) (p : proc), tableTwoFresh[k]? = some p ∧ p.state ≠ UNUSED
      ∧ p.state ≠ EMBRYO
      ∧ printInfoBuf {} (freshSlot 1) = printInfoBuf {} p
      ∧ (printInfoBuf {} (freshSlot 1)).length = 6
      ∧ (printInfoBuf {} (freshSlot 1))[5]? = some (floatToStr (HRRN {} p) 3)
      ∧ bufSize + 1 ≤ bytesWritten (floatToStr (HRRN {} p) 3) := by
  have hmem : printInfoBuf {} (freshSlot 1) ∈ printInfo tableTwoFresh (fun _ => {}) := by
    have hs : (freshSlot 1).state = RUNNABLE := rfl
    simp [printInfo, printInfoLoop, tableTwoFresh, hs]
  have hrow : printInfoBuf {} (freshSlot 1)
      = [['1'], ['1', '.', '0'], ['1', '0'], ['1'], ['1'], ['0', '.', '0', '0', '0']] := by
    have hr : (freshSlot 1).mlfq.remainedPriority = ((1 : Nat) : ℚ) := by
      show (1 : ℚ) = ((1 : Nat) : ℚ)
      norm_num
    have h1 : floatToStr (float.fin (freshSlot 1).mlfq.remainedPriority) 1
        = ['1', '.', '0'] := by
      rw [hr, floatToStr_small_int 1 (by decide) 1]
      decide
    have h2 : floatToStr (HRRN {} (freshSlot 1)) 3 = ['0', '.', '0', '0', '0'] := by
      rw [hrrn_freshSlot]
      have := floatToStr_small_int 0 (by decide) 3
      simp only [Nat.cast_zero] at this
      rw [this]
      decide
    simp only [printInfoBuf, h1, h2]
    decide
  exact ⟨hmem, hrow, by rw [hrow]; rfl,
    printInfo_buf_overflow tableTwoFresh (fun _ => {}) _ hmem⟩

/-! ## What reaches the round-robin fallback -/

theorem lotteryTickets_mem (t : List proc) :
    ∀ (i : Nat) (p : proc), t[i]? = some p → p.state = RUNNABLE → p.mlfq.queueNumber = 1 →
      p.mlfq.lotteryTicket ∈ lotteryTickets t := by
  induction t with
  | nil => intro i p h; simp at h
  | cons a as ih =>
    intro i p hi hs hq
    cases i with
    | zero =>
      simp only [List.getElem?_cons_zero, Option.some.injEq] at hi
      subst hi
      rw [lotteryTickets_cons_in a as hs hq]
      exact List.mem_cons_self _ _
    | succ i =>
      have hmem := ih i p (by simpa using hi) hs hq
      by_cases hc : a.state = RUNNABLE ∧ a.mlfq.queueNumber = 1
      · rw [lotteryTickets_cons_in a as hc.1 hc.2]
        exact List.mem_cons_of_mem _ hmem
      · rw [lotteryTickets_cons_out a as hc]
        exact hmem

theorem sum_zero_all_zero (l : List Int) (h : ∀ x ∈ l, 0 ≤ x) (hs : l.sum = 0) :
    ∀ x ∈ l, x = 0 := by
  induction l with
  | nil => intro x hx; simp at hx
  | cons a as ih =>
    have ha : 0 ≤ a := h a (List.mem_cons_self a as)
    have has : ∀ x ∈ as, 0 ≤ x := fun x hx => h x (List.mem_cons_of_mem a hx)
    have hnn := sum_nonneg_of_forall as has
    simp only [List.sum_cons] at hs
    intro x hx
    rcases List.mem_cons.mp hx with rfl | hx
    · omega
    · exact ih has (by omega) x hx

theorem hrrnLoop_none (cmostime : Nat → rtcdate) (t : List proc) :
    ∀ (i : Nat) (mx : float) (sel : Selection),
      (∀ p ∈ t, p.state = RUNNABLE → p.pid ≠ -1) →
      (hrrnLoop cmostime t i mx sel).foundPid = -1 →
      ∀ (j : Nat) (q : proc), t[j]? = some q → q.state = RUNNABLE →
        q.mlfq.queueNumber = 2 → ¬ (HRRN (cmostime (i + j)) q > mx) := by
  induction t with
  | nil => intro i mx sel _ _ j q hj; simp at hj
  | cons a as ih =>
    intro i mx sel hpid h j q hj hqs hqq
    have hpid' : ∀ p ∈ as, p.state = RUNNABLE → p.pid ≠ -1 :=
      fun p hp => hpid p (List.mem_cons_of_mem _ hp)
    by_cases hc : a.state = RUNNABLE ∧ a.mlfq.queueNumber = 2 ∧ HRRN (cmostime i) a > mx
    · exfalso
      have hstep : hrrnLoop cmostime (a :: as) i mx sel
          = hrrnLoop cmostime as (i + 1) (HRRN (cmostime i) a) ⟨some i, a.pid⟩ := by
        simp [hrrnLoop, hc.1, hc.2.1, hc.2.2]
      rw [hstep] at h
      rcases hrrnLoop_sound cmostime as (i + 1) (HRRN (cmostime i) a) ⟨some i, a.pid⟩
        with h' | ⟨p, hp, h1, h2⟩
      · rw [h'] at h
        exact hpid a (List.mem_cons_self _ _) hc.1 h
      · rw [h2] at h
        exact hpid' p hp h1 h
    · have hstep : hrrnLoop cmostime (a :: as) i mx sel
          = hrrnLoop cmostime as (i + 1) mx sel := by
        by_cases hs : a.state = RUNNABLE
        · by_cases hq : a.mlfq.queueNumber = 2
          · have hgt : ¬ HRRN (cmostime i) a > mx := fun hgt => hc ⟨hs, hq, hgt⟩
            simp [hrrnLoop, hs, hq, hgt]
          · simp [hrrnLoop, hs, hq]
        · simp [hrrnLoop, hs]
      rw [hstep] at h
      cases j with
      | zero =>
        simp only [List.getElem?_cons_zero, Option.some.injEq] at hj
        subst hj
        exact fun hgt => hc ⟨hqs, hqq, hgt⟩
      | succ j =>
        have := ih (i + 1) mx sel hpid' h j q (by simpa using hj) hqs hqq
        have hidx : i + (j + 1) = i + 1 + j := by omega
        rw [hidx]
        exact this

theorem findSRPFSel_wins (t : List proc) (randstate : Nat)
    (hlen : t.length < 2147483647)
    (hex : ∃ p ∈ t, p.state = RUNNABLE ∧ p.mlfq.queueNumber = 3
      ∧ p.mlfq.remainedPriority < 500000) :
    ∃ k p, (findSRPFSel t randstate).1 = ⟨some k, p.pid⟩ ∧ t[k]? = some p
      ∧ p.state = RUNNABLE ∧ p.mlfq.queueNumber = 3 := by
  rcases srpfScan_spec t 0 ⟨⟨none, -1⟩, 500000, 1⟩ (by simp) (by simp only; omega)
    with ⟨h1, _⟩ | ⟨k, p, h1, h2, h3, _, h5, _, _⟩
  · obtain ⟨q, hq, hq1, hq2, hq3⟩ := hex
    obtain ⟨j, hj⟩ := List.mem_iff_getElem?.mp hq
    exact absurd hq3 (not_lt.mpr (h1 j q hj hq1 hq2))
  · have hpos := srpfTies_pos t k p h1 h2 h3
    have hle := srpfTies_le_length p.mlfq.remainedPriority t
    rw [Nat.zero_add] at h5
    by_cases hone : srpfTies p.mlfq.remainedPriority t = 1
    · refine ⟨k, p, ?_, h1, h2, h3⟩
      simp [findSRPFSel, h5, hone]
    · have hd := srpfDraw_range (rand randstate) (srpfTies p.mlfq.remainedPriority t) hpos
        (by omega)
      obtain ⟨k', p', hk1, hk2, hk3, hk4, _, _⟩ :=
        srpfPick_spec p.mlfq.remainedPriority t 0
          (srpfDraw (rand randstate) (srpfTies p.mlfq.remainedPriority t : Int))
          ⟨some k, p.pid⟩ hd.1 hd.2.1 (by omega)
      rw [Nat.zero_add] at hk1
      refine ⟨k', p', ?_, hk2, hk3, hk4⟩
      have hne : ((srpfTies p.mlfq.remainedPriority t : Nat) : Int) ≠ 1 := by omega
      simp only [findSRPFSel, h5, hne, ne_eq, not_false_eq_true, if_true]
      rw [hk1]

theorem reach_zeroTicket (okQ : Int → Prop) : Reach okQ 1 machineZeroTicket [1] :=
  Reach.step ⟨[{ allocated {} 1 {} with state := RUNNABLE }], 1 + 1⟩ machineZeroTicket [1] none
    (Reach.step ⟨[allocated {} 1 {}], 1 + 1⟩
      ⟨[{ allocated {} 1 {} with state := RUNNABLE }], 1 + 1⟩ [1] none
      (Reach.step ⟨initialTable 1, 1⟩ ⟨[allocated {} 1 {}], 1 + 1⟩ [] (some 1) Reach.init
        (Step.alloc ⟨initialTable 1, 1⟩ {} 0 [allocated {} 1 {}] rfl (by decide)))
      (Step.publish ⟨[allocated {} 1 {}], 1 + 1⟩ 0 ⟨_, rfl, rfl⟩))
    (Step.setLotteryTicket ⟨[{ allocated {} 1 {} with state := RUNNABLE }], 1 + 1⟩ 1 0)

/-- C21, as amended. For every table (of fewer than `2^31 - 1` slots) in
which every slot's `queueNumber` is 1, 2 or 3, no RUNNABLE slot has pid `-1`,
the RUNNABLE queue-1 slots hold non-negative tickets of sum within `int` and
the RUNNABLE queue-2 slots have a non-zero `executedCycleNumber` (so that the
HRRN is a number), for every clock reading and all generator states: if
`findLottery`, `findHRRN` and `findSRPF` all return -1, then every RUNNABLE
slot is a queue-1 slot holding no ticket, a queue-2 slot whose HRRN at its
clock reading (the `float` quotient of the waiting time in seconds by
`executedCycleNumber`) is at most `-1`, the initial `maxHRRN`, or a queue-3 slot whose
`remainedPriority` is at least 500000, the initial `minRemainedPriority`.
Hence no slot is RUNNABLE when in addition every RUNNABLE slot of queue 1
holds a ticket, of queue 2 has an HRRN above `-1` and of queue 3 a
`remainedPriority` below 500000. -/
theorem fallback_runnable_slots (t : List proc) (cmostime : Nat → rtcdate)
    (randLottery randSRPF : Nat)
    (hq : ∀ p ∈ t, validQueue p.mlfq.queueNumber)
    (hpid : ∀ p ∈ t, p.state = RUNNABLE → p.pid ≠ -1)
    (hnn : ∀ x ∈ lotteryTickets t, 0 ≤ x) (hlt : (lotteryTickets t).sum < 2147483648)
    (hdiv : ∀ p ∈ t, p.state = RUNNABLE → p.mlfq.queueNumber = 2 →
      p.mlfq.executedCycleNumber ≠ 0)
    (hlen : t.length < 2147483647)
    (hL : (findLottery t randLottery).1 = -1) (hH : findHRRN t cmostime = -1)
    (hS : (findSRPF t randSRPF).1 = -1) :
    (∀ (i : Nat) (p : proc), t[i]? = some p → p.state = RUNNABLE →
      (p.mlfq.queueNumber = 1 ∧ p.mlfq.lotteryTicket = 0)
      ∨ (p.mlfq.queueNumber = 2 ∧ HRRN (cmostime i) p ≤ float.fin (-1)
          ∧ HRRN (cmostime i) p
              = float.fin (fl32 (fl32 (waitingTime (cmostime i) p.mlfq.arrivalTime : ℚ)
                  / fl32 (p.mlfq.executedCycleNumber : ℚ))))
      ∨ (p.mlfq.queueNumber = 3 ∧ 500000 ≤ p.mlfq.remainedPriority))
    ∧ ((∀ (i : Nat) (p : proc), t[i]? = some p → p.state = RUNNABLE →
          (p.mlfq.queueNumber = 1 → p.mlfq.lotteryTicket ≠ 0)
          ∧ (p.mlfq.queueNumber = 2 → float.fin (-1) < HRRN (cmostime i) p)
          ∧ (p.mlfq.queueNumber = 3 → p.mlfq.remainedPriority < 500000)) →
        ∀ p ∈ t, p.state ≠ RUNNABLE) := by
  have hres : ∀ (i : Nat) (p : proc), t[i]? = some p → p.state = RUNNABLE →
      (p.mlfq.queueNumber = 1 ∧ p.mlfq.lotteryTicket = 0)
      ∨ (p.mlfq.queueNumber = 2 ∧ HRRN (cmostime i) p ≤ float.fin (-1)
          ∧ HRRN (cmostime i) p
              = float.fin (fl32 (fl32 (waitingTime (cmostime i) p.mlfq.arrivalTime : ℚ)
                  / fl32 (p.mlfq.executedCycleNumber : ℚ))))
      ∨ (p.mlfq.queueNumber = 3 ∧ 500000 ≤ p.mlfq.remainedPriority) := by
    intro i p hi hs
    rcases hq p (List.getElem?_mem hi) with h1 | h2 | h3
    · left
      refine ⟨h1, ?_⟩
      have hsum : (lotteryTickets t).sum = 0 := by
        by_contra hne
        have hpos : 0 < (lotteryTickets t).sum := by
          have := sum_nonneg_of_forall _ hnn
          omega
        obtain ⟨k, w, hw1, hw2, hw3, _⟩ := findLotterySel_wins t randLottery hnn hpos hlt
        have : (findLottery t randLottery).1 = w.pid := by simp [findLottery, hw1]
        rw [this] at hL
        exact hpid w (List.getElem?_mem hw2) hw3 hL
      exact sum_zero_all_zero _ hnn hsum _ (lotteryTickets_mem t i p hi hs h1)
    · right
      left
      have := hrrnLoop_none cmostime t 0 (float.fin (-1)) ⟨none, -1⟩ hpid hH i p hi hs h2
      rw [Nat.zero_add] at this
      have hv := HRRN_fin (cmostime i) p (hdiv p (List.getElem?_mem hi) hs h2)
      refine ⟨h2, ?_, hv⟩
      rw [hv] at this ⊢
      rw [float.fin_le_fin]
      exact not_lt.mp (fun hgt => this ((float.fin_lt_fin _ _).mpr hgt))
    · right
      right
      refine ⟨h3, ?_⟩
      by_contra hlt3
      obtain ⟨k, w, hw1, hw2, hw3, _⟩ := findSRPFSel_wins t randSRPF hlen
        ⟨p, List.getElem?_mem hi, hs, h3, not_le.mp hlt3⟩
      have : (findSRPF t randSRPF).1 = w.pid := by simp [findSRPF, hw1]
      rw [this] at hS
      exact hpid w (List.getElem?_mem hw2) hw3 hS
  refine ⟨hres, ?_⟩
  intro hgood p hp hs
  obtain ⟨i, hi⟩ := List.mem_iff_getElem?.mp hp
  obtain ⟨g1, g2, g3⟩ := hgood i p hi hs
  rcases hres i p hi hs with ⟨h1, h0⟩ | ⟨h2, hle, hv⟩ | ⟨h3, hge⟩
  · exact g1 h1 h0
  · have hlt := g2 h2
    rw [hv] at hle hlt
    exact absurd ((float.fin_lt_fin _ _).mp hlt) (not_lt.mpr ((float.fin_le_fin _ _).mp hle))
  · exact absurd (g3 h3) (not_lt.mpr hge)

/-- C21, witness: in `tableZeroTicket` the three selectors return -1 and the
RUNNABLE slot is a queue-1 slot holding no ticket; in `tableOneEmbryo` they
return -1 and no slot is RUNNABLE. -/
theorem fallback_runnable_slots_witness :
    (∀ (i : Nat) (p : proc), tableZeroTicket[i]? = some p → p.state = RUNNABLE →
      (p.mlfq.queueNumber = 1 ∧ p.mlfq.lotteryTicket = 0)
      ∨ (p.mlfq.queueNumber = 2 ∧ HRRN {} p ≤ float.fin (-1)
          ∧ HRRN {} p
              = float.fin (fl32 (fl32 (waitingTime {} p.mlfq.arrivalTime : ℚ)
                  / fl32 (p.mlfq.executedCycleNumber : ℚ))))
      ∨ (p.mlfq.queueNumber = 3 ∧ 500000 ≤ p.mlfq.remainedPriority))
    ∧ ∀ p ∈ tableOneEmbryo, p.state ≠ RUNNABLE :=
  ⟨(fallback_runnable_slots tableZeroTicket (fun _ => {}) 1 1
      (by simp [tableZeroTicket, validQueue]) (by decide) (by decide) (by decide) (by decide)
      (by decide) (by decide) (by decide) (by decide)).1,
    (fallback_runnable_slots tableOneEmbryo (fun _ => clockLoneHRRN) 1 1
      (by simp [tableOneEmbryo, allocated, validQueue]) (by decide) (by decide) (by decide)
      (by decide) (by decide) (by decide) (by decide) (by decide)).2
      (fun i p hi hs =>
        absurd hs ((by decide : ∀ p ∈ tableOneEmbryo, p.state ≠ RUNNABLE) p
          (List.getElem?_mem hi)))⟩

/-- C21, counterexample. The machine `machineZeroTicket` is reached from the
initial table of one slot by an allocation (pid 1), `np->state = RUNNABLE` and
`setLotteryTicket(1, 0)`. Its slot is RUNNABLE with `queueNumber == 1` and no
ticket, so `ticketSum == 0`: `findLottery`, `findHRRN` and `findSRPF` return -1
for every generator state and every clock, the scheduler enters its
round-robin fallback and switches into the slot. -/
theorem fallback_runnable_counterexample :
    Reach validQueue 1 machineZeroTicket [1]
    ∧ (∀ p ∈ machineZeroTicket.ptable, validQueue p.mlfq.queueNumber)
    ∧ (∀ randstate, (findLottery machineZeroTicket.ptable randstate).1 = -1)
    ∧ (∀ cmostime, findHRRN machineZeroTicket.ptable cmostime = -1)
    ∧ (∀ randstate, (findSRPF machineZeroTicket.ptable randstate).1 = -1)
    ∧ (∀ randstate cmostime isThirdQueue,
        (scheduler machineZeroTicket.ptable randstate cmostime isThirdQueue).branch
          = Branch.fallback
        ∧ (scheduler machineZeroTicket.ptable randstate cmostime isThirdQueue).current
          = some 0)
    ∧ ∃ p ∈ machineZeroTicket.ptable, p.state = RUNNABLE :=
  ⟨reach_zeroTicket validQueue, by simp [machineZeroTicket, tableZeroTicket, validQueue],
    fun _ => rfl, fun _ => rfl, fun _ => rfl, fun _ _ _ => ⟨rfl, rfl⟩,
    ⟨_, List.mem_cons_self _ _, rfl⟩⟩

end Xv6
